import Mathlib

/-!
Verification of the `arithm` repository (Hobby-spline solver `jhobby` and the
linear-equation solver `polyn`) against its natural-language specification.

The development contains two shallow embeddings of the `jhobby` path model:

* an exact, decidable model over `GF` (a rational number extended with the
  IEEE special values NaN and plus/minus infinity), used for the claims about
  validation, segmentation, index access and tension clamping, where the Go
  code's NaN/Inf handling is observable; and
* a real-number model (`RPath` etc.), used for the claims about the numeric
  solver itself, where float64 arithmetic is idealized to exact real
  arithmetic.

The `polyn` linear-equation solver is embedded over exact rationals, with the
Go map-with-ascending-iteration represented as an association list and the
observable in-place mutations of shared term maps threaded explicitly.
All embedded functions keep their Go names where Lean permits.
-/

namespace JHobby

/-- A Go `float64` value as observable by the validation code: either a finite
value (idealized to an exact rational) or one of the special values NaN,
`+Inf`, `-Inf`. -/
inductive GF where
  | fin (q : ℚ)
  | nan
  | pinf
  | ninf
deriving DecidableEq, Repr

/-- Model of `math.IsNaN`. -/
def GF.isNaN : GF → Bool
  | .nan => true
  | _ => false

/-- Model of `math.IsInf(x, 0)` (infinite with either sign). -/
def GF.isInf : GF → Bool
  | .pinf => true
  | .ninf => true
  | _ => false

/-- Go float64 subtraction on `GF` values (IEEE semantics: NaN propagates,
`Inf - Inf` of equal signs is NaN, `Inf` dominates finite values). -/
def GF.sub : GF → GF → GF
  | .nan, _ => .nan
  | _, .nan => .nan
  | .pinf, .pinf => .nan
  | .ninf, .ninf => .nan
  | .pinf, _ => .pinf
  | .ninf, _ => .ninf
  | .fin _, .pinf => .ninf
  | .fin _, .ninf => .pinf
  | .fin a, .fin b => .fin (a - b)

/-- A `Pair` (complex value) of the Go code, componentwise. -/
abbrev GFPair := GF × GF

/-- Componentwise subtraction of pairs, as complex subtraction does. -/
def subC (a b : GFPair) : GFPair := (a.1.sub b.1, a.2.sub b.2)

/-- The NaN pair `cmplx.NaN()`, the sentinel for "unknown point". -/
def nanC : GFPair := (GF.nan, GF.nan)

/-- Model of `cmplx.IsNaN`: some component NaN and no component infinite. -/
def isNaNC (c : GFPair) : Bool :=
  (c.1.isNaN || c.2.isNaN) && !(c.1.isInf || c.2.isInf)

/-- The numeric tolerance `_epsilon = 0.0000001` of the source. -/
def eps : ℚ := 1 / 10000000

/-- Model of the test `cmplx.Abs d <= _epsilon`.  `cmplx.Abs` is
`math.Hypot x y`: it is `+Inf` whenever a component is infinite, NaN when a
component is NaN (and none infinite), and `sqrt (x^2 + y^2)` on finite
components.  Comparisons of NaN or `+Inf` against epsilon are false, and on
finite values `sqrt (x^2 + y^2) <= eps` iff `x^2 + y^2 <= eps^2` since both
sides are nonnegative. -/
def absLeEps (d : GFPair) : Bool :=
  match d with
  | (GF.fin x, GF.fin y) => decide (x ^ 2 + y ^ 2 ≤ eps ^ 2)
  | _ => false

/-- The `Path` data model of `jhobby` (knot coordinates and the five parallel
sparse arrays).  Curl and tension entries hold pairs of plain floats, which
the validation and segmentation code only ever compare against exact
constants, so they are modelled as rational pairs.  The control-point
container of the parent struct is not needed by the claims settled over this
model and is carried by the real-number embedding instead. -/
structure Path where
  points : List GFPair
  cycle : Bool
  predirs : List GFPair
  postdirs : List GFPair
  curls : List (ℚ × ℚ)
  tensions : List (ℚ × ℚ)
deriving DecidableEq, Repr

/-- Model of `getC`: get a value from a slice if present, default otherwise. -/
def getC {α : Type} (arr : List α) (i : ℕ) (deflt : α) : α :=
  arr.getD i deflt

/-- Model of `extendC`: extend a slice to make room for index `i`, filling
new entries with the default value. -/
def extendC {α : Type} (arr : List α) (i : ℕ) (deflt : α) : List α :=
  if i < arr.length then arr
  else arr ++ List.replicate (i + 1 - arr.length) deflt

/-- Extend then overwrite position `i`; the write pattern of all setters. -/
def setAt {α : Type} (arr : List α) (i : ℕ) (v deflt : α) : List α :=
  (extendC arr i deflt).set i v

/-- Model of `Path.N`: the knot count. -/
def Path.N (p : Path) : ℕ := p.points.length

/-- Model of `Path.Z`.  The source reads

    if i < 0 || i >= path.N() { i = i % path.N() }
    z := path.points[i]

where `%` is Go's truncated remainder (`Int.tmod`).  A final index outside
`[0, N)` makes `path.points[i]` panic at run time, which is modelled by
`none`. -/
def Path.Z (p : Path) (i : ℤ) : Option GFPair :=
  let n : ℤ := (p.N : ℤ)
  let j : ℤ := if i < 0 ∨ i ≥ n then Int.tmod i n else i
  if 0 ≤ j ∧ j < n then p.points.getD j.toNat nanC else none

/-- Model of `Path.PreDir`. -/
def Path.PreDir (p : Path) (i : ℕ) : GFPair := getC p.predirs i nanC

/-- Model of `Path.PostDir`. -/
def Path.PostDir (p : Path) (i : ℕ) : GFPair := getC p.postdirs i nanC

/-- Model of `Path.PreCurl`. -/
def Path.PreCurl (p : Path) (i : ℕ) : ℚ := (getC p.curls i (1, 1)).1

/-- Model of `Path.PostCurl`. -/
def Path.PostCurl (p : Path) (i : ℕ) : ℚ := (getC p.curls i (1, 1)).2

/-- Model of `Path.PreTension`. -/
def Path.PreTension (p : Path) (i : ℕ) : ℚ := (getC p.tensions i (1, 1)).1

/-- Model of `Path.PostTension`. -/
def Path.PostTension (p : Path) (i : ℕ) : ℚ := (getC p.tensions i (1, 1)).2

/-- Model of `Nullpath` (all slices empty, open). -/
def Nullpath : Path :=
  { points := [], cycle := false, predirs := [], postdirs := [],
    curls := [], tensions := [] }

/-- Model of `Path.SmoothKnot` / `Path.Knot`: append a knot. -/
def Path.SmoothKnot (p : Path) (pt : GFPair) : Path :=
  { p with points := p.points ++ [pt] }

/-- Model of `Path.SetPreDir`. -/
def Path.SetPreDir (p : Path) (i : ℕ) (dir : GFPair) : Path :=
  { p with predirs := setAt p.predirs i dir nanC }

/-- Model of `Path.SetPostDir`. -/
def Path.SetPostDir (p : Path) (i : ℕ) (dir : GFPair) : Path :=
  { p with postdirs := setAt p.postdirs i dir nanC }

/-- Model of `Path.SetPreCurl` (keeps the post component of the slot). -/
def Path.SetPreCurl (p : Path) (i : ℕ) (curl : ℚ) : Path :=
  let arr := extendC p.curls i (1, 1)
  let c := getC arr i (1, 1)
  { p with curls := arr.set i (curl, c.2) }

/-- Model of `Path.SetPostCurl` (keeps the pre component of the slot). -/
def Path.SetPostCurl (p : Path) (i : ℕ) (curl : ℚ) : Path :=
  let arr := extendC p.curls i (1, 1)
  let c := getC arr i (1, 1)
  { p with curls := arr.set i (c.1, curl) }

/-- The clamping of tensions into `[3/4, 4]` performed by both tension
setters. -/
def clampTension (t : ℚ) : ℚ :=
  if t < 3 / 4 then 3 / 4 else if t > 4 then 4 else t

/-- Model of `Path.SetPreTension` (clamps, keeps the post component). -/
def Path.SetPreTension (p : Path) (i : ℕ) (tension : ℚ) : Path :=
  let arr := extendC p.tensions i (1, 1)
  let t := getC arr i (1, 1)
  { p with tensions := arr.set i (clampTension tension, t.2) }

/-- Model of `Path.SetPostTension` (clamps, keeps the pre component). -/
def Path.SetPostTension (p : Path) (i : ℕ) (tension : ℚ) : Path :=
  let arr := extendC p.tensions i (1, 1)
  let t := getC arr i (1, 1)
  { p with tensions := arr.set i (t.1, clampTension tension) }

/-- Model of `Path.CurlKnot`: append a knot and set both curls. -/
def Path.CurlKnot (p : Path) (pt : GFPair) (precurl postcurl : ℚ) : Path :=
  let p1 := p.SmoothKnot pt
  (p1.SetPreCurl (p1.N - 1) precurl).SetPostCurl (p1.N - 1) postcurl

/-- Model of `Path.DirKnot`: append a knot with a tangent direction. -/
def Path.DirKnot (p : Path) (pt dir : GFPair) : Path :=
  let p1 := p.SmoothKnot pt
  (p1.SetPreDir (p1.N - 1) dir).SetPostDir (p1.N - 1) dir

/-- Model of `Path.Line`.  On an empty path the Go code panics; since the
process then dies with no state observable, the model leaves the path
unchanged in that case. -/
def Path.Line (p : Path) : Path :=
  if p.N = 0 then p
  else (p.SetPostCurl (p.N - 1) 1).SetPreCurl p.N 1

/-- Model of `Path.TensionCurve` (panics on an empty path; writes only the
non-neutral tensions). -/
def Path.TensionCurve (p : Path) (t1 t2 : ℚ) : Path :=
  if p.N = 0 then p
  else if t2 ≠ 1 then
    (if t1 ≠ 1 then p.SetPostTension (p.N - 1) t1 else p).SetPreTension p.N t2
  else if t1 ≠ 1 then p.SetPostTension (p.N - 1) t1
  else p

/-- Model of `Path.Curve` (a tension curve with neutral tensions). -/
def Path.Curve (p : Path) : Path :=
  if p.N = 0 then p else p.TensionCurve 1 1

/-- Model of `Path.Cycle`. -/
def Path.MkCycle (p : Path) : Path := { p with cycle := true }

/-- Model of `Path.End`. -/
def Path.MkEnd (p : Path) : Path := p

/-- Real-valued epsilon, for the Go comparisons that involve transcendental
functions. -/
noncomputable def epsR : ℝ := 1 / 10000000

/-- Strict less-than on reals as a Go boolean comparison (classically
decidable; never evaluated on the special-value-free branches the concrete
claims exercise). -/
noncomputable def rltB (a b : ℝ) : Bool := decide (a < b)

/-- Model of the test `math.Abs(cmplx.Phase(d)) < _epsilon` on a `GF` pair
`d = (x, y)`.  `cmplx.Phase` is `math.Atan2(y, x)`; the branches follow Go's
`Atan2` special cases: NaN inputs yield NaN (which compares false), infinite
inputs yield the documented multiples of pi/4, and for finite `x < 0` the
phase is `arctan (y/x) +- pi`, whose absolute value is `pi - |arctan (y/x)|`. -/
noncomputable def phaseAbsLtEps (d : GFPair) : Bool :=
  match d with
  | (GF.nan, _) => false
  | (_, GF.nan) => false
  | (GF.pinf, GF.pinf) => rltB (Real.pi / 4) epsR
  | (GF.pinf, GF.ninf) => rltB (Real.pi / 4) epsR
  | (GF.ninf, GF.pinf) => rltB (3 * (Real.pi / 4)) epsR
  | (GF.ninf, GF.ninf) => rltB (3 * (Real.pi / 4)) epsR
  | (GF.fin _, GF.pinf) => rltB (Real.pi / 2) epsR
  | (GF.fin _, GF.ninf) => rltB (Real.pi / 2) epsR
  | (GF.pinf, GF.fin _) => rltB 0 epsR
  | (GF.ninf, GF.fin _) => rltB Real.pi epsR
  | (GF.fin x, GF.fin y) =>
      if 0 < x then rltB |Real.arctan ((y : ℝ) / (x : ℝ))| epsR
      else if x < 0 then rltB (Real.pi - |Real.arctan ((y : ℝ) / (x : ℝ))|) epsR
      else if y = 0 then rltB 0 epsR
      else rltB (Real.pi / 2) epsR

/-- Model of `equal(c1, c2)`: `math.Abs(cmplx.Phase(c1 - c2)) < _epsilon`. -/
noncomputable def equalGo (c1 c2 : GFPair) : Bool :=
  phaseAbsLtEps (subC c1 c2)

/-- Model of `isrough`: is a knot a breakpoint for splitting a path? -/
noncomputable def isrough (p : Path) (i : ℕ) : Bool :=
  let hascurl : Bool := decide (p.PreCurl i ≠ 1 ∨ p.PostCurl i ≠ 1)
  let has2dirs : Bool :=
    (!isNaNC (p.PreDir i) && !isNaNC (p.PostDir i)) && !equalGo (p.PreDir i) (p.PostDir i)
  hascurl || has2dirs

/-- A path segment, as the index window `[start, stop]` of `makePathSegment`
(the parent-path pointer is carried separately where it is needed). -/
structure Seg where
  start : ℕ
  stop : ℕ
deriving DecidableEq, Repr

/-- The loop body of `splitSegments` on the state `(segments, segcnt, at)`. -/
noncomputable def splitStep (p : Path) (acc : List Seg × ℕ × ℕ) (i : ℕ) : List Seg × ℕ × ℕ :=
  if isrough p i then (acc.1 ++ [⟨acc.2.2, i⟩], acc.2.1 + 1, i) else acc

/-- Model of `splitSegments`: split a path at rough knots.  The scan state is
`(segments, segcnt, at)`; the loop runs `i = 1 .. N-1`.  (For `N = 0` the Go
code would emit the nonsense window `[0, -1]`, which has no counterpart in
the `ℕ`-indexed model; all claims concern nonempty paths.) -/
noncomputable def splitSegments (p : Path) : List Seg :=
  let scan := (List.range' 1 (p.N - 1)).foldl (splitStep p) ([], 0, 0)
  if p.cycle then
    if scan.2.1 = 0 then scan.1 ++ [⟨0, p.N - 1⟩]
    else scan.1 ++ [⟨scan.2.2, p.N⟩]
  else if scan.2.2 ≠ p.N - 1 then scan.1 ++ [⟨scan.2.2, p.N - 1⟩]
  else scan.1

/-- The scan step exactly as the specification words it: at every rough knot
emit `[at, i]` and restart `at = i`. -/
noncomputable def specScanStep (p : Path) (acc : List (ℕ × ℕ) × ℕ) (i : ℕ) :
    List (ℕ × ℕ) × ℕ :=
  if isrough p i then (acc.1 ++ [(acc.2, i)], i) else acc

/-- The open-path segmentation rule exactly as the specification words it:
scan `i = 1 .. N-1`; at every rough knot emit `[at, i]` and restart `at = i`;
after the scan emit `[at, N-1]` if `at` differs from `N-1`. -/
noncomputable def specOpenSegments (p : Path) : List (ℕ × ℕ) :=
  let scan := (List.range' 1 (p.N - 1)).foldl (specScanStep p) ([], 0)
  if scan.2 ≠ p.N - 1 then scan.1 ++ [(scan.2, p.N - 1)] else scan.1

/-- The structured error values of `jhobby` (`types.go`). -/
inductive PErr where
  | nilPath
  | tooFewKnots
  | invalidKnot
  | degenerateSegment
  | duplicateTerminal
deriving DecidableEq, Repr

/-- The per-knot test of `ValidateForSolve`:
`math.IsNaN(x) || math.IsNaN(y) || math.IsInf(x, 0) || math.IsInf(y, 0)`. -/
def invalidCoord (c : GFPair) : Bool :=
  c.1.isNaN || c.2.isNaN || c.1.isInf || c.2.isInf

/-- Model of `ValidateForSolve`.  A `none` argument models the nil receiver;
a `none` result models a nil error.  The checks run in source order: knot
count and duplicate-terminal for cycles, knot count for open paths, then the
first NaN/Inf coordinate, then the first degenerate consecutive delta (with
the wrap-around pair included for cycles). -/
def validateForSolve (p? : Option Path) : Option PErr :=
  match p? with
  | none => some .nilPath
  | some path =>
    let n := path.N
    if path.cycle ∧ n < 3 then some .tooFewKnots
    else if path.cycle ∧
        absLeEps (subC (getC path.points 0 nanC) (getC path.points (n - 1) nanC)) then
      some .duplicateTerminal
    else if ¬path.cycle ∧ n < 2 then some .tooFewKnots
    else
      match (List.range n).find? (fun i => invalidCoord (getC path.points i nanC)) with
      | some _ => some .invalidKnot
      | none =>
        let limit := if path.cycle then n else n - 1
        match (List.range limit).find? (fun i =>
            let j := if path.cycle then (i + 1) % n else i + 1
            absLeEps (subC (getC path.points j nanC) (getC path.points i nanC))) with
        | some _ => some .degenerateSegment
        | none => none

/-- The builder and setter calls observable on a path, for stating the
tension invariant over arbitrary call sequences. -/
inductive PathOp where
  | knot (pt : GFPair)
  | curlKnot (pt : GFPair) (precurl postcurl : ℚ)
  | dirKnot (pt dir : GFPair)
  | line
  | curve
  | tensionCurve (t1 t2 : ℚ)
  | setPreTension (i : ℕ) (t : ℚ)
  | setPostTension (i : ℕ) (t : ℚ)
  | setPreCurl (i : ℕ) (c : ℚ)
  | setPostCurl (i : ℕ) (c : ℚ)
  | setPreDir (i : ℕ) (d : GFPair)
  | setPostDir (i : ℕ) (d : GFPair)
  | mkCycle
  | mkEnd
deriving DecidableEq, Repr

/-- Interpretation of one builder/setter call. -/
def applyOp (p : Path) : PathOp → Path
  | .knot pt => p.SmoothKnot pt
  | .curlKnot pt a b => p.CurlKnot pt a b
  | .dirKnot pt d => p.DirKnot pt d
  | .line => p.Line
  | .curve => p.Curve
  | .tensionCurve t1 t2 => p.TensionCurve t1 t2
  | .setPreTension i t => p.SetPreTension i t
  | .setPostTension i t => p.SetPostTension i t
  | .setPreCurl i c => p.SetPreCurl i c
  | .setPostCurl i c => p.SetPostCurl i c
  | .setPreDir i d => p.SetPreDir i d
  | .setPostDir i d => p.SetPostDir i d
  | .mkCycle => p.MkCycle
  | .mkEnd => p.MkEnd

/-- Interpretation of a call sequence. -/
def applyOps (p : Path) (ops : List PathOp) : Path := ops.foldl applyOp p

/-- Does a call store a pre-tension into slot `i` of the path `p` it is
applied to?  Only `SetPreTension(i, _)` does, plus `TensionCurve(_, t2)` with
a non-neutral `t2` (which forwards to `SetPreTension(N, t2)`). -/
def storesPreTension (p : Path) (op : PathOp) (i : ℕ) : Bool :=
  match op with
  | .setPreTension j _ => j == i
  | .tensionCurve _ t2 => decide (t2 ≠ 1) && (p.N != 0) && (p.N == i)
  | _ => false

/-- Does a call store a post-tension into slot `i`?  Only
`SetPostTension(i, _)` and `TensionCurve(t1, _)` with non-neutral `t1`
(which forwards to `SetPostTension(N-1, t1)`). -/
def storesPostTension (p : Path) (op : PathOp) (i : ℕ) : Bool :=
  match op with
  | .setPostTension j _ => j == i
  | .tensionCurve t1 _ => decide (t1 ≠ 1) && (p.N != 0) && (p.N - 1 == i)
  | _ => false

/-- No call of the sequence stores a pre-tension for knot `i`. -/
def noPreTensionStore (p : Path) (ops : List PathOp) (i : ℕ) : Bool :=
  match ops with
  | [] => true
  | op :: rest => !storesPreTension p op i && noPreTensionStore (applyOp p op) rest i

/-- No call of the sequence stores a post-tension for knot `i`. -/
def noPostTensionStore (p : Path) (ops : List PathOp) (i : ℕ) : Bool :=
  match ops with
  | [] => true
  | op :: rest => !storesPostTension p op i && noPostTensionStore (applyOp p op) rest i

/-- A tension slot within the clamping range on both sides. -/
def tensionOK (t : ℚ × ℚ) : Prop :=
  3 / 4 ≤ t.1 ∧ t.1 ≤ 4 ∧ 3 / 4 ≤ t.2 ∧ t.2 ≤ 4

/-- Every stored tension slot is within the clamping range. -/
def tensionsOK (p : Path) : Prop := ∀ t ∈ p.tensions, tensionOK t


lemma clampTension_ok (t : ℚ) : 3 / 4 ≤ clampTension t ∧ clampTension t ≤ 4 := by
  unfold clampTension
  split
  · norm_num
  · split <;> [norm_num; constructor] <;> linarith [not_lt.mp (by assumption)]

lemma tensionOK_default : tensionOK ((1 : ℚ), (1 : ℚ)) := by
  unfold tensionOK; norm_num

lemma getC_extendC {α : Type} (arr : List α) (i j : ℕ) (d : α) :
    getC (extendC arr i d) j d = getC arr j d := by
  unfold getC extendC
  split
  · rfl
  · rcases lt_or_le j arr.length with h | h
    · simp [List.getElem?_append_left h]
    · simp only [List.getD_eq_getElem?_getD, List.getElem?_append_right h,
        List.getElem?_replicate]
      rw [List.getElem?_eq_none h]
      split <;> rfl

lemma length_extendC {α : Type} (arr : List α) (i : ℕ) (d : α) :
    i < (extendC arr i d).length := by
  unfold extendC
  split
  · assumption
  · simp only [List.length_append, List.length_replicate]
    omega

lemma getC_set_self {α : Type} (arr : List α) (i : ℕ) (v d : α) (h : i < arr.length) :
    getC (arr.set i v) i d = v := by
  unfold getC
  simp [List.getElem?_set_self h]

lemma getC_set_ne {α : Type} (arr : List α) (i j : ℕ) (v d : α) (h : i ≠ j) :
    getC (arr.set i v) j d = getC arr j d := by
  unfold getC
  simp [List.getElem?_set_ne h]

lemma getC_mem {α : Type} {arr : List α} {i : ℕ} (h : i < arr.length) (d : α) :
    getC arr i d ∈ arr := by
  unfold getC
  rw [List.getD_eq_getElem?_getD, List.getElem?_eq_getElem h]
  exact List.getElem_mem h

lemma mem_extendC {α : Type} {arr : List α} {i : ℕ} {d : α} {x : α}
    (hx : x ∈ extendC arr i d) : x ∈ arr ∨ x = d := by
  unfold extendC at hx
  split at hx
  · exact Or.inl hx
  · rcases List.mem_append.mp hx with h | h
    · exact Or.inl h
    · exact Or.inr (List.eq_of_mem_replicate h)

lemma tensionOK_getC {p : Path} (h : tensionsOK p) (i : ℕ) :
    tensionOK (getC p.tensions i (1, 1)) := by
  rcases lt_or_le i p.tensions.length with hi | hi
  · exact h _ (getC_mem hi _)
  · unfold getC
    rw [List.getD_eq_getElem?_getD, List.getElem?_eq_none hi]
    exact tensionOK_default

lemma tensionOK_getC_extendC {p : Path} (h : tensionsOK p) (i j : ℕ) :
    tensionOK (getC (extendC p.tensions i (1, 1)) j (1, 1)) := by
  rw [getC_extendC]
  exact tensionOK_getC h j

lemma tensionsOK_setPre {p : Path} (h : tensionsOK p) (i : ℕ) (t : ℚ) :
    tensionsOK (p.SetPreTension i t) := by
  intro x hx
  rcases List.mem_or_eq_of_mem_set hx with hm | hm
  · rcases mem_extendC hm with hm' | hm'
    · exact h x hm'
    · rw [hm']; exact tensionOK_default
  · rw [hm]
    rcases tensionOK_getC_extendC h i i with ⟨h1, h2, h3, h4⟩
    exact ⟨(clampTension_ok t).1, (clampTension_ok t).2, h3, h4⟩

lemma tensionsOK_setPost {p : Path} (h : tensionsOK p) (i : ℕ) (t : ℚ) :
    tensionsOK (p.SetPostTension i t) := by
  intro x hx
  rcases List.mem_or_eq_of_mem_set hx with hm | hm
  · rcases mem_extendC hm with hm' | hm'
    · exact h x hm'
    · rw [hm']; exact tensionOK_default
  · rw [hm]
    rcases tensionOK_getC_extendC h i i with ⟨h1, h2, h3, h4⟩
    exact ⟨h1, h2, (clampTension_ok t).1, (clampTension_ok t).2⟩

/-- The range invariant is preserved by every builder/setter call. -/
lemma tensionsOK_applyOp (p : Path) (op : PathOp) (h : tensionsOK p) :
    tensionsOK (applyOp p op) := by
  have hfix : ∀ q : Path, q.tensions = p.tensions → tensionsOK q := by
    intro q hq x hx
    exact h x (hq ▸ hx)
  cases op with
  | knot pt => exact hfix _ rfl
  | curlKnot pt a b => exact hfix _ rfl
  | dirKnot pt d => exact hfix _ rfl
  | line =>
      show tensionsOK p.Line
      unfold Path.Line
      split
      · exact h
      · exact hfix _ rfl
  | curve =>
      show tensionsOK p.Curve
      unfold Path.Curve Path.TensionCurve
      split
      · exact h
      · rw [if_neg (fun hc : (1 : ℚ) ≠ 1 => hc rfl),
          if_neg (fun hc : (1 : ℚ) ≠ 1 => hc rfl)]
        exact h
  | tensionCurve t1 t2 =>
      show tensionsOK (p.TensionCurve t1 t2)
      unfold Path.TensionCurve
      split
      · exact h
      · split
        · split
          · exact tensionsOK_setPre (tensionsOK_setPost h _ _) _ _
          · exact tensionsOK_setPre h _ _
        · split
          · exact tensionsOK_setPost h _ _
          · exact h
  | setPreTension i t => exact tensionsOK_setPre h i t
  | setPostTension i t => exact tensionsOK_setPost h i t
  | setPreCurl i c => exact hfix _ rfl
  | setPostCurl i c => exact hfix _ rfl
  | setPreDir i d => exact hfix _ rfl
  | setPostDir i d => exact hfix _ rfl
  | mkCycle => exact hfix _ rfl
  | mkEnd => exact hfix _ rfl

lemma tensionsOK_applyOps (p : Path) (ops : List PathOp) (h : tensionsOK p) :
    tensionsOK (applyOps p ops) := by
  induction ops generalizing p with
  | nil => exact h
  | cons op rest ih => exact ih (applyOp p op) (tensionsOK_applyOp p op h)

/-- `SetPostTension` never changes the pre-tension read at any index. -/
lemma preTension_setPost (p : Path) (j : ℕ) (t : ℚ) (i : ℕ) :
    (p.SetPostTension j t).PreTension i = p.PreTension i := by
  unfold Path.SetPostTension Path.PreTension
  by_cases hji : j = i
  · subst hji
    rw [getC_set_self _ _ _ _ (length_extendC _ _ _)]
    show (getC (extendC p.tensions j (1, 1)) j (1, 1)).1 = _
    rw [getC_extendC]
  · rw [getC_set_ne _ _ _ _ _ hji, getC_extendC]

/-- `SetPreTension` never changes the post-tension read at any index. -/
lemma postTension_setPre (p : Path) (j : ℕ) (t : ℚ) (i : ℕ) :
    (p.SetPreTension j t).PostTension i = p.PostTension i := by
  unfold Path.SetPreTension Path.PostTension
  by_cases hji : j = i
  · subst hji
    rw [getC_set_self _ _ _ _ (length_extendC _ _ _)]
    show (getC (extendC p.tensions j (1, 1)) j (1, 1)).2 = _
    rw [getC_extendC]
  · rw [getC_set_ne _ _ _ _ _ hji, getC_extendC]

lemma preTension_setPre_ne (p : Path) (j : ℕ) (t : ℚ) (i : ℕ) (hji : j ≠ i) :
    (p.SetPreTension j t).PreTension i = p.PreTension i := by
  unfold Path.SetPreTension Path.PreTension
  rw [getC_set_ne _ _ _ _ _ hji, getC_extendC]

lemma postTension_setPost_ne (p : Path) (j : ℕ) (t : ℚ) (i : ℕ) (hji : j ≠ i) :
    (p.SetPostTension j t).PostTension i = p.PostTension i := by
  unfold Path.SetPostTension Path.PostTension
  rw [getC_set_ne _ _ _ _ _ hji, getC_extendC]

/-- A call that does not store a pre-tension at `i` preserves `PreTension i`. -/
lemma preTension_applyOp (p : Path) (op : PathOp) (i : ℕ)
    (h : storesPreTension p op i = false) :
    (applyOp p op).PreTension i = p.PreTension i := by
  have hfix : ∀ q : Path, q.tensions = p.tensions → q.PreTension i = p.PreTension i := by
    intro q hq
    unfold Path.PreTension
    rw [hq]
  cases op with
  | knot pt => exact hfix _ rfl
  | curlKnot pt a b => exact hfix _ rfl
  | dirKnot pt d => exact hfix _ rfl
  | line =>
      show (Path.Line p).PreTension i = _
      unfold Path.Line
      split
      · rfl
      · exact hfix _ rfl
  | curve =>
      show (Path.Curve p).PreTension i = _
      unfold Path.Curve Path.TensionCurve
      split
      · rfl
      · rw [if_neg (fun hc : (1 : ℚ) ≠ 1 => hc rfl),
          if_neg (fun hc : (1 : ℚ) ≠ 1 => hc rfl)]
  | tensionCurve t1 t2 =>
      show (p.TensionCurve t1 t2).PreTension i = _
      unfold Path.TensionCurve
      rcases eq_or_ne p.N 0 with hN | hN
      · rw [if_pos hN]
      · rw [if_neg hN]
        have hNi : t2 ≠ 1 → p.N ≠ i := by
          intro h2 hni
          have hb : storesPreTension p (.tensionCurve t1 t2) i = true := by
            show (decide (t2 ≠ 1) && (p.N != 0) && (p.N == i)) = true
            rw [hni] at hN ⊢
            simp [h2, hN]
          rw [h] at hb
          exact Bool.false_ne_true hb
        by_cases h2 : t2 ≠ 1
        · rw [if_pos h2, preTension_setPre_ne _ _ _ _ (hNi h2)]
          split
          · exact preTension_setPost p (p.N - 1) t1 i
          · rfl
        · rw [if_neg h2]
          split
          · exact preTension_setPost p (p.N - 1) t1 i
          · rfl
  | setPreTension j t =>
      have hji : j ≠ i := by
        intro hc
        rw [show storesPreTension p (.setPreTension j t) i = (j == i) from rfl] at h
        simp [hc] at h
      exact preTension_setPre_ne _ _ _ _ hji
  | setPostTension j t => exact preTension_setPost p j t i
  | setPreCurl j c => exact hfix _ rfl
  | setPostCurl j c => exact hfix _ rfl
  | setPreDir j d => exact hfix _ rfl
  | setPostDir j d => exact hfix _ rfl
  | mkCycle => exact hfix _ rfl
  | mkEnd => exact hfix _ rfl

/-- A call that does not store a post-tension at `i` preserves `PostTension i`. -/
lemma postTension_applyOp (p : Path) (op : PathOp) (i : ℕ)
    (h : storesPostTension p op i = false) :
    (applyOp p op).PostTension i = p.PostTension i := by
  have hfix : ∀ q : Path, q.tensions = p.tensions → q.PostTension i = p.PostTension i := by
    intro q hq
    unfold Path.PostTension
    rw [hq]
  cases op with
  | knot pt => exact hfix _ rfl
  | curlKnot pt a b => exact hfix _ rfl
  | dirKnot pt d => exact hfix _ rfl
  | line =>
      show (Path.Line p).PostTension i = _
      unfold Path.Line
      split
      · rfl
      · exact hfix _ rfl
  | curve =>
      show (Path.Curve p).PostTension i = _
      unfold Path.Curve Path.TensionCurve
      split
      · rfl
      · rw [if_neg (fun hc : (1 : ℚ) ≠ 1 => hc rfl),
          if_neg (fun hc : (1 : ℚ) ≠ 1 => hc rfl)]
  | tensionCurve t1 t2 =>
      show (p.TensionCurve t1 t2).PostTension i = _
      unfold Path.TensionCurve
      rcases eq_or_ne p.N 0 with hN | hN
      · rw [if_pos hN]
      · rw [if_neg hN]
        have hNi : t1 ≠ 1 → p.N - 1 ≠ i := by
          intro h1 hni
          have hb : storesPostTension p (.tensionCurve t1 t2) i = true := by
            show (decide (t1 ≠ 1) && (p.N != 0) && (p.N - 1 == i)) = true
            simp [h1, hN, hni]
          rw [h] at hb
          exact Bool.false_ne_true hb
        by_cases h2 : t2 ≠ 1
        · rw [if_pos h2, postTension_setPre _ _ _ _]
          split
          · exact postTension_setPost_ne _ _ _ _ (hNi (by assumption))
          · rfl
        · rw [if_neg h2]
          split
          · exact postTension_setPost_ne _ _ _ _ (hNi (by assumption))
          · rfl
  | setPreTension j t => exact postTension_setPre p j t i
  | setPostTension j t =>
      have hji : j ≠ i := by
        intro hc
        rw [show storesPostTension p (.setPostTension j t) i = (j == i) from rfl] at h
        simp [hc] at h
      exact postTension_setPost_ne _ _ _ _ hji
  | setPreCurl j c => exact hfix _ rfl
  | setPostCurl j c => exact hfix _ rfl
  | setPreDir j d => exact hfix _ rfl
  | setPostDir j d => exact hfix _ rfl
  | mkCycle => exact hfix _ rfl
  | mkEnd => exact hfix _ rfl

lemma preTension_applyOps (p : Path) (ops : List PathOp) (i : ℕ)
    (h0 : p.PreTension i = 1) (h : noPreTensionStore p ops i = true) :
    (applyOps p ops).PreTension i = 1 := by
  induction ops generalizing p with
  | nil => exact h0
  | cons op rest ih =>
      simp only [noPreTensionStore, Bool.and_eq_true, Bool.not_eq_true'] at h
      exact ih (applyOp p op) ((preTension_applyOp p op i h.1).trans h0) h.2

lemma postTension_applyOps (p : Path) (ops : List PathOp) (i : ℕ)
    (h0 : p.PostTension i = 1) (h : noPostTensionStore p ops i = true) :
    (applyOps p ops).PostTension i = 1 := by
  induction ops generalizing p with
  | nil => exact h0
  | cons op rest ih =>
      simp only [noPostTensionStore, Bool.and_eq_true, Bool.not_eq_true'] at h
      exact ih (applyOp p op) ((postTension_applyOp p op i h.1).trans h0) h.2



/-- The two scan folds agree: the source scan (with its extra segment
counter) emits the windows that the specification's scan rule emits, and
both maintain the same restart position `at`. -/
lemma scan_agree (p : Path) (L : List ℕ) (segs : List Seg) (cnt at0 : ℕ) :
    (L.foldl (splitStep p) (segs, cnt, at0)).1.map (fun s => (s.start, s.stop)) =
      (L.foldl (specScanStep p) (segs.map (fun s => (s.start, s.stop)), at0)).1
    ∧ (L.foldl (splitStep p) (segs, cnt, at0)).2.2 =
      (L.foldl (specScanStep p) (segs.map (fun s => (s.start, s.stop)), at0)).2 := by
  induction L generalizing segs cnt at0 with
  | nil => exact ⟨rfl, rfl⟩
  | cons i rest ih =>
      simp only [List.foldl_cons]
      unfold splitStep specScanStep
      by_cases hr : isrough p i = true
      · simp only [hr, if_true]
        have := ih (segs ++ [⟨at0, i⟩]) (cnt + 1) i
        simpa using this
      · simp only [Bool.not_eq_true] at hr
        simp only [hr, Bool.false_eq_true, if_false]
        exact ih segs cnt at0

/-- The example path of the claim: an open 3-knot path whose middle knot has
`preCurl = 2.0`. -/
def path3 : Path :=
  ((Nullpath.SmoothKnot (GF.fin 0, GF.fin 0)).SmoothKnot
    (GF.fin 1, GF.fin 1)).SmoothKnot (GF.fin 2, GF.fin 0)
  |>.SetPreCurl 1 2

/-- C5: the segmenter covers an open path exactly by the scan rule of the
specification (scan `i = 1..N-1`, emit `[at, i]` at every rough knot and
restart, then emit `[at, N-1]` if `at` differs from `N-1`), and on an open
3-knot path whose middle knot has `preCurl = 2` it emits exactly the two
segments `[0,1]` and `[1,2]`. -/
theorem c5_splitSegments_open_rule :
    (∀ p : Path, p.cycle = false → 1 ≤ p.N →
      (splitSegments p).map (fun s => (s.start, s.stop)) = specOpenSegments p)
    ∧ splitSegments path3 = [⟨0, 1⟩, ⟨1, 2⟩] := by
  constructor
  · intro p hc hN
    unfold splitSegments specOpenSegments
    rcases scan_agree p (List.range' 1 (p.N - 1)) [] 0 0 with ⟨h1, h2⟩
    simp only [List.map_nil] at h1 h2
    rw [hc]
    simp only [Bool.false_eq_true, if_false]
    rw [h2]
    by_cases hat : ((List.range' 1 (p.N - 1)).foldl (specScanStep p) ([], 0)).2 ≠ p.N - 1
    · rw [if_pos hat, if_pos hat]
      rw [List.map_append, h1]
      rfl
    · rw [if_neg hat, if_neg hat]
      exact h1
  · rfl

/-- Witness for C5: the general scan rule applied to the concrete path. -/
theorem c5_witness :
    (splitSegments path3).map (fun s => (s.start, s.stop)) = specOpenSegments path3 :=
  c5_splitSegments_open_rule.1 path3 rfl (by norm_num [Path.N, path3, Nullpath, Path.SmoothKnot, Path.SetPreCurl])

/-- The cyclic 4-knot path of the circle scenario, in the exact model. -/
def circQ : Path :=
  { points := [(GF.fin 1, GF.fin 1), (GF.fin 2, GF.fin 2),
               (GF.fin 3, GF.fin 1), (GF.fin 2, GF.fin 0)],
    cycle := true, predirs := [], postdirs := [], curls := [], tensions := [] }

/-- C7 (dealing with the slip in `Path.Z`): for nonnegative subscripts,
including `i >= N`, `Z` wraps modulo `N` as the claim states, but for a
negative subscript Go's truncated `%` yields a negative index, so
`path.points[i]` panics (modelled as `none`) instead of returning
`z_{i mod N}`: here `Z(-1)` fails although the claim promises `z_3 = (2,0)`,
while `Z(7) = z_3` works. -/
theorem c7_Z_negative_subscript_panics :
    circQ.Z (-1) = none ∧ circQ.Z 7 = some (GF.fin 2, GF.fin 0) ∧
    circQ.Z 3 = some (GF.fin 2, GF.fin 0) := by
  decide

/-- C8: for every sequence of builder/setter calls starting from `Nullpath`
(with arbitrary, possibly negative, tension arguments), the values read back
by `PreTension i` and `PostTension i` lie in the closed interval
`[0.75, 4.0]`, and equal `1` whenever no call of the sequence stored a
tension for that side of knot `i`. -/
theorem c8_tension_clamped_and_default (ops : List PathOp) (i : ℕ) :
    (3 / 4 ≤ (applyOps Nullpath ops).PreTension i ∧
      (applyOps Nullpath ops).PreTension i ≤ 4 ∧
      3 / 4 ≤ (applyOps Nullpath ops).PostTension i ∧
      (applyOps Nullpath ops).PostTension i ≤ 4)
    ∧ (noPreTensionStore Nullpath ops i = true →
        (applyOps Nullpath ops).PreTension i = 1)
    ∧ (noPostTensionStore Nullpath ops i = true →
        (applyOps Nullpath ops).PostTension i = 1) := by
  refine ⟨?_, ?_, ?_⟩
  · have h := tensionsOK_applyOps Nullpath ops (by intro t ht; cases ht)
    exact tensionOK_getC h i
  · exact preTension_applyOps Nullpath ops i rfl
  · exact postTension_applyOps Nullpath ops i rfl

/-- A concrete call sequence for the C8 witness: stores an over-large
post-tension and a negative pre-tension at knot 0, nothing at knot 1. -/
def opsC8 : List PathOp :=
  [.knot (GF.fin 0, GF.fin 0), .setPostTension 0 99, .setPreTension 0 (-5),
   .knot (GF.fin 1, GF.fin 1), .tensionCurve 2 1]

/-- Witness for C8 at a concrete call sequence and knot index. -/
theorem c8_witness :
    noPreTensionStore Nullpath opsC8 1 = true ∧
    (applyOps Nullpath opsC8).PreTension 1 = 1 :=
  ⟨by decide, (c8_tension_clamped_and_default opsC8 1).2.1 (by decide)⟩

/-- The finiteness condition of the claim: every stored knot coordinate is
neither NaN nor infinite. -/
def finiteKnots (p : Path) : Prop :=
  ∀ i < p.N, invalidCoord (getC p.points i nanC) = false

/-- The number of consecutive-knot pairs checked for degeneracy (the
wrap-around pair is included for cyclic paths). -/
def degLimit (p : Path) : ℕ := if p.cycle then p.N else p.N - 1

/-- The partner index of knot `i` in the degeneracy check. -/
def degIdx (p : Path) (i : ℕ) : ℕ := if p.cycle then (i + 1) % p.N else i + 1

/-- The non-degeneracy condition of the claim: no two consecutive knots
(including the wrap-around pair for cyclic paths) are within epsilon. -/
def noDegenerate (p : Path) : Prop :=
  ∀ i < degLimit p,
    absLeEps (subC (getC p.points (degIdx p i) nanC) (getC p.points i nanC)) = false

lemma degLimit_cyclic {p : Path} (hc : p.cycle = true) : degLimit p = p.N := by
  simp [degLimit, hc]

lemma degLimit_open {p : Path} (hc : p.cycle = false) : degLimit p = p.N - 1 := by
  simp [degLimit, hc]

lemma degIdx_cyclic {p : Path} (hc : p.cycle = true) (i : ℕ) :
    degIdx p i = (i + 1) % p.N := by
  simp [degIdx, hc]

lemma degIdx_open {p : Path} (hc : p.cycle = false) (i : ℕ) : degIdx p i = i + 1 := by
  simp [degIdx, hc]

/-- The positive validity condition of the claim, over the stored data. -/
def validCond (p : Path) : Prop :=
  (p.cycle = true → 3 ≤ p.N ∧
    absLeEps (subC (getC p.points 0 nanC) (getC p.points (p.N - 1) nanC)) = false) ∧
  (p.cycle = false → 2 ≤ p.N) ∧ finiteKnots p ∧ noDegenerate p

lemma validate_cyclic_eq (p : Path) (hc : p.cycle = true) :
    validateForSolve (some p) =
      (if p.N < 3 then some PErr.tooFewKnots
       else if absLeEps (subC (getC p.points 0 nanC) (getC p.points (p.N - 1) nanC)) = true
       then some PErr.duplicateTerminal
       else
        match (List.range p.N).find? (fun i => invalidCoord (getC p.points i nanC)) with
        | some _ => some PErr.invalidKnot
        | none =>
          match (List.range (degLimit p)).find? (fun i =>
              absLeEps (subC (getC p.points (degIdx p i) nanC)
                (getC p.points i nanC))) with
          | some _ => some PErr.degenerateSegment
          | none => none) := by
  unfold validateForSolve
  dsimp only
  by_cases h3 : p.N < 3
  · rw [if_pos ⟨hc, h3⟩, if_pos h3]
  · rw [if_neg (by tauto), if_neg h3]
    by_cases hdup : absLeEps (subC (getC p.points 0 nanC)
        (getC p.points (p.N - 1) nanC)) = true
    · rw [if_pos ⟨hc, hdup⟩, if_pos hdup]
    · rw [if_neg (by tauto), if_neg hdup, if_neg (by simp [hc])]
      simp [hc, degLimit, degIdx]

lemma validate_open_eq (p : Path) (hc : p.cycle = false) :
    validateForSolve (some p) =
      (if p.N < 2 then some PErr.tooFewKnots
       else
        match (List.range p.N).find? (fun i => invalidCoord (getC p.points i nanC)) with
        | some _ => some PErr.invalidKnot
        | none =>
          match (List.range (degLimit p)).find? (fun i =>
              absLeEps (subC (getC p.points (degIdx p i) nanC)
                (getC p.points i nanC))) with
          | some _ => some PErr.degenerateSegment
          | none => none) := by
  unfold validateForSolve
  dsimp only
  rw [if_neg (by simp [hc]), if_neg (by simp [hc])]
  by_cases h2 : p.N < 2
  · rw [if_pos (by simp [hc, h2]), if_pos h2]
  · rw [if_neg (by simp [hc, h2]), if_neg h2]
    simp [hc, degLimit, degIdx]

lemma validate_some_none_iff (p : Path) :
    validateForSolve (some p) = none ↔ validCond p := by
  by_cases hc : p.cycle = true
  · rw [validate_cyclic_eq p hc]
    by_cases h3 : p.N < 3
    · rw [if_pos h3]
      refine iff_of_false (by simp) ?_
      intro h
      have := (h.1 hc).1
      omega
    · rw [if_neg h3]
      by_cases hdup : absLeEps (subC (getC p.points 0 nanC)
          (getC p.points (p.N - 1) nanC)) = true
      · rw [if_pos hdup]
        refine iff_of_false (by simp) ?_
        intro h
        simp [(h.1 hc).2] at hdup
      · rw [if_neg hdup]
        rcases hfind : (List.range p.N).find?
            (fun i => invalidCoord (getC p.points i nanC)) with _ | i
        · rcases hfind2 : (List.range (degLimit p)).find? (fun i =>
              absLeEps (subC (getC p.points (degIdx p i) nanC)
                (getC p.points i nanC))) with _ | i
          · refine iff_of_true rfl ?_
            refine ⟨fun _ => ⟨by omega, by simpa using hdup⟩, fun hco => ?_, ?_, ?_⟩
            · exact absurd (hco ▸ hc) (by simp)
            · intro i hi
              simpa using List.find?_eq_none.mp hfind i (List.mem_range.mpr hi)
            · intro i hi
              simpa using List.find?_eq_none.mp hfind2 i (List.mem_range.mpr hi)
          · refine iff_of_false (by simp) ?_
            intro h
            have hi := List.mem_range.mp (List.mem_of_find?_eq_some hfind2)
            have hz := h.2.2.2 i hi
            have hs := List.find?_some hfind2
            simp [hz] at hs
        · refine iff_of_false (by simp) ?_
          intro h
          have hi := List.mem_range.mp (List.mem_of_find?_eq_some hfind)
          have hz := h.2.2.1 i hi
          have hs := List.find?_some hfind
          simp [hz] at hs
  · have hc' : p.cycle = false := by simpa using hc
    rw [validate_open_eq p hc']
    by_cases h2 : p.N < 2
    · rw [if_pos h2]
      refine iff_of_false (by simp) ?_
      intro h
      have := h.2.1 hc'
      omega
    · rw [if_neg h2]
      rcases hfind : (List.range p.N).find?
          (fun i => invalidCoord (getC p.points i nanC)) with _ | i
      · rcases hfind2 : (List.range (degLimit p)).find? (fun i =>
            absLeEps (subC (getC p.points (degIdx p i) nanC)
              (getC p.points i nanC))) with _ | i
        · refine iff_of_true rfl ?_
          refine ⟨fun hco => ?_, fun _ => by omega, ?_, ?_⟩
          · exact absurd (hco ▸ hc') (by simp)
          · intro i hi
            simpa using List.find?_eq_none.mp hfind i (List.mem_range.mpr hi)
          · intro i hi
            simpa using List.find?_eq_none.mp hfind2 i (List.mem_range.mpr hi)
        · refine iff_of_false (by simp) ?_
          intro h
          have hi := List.mem_range.mp (List.mem_of_find?_eq_some hfind2)
          have hz := h.2.2.2 i hi
          have hs := List.find?_some hfind2
          simp [hz] at hs
      · refine iff_of_false (by simp) ?_
        intro h
        have hi := List.mem_range.mp (List.mem_of_find?_eq_some hfind)
        have hz := h.2.2.1 i hi
        have hs := List.find?_some hfind
        simp [hz] at hs

lemma validate_tooFew (p : Path) (h : validateForSolve (some p) = some PErr.tooFewKnots) :
    (p.cycle = true ∧ p.N < 3) ∨ (p.cycle = false ∧ p.N < 2) := by
  by_cases hc : p.cycle = true
  · rw [validate_cyclic_eq p hc] at h
    left
    refine ⟨hc, ?_⟩
    by_contra h3
    rw [if_neg h3] at h
    split at h
    · cases h
    · split at h
      · cases h
      · split at h
        · cases h
        · cases h
  · have hc' : p.cycle = false := by simpa using hc
    rw [validate_open_eq p hc'] at h
    right
    refine ⟨hc', ?_⟩
    by_contra h2
    rw [if_neg h2] at h
    split at h
    · cases h
    · split at h
      · cases h
      · cases h

lemma validate_duplicate (p : Path)
    (h : validateForSolve (some p) = some PErr.duplicateTerminal) :
    p.cycle = true ∧
    absLeEps (subC (getC p.points 0 nanC) (getC p.points (p.N - 1) nanC)) = true := by
  by_cases hc : p.cycle = true
  · rw [validate_cyclic_eq p hc] at h
    refine ⟨hc, ?_⟩
    split at h
    · cases h
    · split at h
      · assumption
      · split at h
        · cases h
        · split at h
          · cases h
          · cases h
  · have hc' : p.cycle = false := by simpa using hc
    rw [validate_open_eq p hc'] at h
    exfalso
    split at h
    · cases h
    · split at h
      · cases h
      · split at h
        · cases h
        · cases h

lemma validate_invalidKnot (p : Path)
    (h : validateForSolve (some p) = some PErr.invalidKnot) :
    ∃ i < p.N, invalidCoord (getC p.points i nanC) = true := by
  by_cases hc : p.cycle = true
  · rw [validate_cyclic_eq p hc] at h
    split at h
    · cases h
    · split at h
      · cases h
      · split at h
        · rename_i hfind
          have hs := List.find?_some hfind
          exact ⟨_, List.mem_range.mp (List.mem_of_find?_eq_some hfind), by simpa using hs⟩
        · split at h
          · cases h
          · cases h
  · have hc' : p.cycle = false := by simpa using hc
    rw [validate_open_eq p hc'] at h
    split at h
    · cases h
    · split at h
      · rename_i hfind
        have hs := List.find?_some hfind
        exact ⟨_, List.mem_range.mp (List.mem_of_find?_eq_some hfind), by simpa using hs⟩
      · split at h
        · cases h
        · cases h

lemma validate_degenerate (p : Path)
    (h : validateForSolve (some p) = some PErr.degenerateSegment) :
    ∃ i < degLimit p,
      absLeEps (subC
        (getC p.points (degIdx p i) nanC) (getC p.points i nanC)) = true := by
  by_cases hc : p.cycle = true
  · rw [validate_cyclic_eq p hc] at h
    split at h
    · cases h
    · split at h
      · cases h
      · split at h
        · cases h
        · split at h
          · rename_i hfind
            have hs := List.find?_some hfind
            exact ⟨_, List.mem_range.mp (List.mem_of_find?_eq_some hfind), by simpa using hs⟩
          · cases h
  · have hc' : p.cycle = false := by simpa using hc
    rw [validate_open_eq p hc'] at h
    split at h
    · cases h
    · split at h
      · cases h
      · split at h
        · rename_i hfind
          have hs := List.find?_some hfind
          exact ⟨_, List.mem_range.mp (List.mem_of_find?_eq_some hfind), by simpa using hs⟩
        · cases h

/-- C3: `ValidateForSolve` returns nil exactly when the path is non-nil, has
enough knots (3 for cycles, 2 for open paths), a cyclic path does not repeat
its first knot within epsilon, every coordinate is finite and no consecutive
pair (wrap-around included for cycles) is degenerate; and each non-nil error
value matches the condition it names. -/
theorem c3_validateForSolve_characterization (p? : Option Path) :
    (validateForSolve p? = none ↔ ∃ p, p? = some p ∧ validCond p)
    ∧ (validateForSolve p? = some .nilPath → p? = none)
    ∧ (∀ p, p? = some p → validateForSolve p? = some .tooFewKnots →
        (p.cycle = true ∧ p.N < 3) ∨ (p.cycle = false ∧ p.N < 2))
    ∧ (∀ p, p? = some p → validateForSolve p? = some .duplicateTerminal →
        p.cycle = true ∧
        absLeEps (subC (getC p.points 0 nanC) (getC p.points (p.N - 1) nanC)) = true)
    ∧ (∀ p, p? = some p → validateForSolve p? = some .invalidKnot →
        ∃ i < p.N, invalidCoord (getC p.points i nanC) = true)
    ∧ (∀ p, p? = some p → validateForSolve p? = some .degenerateSegment →
        ∃ i < degLimit p,
          absLeEps (subC
            (getC p.points (degIdx p i) nanC) (getC p.points i nanC)) = true) := by
  cases p? with
  | none =>
      refine ⟨?_, ?_, ?_, ?_, ?_, ?_⟩ <;> simp [validateForSolve]
  | some p =>
      refine ⟨?_, ?_, ?_, ?_, ?_, ?_⟩
      · rw [validate_some_none_iff]
        constructor
        · intro h; exact ⟨p, rfl, h⟩
        · rintro ⟨q, hq, h⟩; cases hq; exact h
      · intro h
        exfalso
        by_cases hc : p.cycle = true
        · rw [validate_cyclic_eq p hc] at h
          split at h
          · cases h
          · split at h
            · cases h
            · split at h
              · cases h
              · split at h
                · cases h
                · cases h
        · have hc' : p.cycle = false := by simpa using hc
          rw [validate_open_eq p hc'] at h
          split at h
          · cases h
          · split at h
            · cases h
            · split at h
              · cases h
              · cases h
      · intro q hq h
        cases hq
        exact validate_tooFew _ h
      · intro q hq h
        cases hq
        exact validate_duplicate _ h
      · intro q hq h
        cases hq
        exact validate_invalidKnot _ h
      · intro q hq h
        cases hq
        exact validate_degenerate _ h

/-- A concrete valid open path for the C3 witness. -/
def openOK : Path :=
  { points := [(GF.fin 0, GF.fin 0), (GF.fin 1, GF.fin 0)], cycle := false,
    predirs := [], postdirs := [], curls := [], tensions := [] }

/-- Witness for C3: a concrete valid open path validates to nil. -/
theorem c3_witness : validateForSolve (some openOK) = none :=
  (c3_validateForSolve_characterization _).1.mpr
    ⟨_, rfl, by
      unfold validCond finiteKnots noDegenerate degLimit degIdx
      with_unfolding_all decide⟩

end JHobby

namespace Polyn

/-- `arithm.Epsilon`: numbers below epsilon are considered 0. -/
def Eps : ℚ := 1 / 10000000

/-- Model of `arithm.Is0`. -/
def Is0 (n : ℚ) : Bool := decide (|n| ≤ Eps)

/-- Model of `arithm.Is1`. -/
def Is1 (n : ℚ) : Bool := decide (|1 - n| ≤ Eps)

/-- Model of `arithm.Zap` on scalars. -/
def zapQ (n : ℚ) : ℚ := if Is0 n then 0 else n

/-- Model of `arithm.Round`: round to epsilon. -/
def RoundQ (n : ℚ) : ℚ := (round (n / Eps) : ℚ) * Eps

/-- A Go map with deterministic ascending-key iteration
(`forEachEquationAscending` / `forEachTermAscending` always sort the keys),
represented canonically as an association list in ascending key order. -/
def slookup {α : Type} : List (ℕ × α) → ℕ → Option α
  | [], _ => none
  | e :: rest, i => if i = e.1 then some e.2 else slookup rest i

/-- Insert or replace a key, keeping ascending order. -/
def sinsert {α : Type} (i : ℕ) (v : α) : List (ℕ × α) → List (ℕ × α)
  | [] => [(i, v)]
  | e :: rest =>
    if i < e.1 then (i, v) :: e :: rest
    else if i = e.1 then (i, v) :: rest
    else e :: sinsert i v rest

/-- Delete a key (Go `delete`). -/
def serase {α : Type} (i : ℕ) (m : List (ℕ × α)) : List (ℕ × α) :=
  m.filter (fun e => e.1 ≠ i)

/-- Model of `Polynomial`: a linear polynomial `c + a.1 x.1 + ...` stored
sparsely, key 0 being the constant term. -/
structure Polynomial where
  terms : List (ℕ × ℚ)
deriving DecidableEq, Repr

/-- Model of `GetCoeffForTerm` (0 when absent). -/
def Polynomial.GetCoeffForTerm (p : Polynomial) (i : ℕ) : ℚ :=
  (slookup p.terms i).getD 0

/-- Model of `SetTerm`. -/
def Polynomial.SetTerm (p : Polynomial) (i : ℕ) (scale : ℚ) : Polynomial :=
  ⟨sinsert i scale p.terms⟩

/-- Model of `delete(p.terms, i)`. -/
def Polynomial.eraseTerm (p : Polynomial) (i : ℕ) : Polynomial :=
  ⟨serase i p.terms⟩

/-- Model of `TermCount` (number of stored terms, constant included). -/
def Polynomial.TermCount (p : Polynomial) : ℕ := p.terms.length

/-- Model of `Exponents` (stored keys in ascending order). -/
def Polynomial.Exponents (p : Polynomial) : List ℕ := p.terms.map Prod.fst

/-- Model of `Zap`: drop terms with coefficient within epsilon of zero, then
re-introduce the constant slot with value 0 if it was lost. -/
def Polynomial.Zap (p : Polynomial) : Polynomial :=
  let t := p.terms.filter (fun e => !Is0 e.2)
  ⟨if slookup t 0 = none then sinsert 0 0 t else t⟩

/-- Model of `NewConstantPolynomial`. -/
def NewConstantPolynomial (c : ℚ) : Polynomial := (⟨[(0, c)]⟩ : Polynomial).Zap

/-- Model of `IsConstant`: the constant and whether `p = { c }`. -/
def Polynomial.IsConstant (p : Polynomial) : ℚ × Bool :=
  (p.GetCoeffForTerm 0, decide (p.terms.length = 1))

/-- Model of `GetConstantValue`. -/
def Polynomial.GetConstantValue (p : Polynomial) : ℚ := p.GetCoeffForTerm 0

/-- Model of `isOff`: for `0 = p`, is `p` constant (then its value)? -/
def Polynomial.isOff (p : Polynomial) : ℚ × Bool :=
  if (p.IsConstant).2 then ((p.IsConstant).1, true) else (0, false)

/-- Model of `addOrSub`/`Add` (element-wise; terms of the second operand
within epsilon of zero are skipped).  The Go `destructive` flag only selects
in-place update of the receiver; in the pure model the one observable alias
(the dependent-equation values mutated inside `subst`) is threaded
explicitly at the call site. -/
def Polynomial.Add (p p2 : Polynomial) : Polynomial :=
  p2.terms.foldl (fun p1 e =>
    if Is0 e.2 then p1 else p1.SetTerm e.1 (p1.GetCoeffForTerm e.1 + e.2)) p

/-- The LEQ error values (`lineq.go` and `polyn.go`). -/
inductive LErr where
  | emptyEquationList
  | inconsistent
  | nonConstantProduct
  | illegalDivisor
  | internal
deriving DecidableEq, Repr

/-- Model of `Multiply`: one factor must be constant; all coefficients are
scaled (zapping each product) and the result is zapped. -/
def Polynomial.Multiply (p p2 : Polynomial) : Except LErr Polynomial :=
  let c2 := p2.IsConstant
  if c2.2 then
    .ok (Polynomial.Zap ⟨p.terms.map (fun e => (e.1, zapQ (e.2 * c2.1)))⟩)
  else
    let c1 := p.IsConstant
    if c1.2 then
      .ok (Polynomial.Zap ⟨p2.terms.map (fun e => (e.1, zapQ (e.2 * c1.1)))⟩)
    else .error .nonConstantProduct

/-- Model of `Divide`: the divisor must be constant and non-zero. -/
def Polynomial.Divide (p p2 : Polynomial) : Except LErr Polynomial :=
  let c2 := p2.IsConstant
  if !c2.2 || Is0 c2.1 then .error .illegalDivisor
  else p.Multiply (NewConstantPolynomial (1 / c2.1))

/-- The dependent-equation map and the solved map (`EquationMap`/`SolvedMap`). -/
abbrev EqMap := List (ℕ × Polynomial)

/-- One scan of `maxCoeff`: the free (not dependent) variable whose
coefficient has the largest absolute value; strict comparison makes ties
resolve to the smallest key, as the ascending scan does. -/
def Polynomial.maxCoeffScan (p : Polynomial) (dependents : Option EqMap) : ℕ × ℚ :=
  let r := p.terms.foldl (fun (acc : ℕ × ℚ × ℚ) e =>
    let isdep := match dependents with
      | some D => (slookup D e.1).isSome
      | none => false
    if e.1 = 0 || isdep then acc
    else if |e.2| > acc.2.1 then (e.1, |e.2|, e.2) else acc) (0, 0, 0)
  (r.1, r.2.2)

/-- Model of `maxCoeff` with the retry ignoring dependents.  (The remaining
`maxp == 0` case panics in Go — "seeing equation 0 = c" — and is never
reached from zapped non-constant polynomials; the model returns the zero
pair there.) -/
def Polynomial.maxCoeff (p : Polynomial) (dependents : EqMap) : ℕ × ℚ :=
  let r := p.maxCoeffScan (some dependents)
  if r.1 = 0 then p.maxCoeffScan none else r

/-- Model of `solved(p)`: if `p` is constant, round its value to epsilon. -/
def solvedCheck (p : Polynomial) : Bool × Polynomial :=
  let c := p.IsConstant
  if c.2 then (true, p.SetTerm 0 (RoundQ c.1)) else (false, p)

/-- Model of `termContains`. -/
def termContains (p : Polynomial) (i : ℕ) : Bool := !Is0 (p.GetCoeffForTerm i)

/-- Model of `termlength`. -/
def termlength (p : Polynomial) : ℕ := p.TermCount

/-- Model of `updateDependency`: insert `x.i = p` into `m`, but when the key
is already bound only replace it if the new right-hand side has fewer
terms. -/
def updateDependency (i : ℕ) (p : Polynomial) (m : EqMap) : EqMap :=
  match slookup m i with
  | some q => if termlength p < termlength q then sinsert i p m else m
  | none => sinsert i p m

/-- Model of `subst`: substitute `x.i = p` into `x.j = q`.  If the pivot
`x.j` reappears with coefficient 1 it is eliminated and the "impossible"
variable 0 is returned; with another coefficient the equation is rescaled by
`-1/(a.j - 1)`. -/
def subst (i : ℕ) (p : Polynomial) (j : ℕ) (q : Polynomial) :
    Except LErr (ℕ × Polynomial) :=
  let ai := q.GetCoeffForTerm i
  if Is0 ai then .ok (j, q)
  else
    match p.Multiply (NewConstantPolynomial ai) with
    | .error e => .error e
    | .ok p1 =>
      let q2 := ((q.eraseTerm i).Add p1).Zap
      let aj := q2.GetCoeffForTerm j
      if Is0 aj then .ok (j, q2)
      else if Is1 aj then .ok (0, q2.eraseTerm j)
      else
        match (q2.eraseTerm j).Multiply (NewConstantPolynomial (-1 / (aj - 1))) with
        | .error e => .error e
        | .ok q3 => .ok (j, q3.Zap)

/-- Model of `substituteSolved`: substitute every solved `x.i = c` into `p`
(folding to the constant slot and dropping the term). -/
def substituteSolved (p : Polynomial) (solved : EqMap) : Polynomial :=
  solved.foldl (fun p e =>
    let c := e.2.GetConstantValue
    let coeff := p.GetCoeffForTerm e.1
    if Is0 coeff then p
    else ((p.SetTerm 0 (p.GetConstantValue + coeff * c)).eraseTerm e.1)) p

/-- Model of `activateEquationTowards`: turn `0 = p` into `x.i = -1/a * p`. -/
def activateEquationTowards (i : ℕ) (p : Polynomial) : Except LErr Polynomial :=
  let coeff := p.GetCoeffForTerm i
  if Is0 coeff then .error .internal
  else
    match (p.eraseTerm i).Multiply (NewConstantPolynomial (-1 / coeff)) with
    | .error e => .error e
    | .ok p1 => .ok p1.Zap

/-- Model of `LinEqSolver`.  The variable resolver is reduced to its capsule
predicate: the name lookup and solved notification are externally observable
side effects with no influence on the solver state, and a nil resolver
behaves as a predicate that is constantly false (`checkAndCountCapsule`
counts nothing when `varresolver == nil`). -/
structure LinEqSolver where
  dependents : EqMap
  solved : EqMap
  isCapsule : ℕ → Bool

/-- Model of `NewLinEqSolver`, with a given capsule predicate. -/
def NewLinEqSolver (cap : ℕ → Bool) : LinEqSolver :=
  { dependents := [], solved := [], isCapsule := cap }

/-- Erase term `x.i` from the value stored at key `j`: the observable effect
of the in-place `delete(q.terms, i)` inside `subst` when `q` is the
polynomial shared with the `leq.dependents` entry. -/
def mapValueEraseTerm (m : EqMap) (j i : ℕ) : EqMap :=
  m.map (fun e => if e.1 = j then (e.1, e.2.eraseTerm i) else e)

/-- One iteration of the first pass of `updateDependentVariables`, for the
snapshot key `j0`.  The state is `(D, deps)` where `deps` carries the
values of `leq.dependents` including the in-place term deletions performed
by `subst` through the shared maps, paired with the error raised so far (the
Go loop aborts on error, leaving the mutations in place). -/
def updateDepStep (i0 : ℕ) (st : (EqMap × EqMap) × Option LErr) (j0 : ℕ) :
    (EqMap × EqMap) × Option LErr :=
  match st.2 with
  | some _ => st
  | none =>
    let D := st.1.1
    let deps := st.1.2
    match slookup deps j0 with
    | none => st
    | some q0 =>
      match slookup D i0 with
      | none => (st.1, some .internal)
      | some p0 =>
        -- x.j = x.i: rebuild the equation toward a fresh pivot
        let rebuilt : Except LErr (ℕ × Polynomial × Bool) :=
          if j0 = i0 then
            let k := (q0.maxCoeff D).1
            match activateEquationTowards k
                (q0.Add ((NewConstantPolynomial 0).SetTerm j0 (-1))) with
            | .error e => .error e
            | .ok q2 => .ok (k, q2, false)
          else .ok (j0, q0, true)
        match rebuilt with
        | .error e => (st.1, some e)
        | .ok (j1, q1, aliased) =>
          let D1 := updateDependency j1 q1 D
          -- swap the roles when q1 no longer mentions x.i but p0 mentions x.j1
          let swapped : ℕ × Polynomial × ℕ × Polynomial × Bool :=
            if !termContains q1 i0 && termContains p0 j1 then (j1, q1, i0, p0, false)
            else (i0, p0, j1, q1, aliased)
          let i2 := swapped.1
          let p2 := swapped.2.1
          let j2 := swapped.2.2.1
          let q2 := swapped.2.2.2.1
          let aliased2 := swapped.2.2.2.2
          if termContains q2 i2 then
            -- the delete inside subst reaches the shared dependents value
            let deps1 := if aliased2 then mapValueEraseTerm deps j0 i2 else deps
            match subst i2 p2 j2 q2 with
            | .error e => ((D1, deps1), some e)
            | .ok (j3, q3) =>
              if j3 ≠ 0 then ((updateDependency j3 q3 D1, deps1), none)
              else
                let off := q3.isOff
                if !off.2 then
                  let k := (q3.maxCoeff D1).1
                  match activateEquationTowards k q3 with
                  | .error e => ((D1, deps1), some e)
                  | .ok q4 => ((updateDependency k q4 D1, deps1), none)
                else if !Is0 off.1 then ((D1, deps1), some .inconsistent)
                else ((D1, deps1), none)
          else ((D1, deps), none)

/-- Model of `updateDependentVariables` (first pass of the LEQ algorithm):
substitute the new equation `x.i = p` into every dependent `x.j = q(j)`,
returning the new dependent set `D` and the (possibly value-mutated) old
dependents, or the error that aborted the pass. -/
def updateDependentVariables (leq : LinEqSolver) (i : ℕ) (p : Polynomial) :
    (EqMap × EqMap) × Option LErr :=
  (leq.dependents.map Prod.fst).foldl (updateDepStep i)
    ((updateDependency i p [], leq.dependents), none)

/-- Model of `checkAndCountCapsule`. -/
def checkAndCount (leq : LinEqSolver) (i : ℕ) (counts : List (ℕ × ℕ)) :
    List (ℕ × ℕ) :=
  if leq.isCapsule i then sinsert i ((slookup counts i).getD 0 + 1) counts
  else counts

/-- Model of `retractVariable`: drop `x.i` from solved and dependents, and
drop every dependent equation whose right-hand side mentions `x.i`. -/
def retractVariable (leq : LinEqSolver) (i : ℕ) : LinEqSolver :=
  { leq with
    solved := serase i leq.solved,
    dependents := (serase i leq.dependents).filter
      (fun e => Is0 (e.2.GetCoeffForTerm i)) }

/-- Model of `harvestCapsules`: count capsule references over the dependent
equations (left-hand-side variable and every non-constant key of the
right-hand side) and the solved variables, then retract all loners.  (Go
ranges over the `counts` map in unspecified order; the model iterates
ascending — the C9 theorem shows the result is the same order-independent
filter.) -/
def harvestCapsules (leq : LinEqSolver) : LinEqSolver :=
  let counts1 := leq.dependents.foldl (fun counts e =>
    (e.2.Exponents).foldl (fun cs i => if i > 0 then checkAndCount leq i cs else cs)
      (checkAndCount leq e.1 counts)) []
  let counts2 := leq.solved.foldl (fun counts e => checkAndCount leq e.1 counts) counts1
  counts2.foldl (fun l e => if e.2 = 1 then retractVariable l e.1 else l) leq

/-- Model of `setSolved` (the resolver notification is an external side
effect). -/
def setSolved (leq : LinEqSolver) (i : ℕ) (p : Polynomial) : LinEqSolver :=
  { leq with solved := sinsert i p leq.solved }

/-- Model of `addEq`: add the equation `0 = p` and propagate.  If `cont` is
true another equation follows immediately and capsule harvesting is
suppressed. -/
def addEq (leq : LinEqSolver) (p : Polynomial) (cont : Bool) :
    LinEqSolver × Option LErr :=
  let p1 := substituteSolved p.Zap leq.solved
  let off := p1.isOff
  if !off.2 then
    let i := (p1.maxCoeff leq.dependents).1
    match activateEquationTowards i p1 with
    | .error e => (leq, some e)
    | .ok p2 =>
      let r := updateDependentVariables leq i p2
      match r.2 with
      | some e => ({ leq with dependents := r.1.2 }, some e)
      | none =>
        let D := r.1.1
        -- split solved variables off to S
        let SD := D.foldl (fun (acc : EqMap × EqMap) e =>
          let s := solvedCheck e.2
          if s.1 then (sinsert e.1 s.2 acc.1, serase e.1 acc.2) else acc) ([], D)
        -- substitute the solved of S into the remaining dependents (in place)
        let SD2 := SD.2.foldl (fun (acc : EqMap × EqMap) e =>
          match slookup acc.2 e.1 with
          | none => acc
          | some q =>
            let q1 := substituteSolved q acc.1
            let s := solvedCheck q1
            if s.1 then (sinsert e.1 s.2 acc.1, serase e.1 acc.2)
            else (acc.1, sinsert e.1 q1 acc.2)) (SD.1, SD.2)
        let leq1 := SD2.1.foldl (fun l e => setSolved l e.1 e.2)
          { leq with dependents := SD2.2 }
        if !cont then (harvestCapsules leq1, none) else (leq1, none)
  else if !Is0 off.1 then (leq, some .inconsistent)
  else if !cont then (harvestCapsules leq, none)
  else (leq, none)

/-- Model of `AddEq` (the public single-equation entry point). -/
def AddEq (leq : LinEqSolver) (p : Polynomial) : LinEqSolver × Option LErr :=
  addEq leq p false

/-- Model of the loop of `AddEqs` over a non-empty list. -/
def addEqsGo : LinEqSolver → List Polynomial → LinEqSolver × Option LErr
  | leq, [] => (leq, none)
  | leq, p :: rest =>
    let r := addEq leq p (rest.length ≠ 0)
    match r.2 with
    | some e => (r.1, some e)
    | none => addEqsGo r.1 rest

/-- Model of `AddEqs`: add a batch of equations (capsule harvesting only
after the last one); an empty batch is an error. -/
def AddEqs (leq : LinEqSolver) (plist : List Polynomial) :
    LinEqSolver × Option LErr :=
  if plist.length = 0 then (leq, some .emptyEquationList)
  else addEqsGo leq plist

lemma slookup_sinsert_self {α : Type} (m : List (ℕ × α)) (i : ℕ) (v : α) :
    slookup (sinsert i v m) i = some v := by
  induction m with
  | nil => simp [sinsert, slookup]
  | cons e rest ih =>
      unfold sinsert
      by_cases h1 : i < e.1
      · simp [h1, slookup]
      · by_cases h2 : i = e.1
        · simp [h1, h2, slookup]
        · simp only [h1, h2, if_false]
          unfold slookup
          simp [h2, ih]

lemma slookup_sinsert_ne {α : Type} (m : List (ℕ × α)) (i k : ℕ) (v : α)
    (h : k ≠ i) : slookup (sinsert i v m) k = slookup m k := by
  induction m with
  | nil => simp [sinsert, slookup, h]
  | cons e rest ih =>
      unfold sinsert
      by_cases h1 : i < e.1
      · simp [h1, slookup, h]
      · by_cases h2 : i = e.1
        · subst h2
          simp [h1, slookup, h]
        · simp only [h1, h2, if_false]
          unfold slookup
          by_cases h3 : k = e.1 <;> simp [h3, ih]

lemma slookup_isSome_sinsert {α : Type} (m : List (ℕ × α)) (i k : ℕ) (v : α)
    (h : (slookup m k).isSome = true) : (slookup (sinsert i v m) k).isSome = true := by
  by_cases hk : k = i
  · subst hk
    rw [slookup_sinsert_self]
    rfl
  · rw [slookup_sinsert_ne m i k v hk]
    exact h

/-- The merge of newly solved variables into the solved set only adds
bindings. -/
lemma sinsertFold_isSome (L : EqMap) (m : EqMap) (k : ℕ)
    (h : (slookup m k).isSome = true) :
    (slookup (L.foldl (fun acc e => sinsert e.1 e.2 acc) m) k).isSome = true := by
  induction L generalizing m with
  | nil => exact h
  | cons e rest ih =>
      exact ih (sinsert e.1 e.2 m) (slookup_isSome_sinsert m e.1 k e.2 h)

lemma setSolvedFold_solved (L : EqMap) (base : LinEqSolver) :
    (L.foldl (fun l e => setSolved l e.1 e.2) base).solved =
      L.foldl (fun acc e => sinsert e.1 e.2 acc) base.solved := by
  induction L generalizing base with
  | nil => rfl
  | cons e rest ih => exact ih (setSolved base e.1 e.2)

lemma setSolvedFold_isCapsule (L : EqMap) (base : LinEqSolver) :
    (L.foldl (fun l e => setSolved l e.1 e.2) base).isCapsule = base.isCapsule := by
  induction L generalizing base with
  | nil => rfl
  | cons e rest ih => exact ih (setSolved base e.1 e.2)

/-- With no capsule variables the harvesting pass counts nothing and
retracts nothing. -/
lemma harvestCapsules_noCapsules (leq : LinEqSolver)
    (hcap : ∀ n, leq.isCapsule n = false) : harvestCapsules leq = leq := by
  have hcc : ∀ i cs, checkAndCount leq i cs = cs := by
    intro i cs
    unfold checkAndCount
    rw [hcap i]
    simp
  have hexp : ∀ (L : List ℕ) cs,
      L.foldl (fun cs i => if i > 0 then checkAndCount leq i cs else cs) cs = cs := by
    intro L
    induction L with
    | nil => intro cs; rfl
    | cons i rest ih =>
        intro cs
        rw [List.foldl_cons]
        have hif : (if i > 0 then checkAndCount leq i cs else cs) = cs := by
          split
          · exact hcc i cs
          · rfl
        rw [hif]
        exact ih cs
  have hdeps : ∀ (L : EqMap) cs, L.foldl (fun counts e =>
      (e.2.Exponents).foldl (fun cs i => if i > 0 then checkAndCount leq i cs else cs)
        (checkAndCount leq e.1 counts)) cs = cs := by
    intro L
    induction L with
    | nil => intro cs; rfl
    | cons e rest ih =>
        intro cs
        rw [List.foldl_cons, hcc e.1 cs, hexp]
        exact ih cs
  have hsol : ∀ (L : EqMap) cs,
      L.foldl (fun counts e => checkAndCount leq e.1 counts) cs = cs := by
    intro L
    induction L with
    | nil => intro cs; rfl
    | cons e rest ih =>
        intro cs
        rw [List.foldl_cons, hcc e.1 cs]
        exact ih cs
  unfold harvestCapsules
  simp only [hdeps, hsol]
  rfl


/-- On a solver without capsule variables, `addEq` never removes a solved
binding: every error path returns the solved set unchanged and the success
path only inserts. -/
lemma addEq_solved_mono (leq : LinEqSolver) (p : Polynomial) (cont : Bool)
    (hcap : ∀ n, leq.isCapsule n = false) (k : ℕ)
    (h : (slookup leq.solved k).isSome = true) :
    (slookup (addEq leq p cont).1.solved k).isSome = true := by
  unfold addEq
  dsimp only
  split
  · split
    · exact h
    · split
      · exact h
      · have hbase : ∀ (SD2 : EqMap × EqMap),
            (slookup ((SD2.1.foldl (fun l e => setSolved l e.1 e.2)
              { leq with dependents := SD2.2 }).solved) k).isSome = true := by
          intro SD2
          rw [setSolvedFold_solved]
          exact sinsertFold_isSome SD2.1 leq.solved k h
        have hcap2 : ∀ (SD2 : EqMap × EqMap) (n : ℕ),
            (SD2.1.foldl (fun l e => setSolved l e.1 e.2)
              { leq with dependents := SD2.2 }).isCapsule n = false := by
          intro SD2 n
          rw [setSolvedFold_isCapsule]
          exact hcap n
        split
        · rw [harvestCapsules_noCapsules _ (hcap2 (_, _))]
          exact hbase (_, _)
        · exact hbase (_, _)
  · split
    · exact h
    · split
      · rw [harvestCapsules_noCapsules leq hcap]
        exact h
      · exact h

/-- When the incoming equation reduces to a constant non-zero residue
directly after substituting the solved values, `addEq` reports the
inconsistency and returns the solver state unchanged. -/
lemma addEq_inconsistent_direct (leq : LinEqSolver) (p : Polynomial) (cont : Bool)
    (hoff : (substituteSolved p.Zap leq.solved).isOff.2 = true)
    (hnz : Is0 (substituteSolved p.Zap leq.solved).isOff.1 = false) :
    addEq leq p cont = (leq, some LErr.inconsistent) := by
  unfold addEq
  dsimp only
  rw [hoff, hnz]
  simp


/-- Example solver state with x.1 already solved to 100 and no capsule
variables. -/
def leqEx : LinEqSolver := ⟨[], [(1, ⟨[(0, 100)]⟩)], fun _ => false⟩

/-- Capsule-enabled solver: x.1 is a capsule variable. -/
def leqCap : LinEqSolver := NewLinEqSolver (fun n => n == 1)

/-- Mid-batch state after ingesting `0 = 100 - x.1` with another equation
pending (`cont = true`, so no harvesting yet): x.1 is solved to 100. -/
def sCap : LinEqSolver := (addEq leqCap ⟨[(0, 100), (1, -1)]⟩ true).1

/-- C2 (counterexample to the claim as stated): the solved set after `AddEq`
is not always a superset of the set before.  With the capsule variable x.1
solved mid-batch (`sCap.solved` binds x.1 to 100), the final `AddEq` of the
unrelated equation `0 = 50 - x.2` succeeds, yet its capsule-harvesting pass
counts x.1 as a loner and retracts it: x.1 is no longer solved afterwards. -/
theorem c2_counterexample :
    (slookup sCap.solved 1).isSome = true ∧
    (AddEq sCap ⟨[(0, 50), (2, -1)]⟩).2 = none ∧
    (slookup (AddEq sCap ⟨[(0, 50), (2, -1)]⟩).1.solved 1).isSome = false := by
  with_unfolding_all decide

/-- C2 (amended): (a) on a solver with no capsule variables, `AddEq` never
removes a solved binding, so the solved set is non-decreasing; (b) when the
equation reduces to a constant non-zero residue directly after substituting
the solved values, `AddEq` fails with the inconsistent-equation error and
returns the solver state — solved and dependents — exactly unchanged; (c) in
particular, ingesting `0 = 100 - a` and then `0 = 99 - 2a` surfaces the
inconsistent-equation error on the second ingestion and leaves a = 100 in
the solved set. -/
theorem c2_leq_monotonic_amended :
    (∀ (leq : LinEqSolver) (p : Polynomial),
        (∀ n, leq.isCapsule n = false) →
        ∀ k, (slookup leq.solved k).isSome = true →
          (slookup (AddEq leq p).1.solved k).isSome = true) ∧
    (∀ (leq : LinEqSolver) (p : Polynomial),
        (substituteSolved p.Zap leq.solved).isOff.2 = true →
        Is0 (substituteSolved p.Zap leq.solved).isOff.1 = false →
        AddEq leq p = (leq, some LErr.inconsistent)) ∧
    ((AddEq (NewLinEqSolver (fun _ => false)) ⟨[(0, 100), (1, -1)]⟩).2 = none ∧
     (AddEq (NewLinEqSolver (fun _ => false)) ⟨[(0, 100), (1, -1)]⟩).1.solved
        = [(1, ⟨[(0, 100)]⟩)] ∧
     (AddEq (NewLinEqSolver (fun _ => false)) ⟨[(0, 100), (1, -1)]⟩).1.dependents
        = [] ∧
     AddEq (AddEq (NewLinEqSolver (fun _ => false)) ⟨[(0, 100), (1, -1)]⟩).1
        ⟨[(0, 99), (1, -2)]⟩
       = ((AddEq (NewLinEqSolver (fun _ => false)) ⟨[(0, 100), (1, -1)]⟩).1,
          some LErr.inconsistent)) := by
  refine ⟨?_, ?_, ?_, ?_, ?_, ?_⟩
  · intro leq p hcap k h
    exact addEq_solved_mono leq p false hcap k h
  · intro leq p hoff hnz
    exact addEq_inconsistent_direct leq p false hoff hnz
  · with_unfolding_all decide
  · with_unfolding_all decide
  · with_unfolding_all decide
  · exact addEq_inconsistent_direct _ _ false (by with_unfolding_all decide)
      (by with_unfolding_all decide)

/-- C2 witness: the amended theorem applied to the concrete solver `leqEx`
(x.1 solved to 100, no capsules) and the equation `0 = 99 - 2·x.1`. -/
theorem c2_witness :
    (slookup (AddEq leqEx ⟨[(0, 99), (1, -2)]⟩).1.solved 1).isSome = true ∧
    AddEq leqEx ⟨[(0, 99), (1, -2)]⟩ = (leqEx, some LErr.inconsistent) :=
  ⟨c2_leq_monotonic_amended.1 leqEx ⟨[(0, 99), (1, -2)]⟩ (fun _ => rfl) 1 rfl,
   c2_leq_monotonic_amended.2.1 leqEx ⟨[(0, 99), (1, -2)]⟩
     (by with_unfolding_all decide) (by with_unfolding_all decide)⟩


/-- The keys of an association list are pairwise distinct. -/
def nodupKeys {α : Type} (m : List (ℕ × α)) : Prop := (m.map Prod.fst).Nodup

instance {α : Type} (m : List (ℕ × α)) : Decidable (nodupKeys m) :=
  inferInstanceAs (Decidable (m.map Prod.fst).Nodup)

/-- Strictly ascending key order: the canonical form maintained by
`sinsert`, mirroring the ascending-key iteration of the Go maps. -/
def sortedKeys {α : Type} (m : List (ℕ × α)) : Prop :=
  m.Pairwise (fun a b => a.1 < b.1)

lemma nodupKeys_of_sortedKeys {α : Type} {m : List (ℕ × α)}
    (h : sortedKeys m) : nodupKeys m := by
  unfold nodupKeys
  have h2 : m.Pairwise (fun a b : ℕ × α => Prod.fst a ≠ Prod.fst b) :=
    h.imp (fun hlt => Nat.ne_of_lt hlt)
  exact List.pairwise_map.mpr h2

lemma slookup_eq_none_of_not_mem {α : Type} (m : List (ℕ × α)) (k : ℕ)
    (h : k ∉ m.map Prod.fst) : slookup m k = none := by
  induction m with
  | nil => rfl
  | cons e rest ih =>
      simp only [List.map_cons, List.mem_cons] at h
      push_neg at h
      unfold slookup
      rw [if_neg h.1]
      exact ih h.2

lemma mem_of_slookup_some {α : Type} {m : List (ℕ × α)} {k : ℕ} {v : α}
    (h : slookup m k = some v) : (k, v) ∈ m := by
  induction m with
  | nil => exact absurd h (by simp [slookup])
  | cons e rest ih =>
      unfold slookup at h
      by_cases hk : k = e.1
      · rw [if_pos hk] at h
        cases h
        cases e
        subst hk
        exact List.mem_cons_self _ _
      · rw [if_neg hk] at h
        right
        exact ih h

lemma slookup_some_of_mem {α : Type} {m : List (ℕ × α)} {k : ℕ} {v : α}
    (hnd : nodupKeys m) (h : (k, v) ∈ m) : slookup m k = some v := by
  induction m with
  | nil => cases h
  | cons e rest ih =>
      unfold nodupKeys at hnd
      simp only [List.map_cons, List.nodup_cons] at hnd
      rcases List.mem_cons.mp h with h1 | h1
      · cases h1
        unfold slookup
        rw [if_pos rfl]
      · have hk : k ≠ e.1 := by
          intro hk
          exact hnd.1 (hk ▸ (List.mem_map.mpr ⟨(k, v), h1, rfl⟩))
        unfold slookup
        rw [if_neg hk]
        exact ih hnd.2 h1

lemma nodupKeys_filter {α : Type} (m : List (ℕ × α)) (p : ℕ × α → Bool)
    (h : nodupKeys m) : nodupKeys (m.filter p) := by
  unfold nodupKeys at h ⊢
  exact h.sublist ((List.filter_sublist m).map Prod.fst)

lemma nodupKeys_serase {α : Type} (m : List (ℕ × α)) (i : ℕ)
    (h : nodupKeys m) : nodupKeys (serase i m) :=
  nodupKeys_filter m _ h

lemma slookup_serase {α : Type} (m : List (ℕ × α)) (i k : ℕ) :
    slookup (serase i m) k = if k = i then none else slookup m k := by
  induction m with
  | nil => simp [serase, slookup]
  | cons e rest ih =>
      unfold serase at ih ⊢
      rw [List.filter_cons]
      by_cases he : e.1 = i
      · have : (decide (e.1 ≠ i)) = false := by simp [he]
        rw [this]
        simp only [Bool.false_eq_true, if_false]
        rw [ih]
        by_cases hk : k = i
        · simp [hk]
        · have hke : k ≠ e.1 := fun hc => hk (hc.trans he)
          simp [hk, slookup, hke]
      · have : (decide (e.1 ≠ i)) = true := by simp [he]
        rw [this]
        simp only [if_true]
        unfold slookup
        by_cases hk : k = e.1
        · have hki : ¬ k = i := fun hc => he (hk ▸ hc)
          simp [hk, hki, he]
        · rw [if_neg hk, ih]
          by_cases hki : k = i <;> simp [hki, hk]

lemma slookup_cons_ne {α : Type} (e : ℕ × α) (rest : List (ℕ × α)) (k : ℕ)
    (h : k ≠ e.1) : slookup (e :: rest) k = slookup rest k := by
  conv_lhs => rw [slookup]
  rw [if_neg h]

lemma slookup_filter {α : Type} (m : List (ℕ × α)) (p : ℕ × α → Bool) (k : ℕ)
    (hnd : nodupKeys m) :
    slookup (m.filter p) k =
      (slookup m k).bind (fun v => if p (k, v) then some v else none) := by
  induction m with
  | nil => rfl
  | cons e rest ih =>
      unfold nodupKeys at hnd
      simp only [List.map_cons, List.nodup_cons] at hnd
      rw [List.filter_cons]
      have he : (k, e.2) = e → True := fun _ => trivial
      by_cases hk : k = e.1
      · have hpair : (k, e.2) = e := by
          cases e
          subst hk
          rfl
        by_cases hp : p e = true
        · rw [if_pos hp]
          unfold slookup
          rw [if_pos hk, if_pos hk]
          simp only [Option.some_bind]
          rw [hpair, hp]
          rfl
        · rw [if_neg hp]
          have hnm : k ∉ (rest.filter p).map Prod.fst := by
            intro hmem
            apply hnd.1
            rcases List.mem_map.mp hmem with ⟨b, hb, hfst⟩
            exact hk ▸ hfst ▸ List.mem_map.mpr ⟨b, List.mem_of_mem_filter hb, rfl⟩
          rw [slookup_eq_none_of_not_mem _ _ hnm]
          unfold slookup
          rw [if_pos hk]
          simp only [Option.some_bind]
          rw [hpair]
          simp [hp]
      · by_cases hp : p e = true
        · rw [if_pos hp]
          unfold slookup
          rw [if_neg hk, if_neg hk]
          exact ih hnd.2
        · rw [if_neg hp]
          rw [ih hnd.2, slookup_cons_ne e rest k hk]


lemma mem_sinsert {α : Type} {b : ℕ × α} {i : ℕ} {v : α} :
    ∀ {m : List (ℕ × α)}, b ∈ sinsert i v m → b = (i, v) ∨ b ∈ m := by
  intro m
  induction m with
  | nil =>
      intro hb
      simp [sinsert] at hb
      exact Or.inl hb
  | cons e rest ih =>
      intro hb
      unfold sinsert at hb
      by_cases h1 : i < e.1
      · rw [if_pos h1] at hb
        rcases List.mem_cons.mp hb with hb | hb
        · exact Or.inl hb
        · exact Or.inr hb
      · rw [if_neg h1] at hb
        by_cases h2 : i = e.1
        · rw [if_pos h2] at hb
          rcases List.mem_cons.mp hb with hb | hb
          · exact Or.inl hb
          · exact Or.inr (List.mem_cons_of_mem e hb)
        · rw [if_neg h2] at hb
          rcases List.mem_cons.mp hb with hb | hb
          · exact Or.inr (hb ▸ List.mem_cons_self e rest)
          · rcases ih hb with hb | hb
            · exact Or.inl hb
            · exact Or.inr (List.mem_cons_of_mem e hb)

lemma sortedKeys_sinsert {α : Type} (m : List (ℕ × α)) (i : ℕ) (v : α)
    (h : sortedKeys m) : sortedKeys (sinsert i v m) := by
  induction m with
  | nil => exact List.pairwise_singleton _ _
  | cons e rest ih =>
      unfold sortedKeys at h
      rw [List.pairwise_cons] at h
      unfold sinsert sortedKeys
      by_cases h1 : i < e.1
      · rw [if_pos h1]
        refine List.Pairwise.cons ?_ (List.Pairwise.cons h.1 h.2)
        intro b hb
        rcases List.mem_cons.mp hb with hb | hb
        · rw [hb]
          exact h1
        · exact h1.trans (h.1 b hb)
      · rw [if_neg h1]
        by_cases h2 : i = e.1
        · rw [if_pos h2]
          refine List.Pairwise.cons ?_ h.2
          intro b hb
          exact h2 ▸ h.1 b hb
        · rw [if_neg h2]
          refine List.Pairwise.cons ?_ (ih h.2)
          intro b hb
          rcases mem_sinsert hb with hb | hb
          · rw [hb]
            exact Nat.lt_of_le_of_ne (Nat.le_of_not_lt h1) (fun hc => h2 hc.symm)
          · exact h.1 b hb

lemma sortedKeys_checkAndCount (leq : LinEqSolver) (i : ℕ) (cs : List (ℕ × ℕ))
    (h : sortedKeys cs) : sortedKeys (checkAndCount leq i cs) := by
  unfold checkAndCount
  split
  · exact sortedKeys_sinsert cs i _ h
  · exact h

/-- The reference-counting pass of `harvestCapsules`, flattened to a fold of
`checkAndCountCapsule` over a plain list of variable occurrences. -/
def ccFold (leq : LinEqSolver) (R : List ℕ) (cs : List (ℕ × ℕ)) : List (ℕ × ℕ) :=
  R.foldl (fun cs i => checkAndCount leq i cs) cs

lemma sortedKeys_ccFold (leq : LinEqSolver) (R : List ℕ) (cs : List (ℕ × ℕ))
    (h : sortedKeys cs) : sortedKeys (ccFold leq R cs) := by
  induction R generalizing cs with
  | nil => exact h
  | cons i rest ih => exact ih (checkAndCount leq i cs) (sortedKeys_checkAndCount leq i cs h)

/-- What the tally fold computes: each capsule key ends at its previous
value plus its number of occurrences in `R`; other keys are untouched. -/
lemma slookup_ccFold (leq : LinEqSolver) (R : List ℕ) (cs : List (ℕ × ℕ)) (k : ℕ) :
    slookup (ccFold leq R cs) k =
      if leq.isCapsule k then
        (if R.count k = 0 then slookup cs k
         else some ((slookup cs k).getD 0 + R.count k))
      else slookup cs k := by
  induction R generalizing cs with
  | nil =>
      unfold ccFold
      rw [List.foldl_nil]
      split
      · rw [if_pos (by rw [List.count_nil])]
      · rfl
  | cons i rest ih =>
      have hstep : ccFold leq (i :: rest) cs = ccFold leq rest (checkAndCount leq i cs) := rfl
      rw [hstep, ih]
      unfold checkAndCount
      by_cases hci : leq.isCapsule i = true
      · rw [if_pos hci]
        by_cases hk : k = i
        · subst hk
          rw [if_pos hci, if_pos hci]
          rw [slookup_sinsert_self]
          have hcnt : (k :: rest).count k = rest.count k + 1 := by
            rw [List.count_cons]
            simp
          by_cases hr : rest.count k = 0
          · rw [if_pos hr, hcnt, hr]
            rw [if_neg (by omega)]
          · rw [if_neg hr, hcnt]
            rw [if_neg (by omega)]
            congr 1
            simp
            omega
        · rw [slookup_sinsert_ne cs i k _ hk]
          have hcnt : (i :: rest).count k = rest.count k := by
            have hik : ¬ i = k := fun hc => hk hc.symm
            simp [List.count_cons, hik]
          rw [hcnt]
      · rw [if_neg hci]
        by_cases hk : k = i
        · subst hk
          rw [if_neg hci, if_neg hci]
        · have hcnt : (i :: rest).count k = rest.count k := by
            have hik : ¬ i = k := fun hc => hk hc.symm
            simp [List.count_cons, hik]
          rw [hcnt]


/-- Every variable occurrence inspected by the counting pass of
`harvestCapsules`: for each dependent equation its left-hand-side variable
and every non-constant exponent of its right-hand side, followed by every
solved variable. -/
def capsuleRefs (leq : LinEqSolver) : List ℕ :=
  leq.dependents.flatMap
      (fun e => e.1 :: (e.2.Exponents).filter (fun i => decide (0 < i)))
    ++ leq.solved.map Prod.fst

/-- Number of occurrences of variable `i` counted by `harvestCapsules`. -/
def refCount (leq : LinEqSolver) (i : ℕ) : ℕ := (capsuleRefs leq).count i

/-- A loner: a capsule variable referenced by exactly one equation
occurrence. -/
def isLoner (leq : LinEqSolver) (i : ℕ) : Bool :=
  leq.isCapsule i && decide (refCount leq i = 1)

/-- Does `q` mention a loner capsule with a non-negligible coefficient? -/
def mentionsLoner (leq : LinEqSolver) (q : Polynomial) : Bool :=
  q.terms.any (fun t => isLoner leq t.1 && !Is0 (q.GetCoeffForTerm t.1))

lemma ccFold_cons (leq : LinEqSolver) (i : ℕ) (L : List ℕ) (cs : List (ℕ × ℕ)) :
    ccFold leq (i :: L) cs = ccFold leq L (checkAndCount leq i cs) := rfl

lemma ccFold_append (leq : LinEqSolver) (A B : List ℕ) (cs : List (ℕ × ℕ)) :
    ccFold leq (A ++ B) cs = ccFold leq B (ccFold leq A cs) := by
  unfold ccFold
  rw [List.foldl_append]

lemma guardFold_eq_ccFold (leq : LinEqSolver) (E : List ℕ) (cs : List (ℕ × ℕ)) :
    E.foldl (fun cs i => if i > 0 then checkAndCount leq i cs else cs) cs
      = ccFold leq (E.filter (fun i => decide (0 < i))) cs := by
  induction E generalizing cs with
  | nil => rfl
  | cons i rest ih =>
      rw [List.foldl_cons, List.filter_cons]
      by_cases h : 0 < i
      · rw [if_pos h, if_pos (by simpa using h), ccFold_cons]
        exact ih (checkAndCount leq i cs)
      · rw [if_neg h, if_neg (by simpa using h)]
        exact ih cs

lemma flatMapFold_eq_ccFold (leq : LinEqSolver) (g : (ℕ × Polynomial) → List ℕ)
    (D : EqMap) (cs : List (ℕ × ℕ)) :
    D.foldl (fun cs e => ccFold leq (g e) cs) cs = ccFold leq (D.flatMap g) cs := by
  induction D generalizing cs with
  | nil => rfl
  | cons e rest ih =>
      rw [List.foldl_cons, List.flatMap_cons, ccFold_append]
      exact ih (ccFold leq (g e) cs)

lemma mapFold_eq_ccFold (leq : LinEqSolver) (L : EqMap) (cs : List (ℕ × ℕ)) :
    L.foldl (fun counts e => checkAndCount leq e.1 counts) cs
      = ccFold leq (L.map Prod.fst) cs := by
  induction L generalizing cs with
  | nil => rfl
  | cons e rest ih =>
      rw [List.foldl_cons, List.map_cons, ccFold_cons]
      exact ih (checkAndCount leq e.1 cs)

/-- The tally computed inside `harvestCapsules` is exactly the fold of the
counter over the flattened occurrence list `capsuleRefs`. -/
lemma harvest_counts (leq : LinEqSolver) :
    leq.solved.foldl (fun counts e => checkAndCount leq e.1 counts)
      (leq.dependents.foldl (fun counts e =>
        (e.2.Exponents).foldl
          (fun cs i => if i > 0 then checkAndCount leq i cs else cs)
          (checkAndCount leq e.1 counts)) [])
      = ccFold leq (capsuleRefs leq) [] := by
  have hbody : (fun (counts : List (ℕ × ℕ)) (e : ℕ × Polynomial) =>
      (e.2.Exponents).foldl (fun cs i => if i > 0 then checkAndCount leq i cs else cs)
        (checkAndCount leq e.1 counts))
      = (fun counts e => ccFold leq
          (e.1 :: (e.2.Exponents).filter (fun i => decide (0 < i))) counts) := by
    funext counts e
    rw [guardFold_eq_ccFold, ccFold_cons]
  rw [hbody, flatMapFold_eq_ccFold, mapFold_eq_ccFold, ← ccFold_append]
  rfl

/-- Lookup characterization of the tally: capsules are mapped to their
reference count (when positive), everything else is absent. -/
lemma harvest_counts_lookup (leq : LinEqSolver) (k : ℕ) :
    slookup (ccFold leq (capsuleRefs leq) []) k =
      if leq.isCapsule k then
        (if refCount leq k = 0 then none else some (refCount leq k))
      else none := by
  rw [slookup_ccFold]
  unfold refCount
  split
  · split
    · rfl
    · show some ((Option.getD none 0) + _) = _
      rw [Option.getD_none, Nat.zero_add]
  · rfl


lemma retract_isCapsule (l : LinEqSolver) (i : ℕ) :
    (retractVariable l i).isCapsule = l.isCapsule := rfl

lemma retract_solved_lookup (l : LinEqSolver) (i k : ℕ) :
    slookup (retractVariable l i).solved k =
      if k = i then none else slookup l.solved k :=
  slookup_serase _ _ _

lemma nodupKeys_retract_deps (l : LinEqSolver) (i : ℕ)
    (hd : nodupKeys l.dependents) : nodupKeys (retractVariable l i).dependents :=
  nodupKeys_filter _ _ (nodupKeys_serase _ _ hd)

lemma retract_deps_lookup (l : LinEqSolver) (i k : ℕ)
    (hd : nodupKeys l.dependents) :
    slookup (retractVariable l i).dependents k =
      if k = i then none
      else (slookup l.dependents k).bind
        (fun q => if Is0 (q.GetCoeffForTerm i) then some q else none) := by
  show slookup ((serase i l.dependents).filter
      (fun e => Is0 (e.2.GetCoeffForTerm i))) k = _
  rw [slookup_filter _ _ _ (nodupKeys_serase _ _ hd), slookup_serase]
  by_cases hk : k = i
  · rw [if_pos hk, if_pos hk]
    rfl
  · rw [if_neg hk, if_neg hk]

/-- Characterization of the retraction loop of `harvestCapsules`: folding
`retractVariable` over the count-1 entries of `L` removes exactly the keys
listed with count 1, from solved and from dependents, together with every
dependent equation whose right-hand side carries a non-negligible
coefficient on such a key. -/
lemma retractFold (L : List (ℕ × ℕ)) (base : LinEqSolver)
    (hd : nodupKeys base.dependents) :
    ((L.foldl (fun l e => if e.2 = 1 then retractVariable l e.1 else l) base).isCapsule
        = base.isCapsule) ∧
    (∀ k, slookup (L.foldl (fun l e => if e.2 = 1 then retractVariable l e.1 else l)
          base).solved k
        = if L.any (fun e => e.1 == k && e.2 == 1) then none
          else slookup base.solved k) ∧
    (∀ k, slookup (L.foldl (fun l e => if e.2 = 1 then retractVariable l e.1 else l)
          base).dependents k
        = if L.any (fun e => e.1 == k && e.2 == 1) then none
          else (slookup base.dependents k).bind (fun q =>
            if L.any (fun e => !Is0 (q.GetCoeffForTerm e.1) && e.2 == 1) then none
            else some q)) := by
  induction L generalizing base with
  | nil =>
      refine ⟨rfl, fun k => rfl, fun k => ?_⟩
      rw [List.foldl_nil, List.any_nil, if_neg (by simp)]
      cases slookup base.dependents k <;> rfl
  | cons e rest ih =>
      by_cases he : e.2 = 1
      · have hone : (e.2 == 1) = true := by simp [he]
        obtain ⟨ihc, ihs, ihd⟩ := ih (retractVariable base e.1)
          (nodupKeys_retract_deps base e.1 hd)
        rw [List.foldl_cons]
        rw [if_pos he]
        refine ⟨ihc, fun k => ?_, fun k => ?_⟩
        · rw [ihs k, retract_solved_lookup, List.any_cons, hone, Bool.and_true]
          by_cases hk : e.1 = k
          · have : (e.1 == k) = true := by simp [hk]
            rw [this, Bool.true_or, if_pos rfl, if_pos hk.symm]
            split <;> rfl
          · have : (e.1 == k) = false := by simp [hk]
            rw [this, Bool.false_or, if_neg (fun hc : k = e.1 => hk hc.symm)]
        · rw [ihd k, retract_deps_lookup base e.1 k hd, List.any_cons, hone,
            Bool.and_true]
          by_cases hk : e.1 = k
          · have hbeq : (e.1 == k) = true := by simp [hk]
            rw [hbeq, Bool.true_or, if_pos rfl, if_pos hk.symm]
            split
            · rfl
            · rfl
          · have hbeq : (e.1 == k) = false := by simp [hk]
            rw [hbeq, Bool.false_or, if_neg (fun hc : k = e.1 => hk hc.symm)]
            by_cases hany : rest.any (fun e => e.1 == k && e.2 == 1) = true
            · rw [if_pos hany, if_pos hany]
            · rw [if_neg hany, if_neg hany]
              cases hq : slookup base.dependents k with
              | none => rfl
              | some q =>
                  simp only [Option.some_bind]
                  rw [List.any_cons, hone, Bool.and_true]
                  by_cases h0 : Is0 (q.GetCoeffForTerm e.1) = true
                  · rw [if_pos h0]
                    simp only [Option.some_bind]
                    rw [h0]
                    simp only [Bool.not_true, Bool.false_or]
                  · rw [if_neg h0]
                    simp only [Option.none_bind]
                    have : (!Is0 (q.GetCoeffForTerm e.1)) = true := by
                      simp [Bool.not_eq_true] at h0 ⊢
                      exact h0
                    rw [this, Bool.true_or, if_pos rfl]
      · have hone : (e.2 == 1) = false := by simp [he]
        obtain ⟨ihc, ihs, ihd⟩ := ih base hd
        rw [List.foldl_cons]
        rw [if_neg he]
        refine ⟨ihc, fun k => ?_, fun k => ?_⟩
        · rw [ihs k, List.any_cons, hone, Bool.and_false, Bool.false_or]
        · rw [ihd k, List.any_cons, hone, Bool.and_false, Bool.false_or]
          by_cases hany : rest.any (fun e => e.1 == k && e.2 == 1) = true
          · rw [if_pos hany, if_pos hany]
          · rw [if_neg hany, if_neg hany]
            cases hq : slookup base.dependents k with
            | none => rfl
            | some q =>
                simp only [Option.some_bind]
                rw [List.any_cons, hone, Bool.and_false, Bool.false_or]


lemma bool_eq_of_iff {a b : Bool} (h : a = true ↔ b = true) : a = b := by
  cases a <;> cases b <;> simp_all

lemma any_key_eq (L : List (ℕ × ℕ)) (hnd : nodupKeys L) (k : ℕ) :
    L.any (fun e => e.1 == k && e.2 == 1) = true ↔ slookup L k = some 1 := by
  rw [List.any_eq_true]
  constructor
  · rintro ⟨e, he, hpe⟩
    simp only [Bool.and_eq_true, beq_iff_eq] at hpe
    have hek : e = (k, 1) := by
      cases e
      exact Prod.ext hpe.1 hpe.2
    exact slookup_some_of_mem hnd (hek ▸ he)
  · intro h
    exact ⟨(k, 1), mem_of_slookup_some h, by simp⟩

lemma any_coeff_eq (L : List (ℕ × ℕ)) (hnd : nodupKeys L) (q : Polynomial) :
    L.any (fun e => !Is0 (q.GetCoeffForTerm e.1) && e.2 == 1) = true ↔
      ∃ i, slookup L i = some 1 ∧ Is0 (q.GetCoeffForTerm i) = false := by
  rw [List.any_eq_true]
  constructor
  · rintro ⟨e, he, hpe⟩
    simp only [Bool.and_eq_true, beq_iff_eq, Bool.not_eq_true'] at hpe
    refine ⟨e.1, ?_, hpe.1⟩
    have hek : e = (e.1, 1) := by
      cases e
      simp only at hpe ⊢
      exact Prod.ext rfl hpe.2
    exact slookup_some_of_mem hnd (hek ▸ he)
  · rintro ⟨i, hi, h0⟩
    exact ⟨(i, 1), mem_of_slookup_some hi, by simp [h0]⟩

lemma slookup_counts_one (leq : LinEqSolver) (k : ℕ) :
    slookup (ccFold leq (capsuleRefs leq) []) k = some 1 ↔ isLoner leq k = true := by
  rw [harvest_counts_lookup]
  unfold isLoner
  by_cases hc : leq.isCapsule k = true
  · rw [if_pos hc, hc, Bool.true_and]
    by_cases hz : refCount leq k = 0
    · rw [if_pos hz]
      simp [hz]
    · rw [if_neg hz]
      simp
  · rw [if_neg hc]
    rw [Bool.not_eq_true] at hc
    rw [hc]
    simp

lemma mentionsLoner_iff (leq : LinEqSolver) (q : Polynomial) :
    mentionsLoner leq q = true ↔
      ∃ i, isLoner leq i = true ∧ Is0 (q.GetCoeffForTerm i) = false := by
  unfold mentionsLoner
  rw [List.any_eq_true]
  constructor
  · rintro ⟨t, ht, hpt⟩
    simp only [Bool.and_eq_true, Bool.not_eq_true'] at hpt
    exact ⟨t.1, hpt.1, hpt.2⟩
  · rintro ⟨i, hi, h0⟩
    have h00 : Is0 (0 : ℚ) = true := by
      with_unfolding_all decide
    cases hq : slookup q.terms i with
    | none =>
        exfalso
        have hgc : q.GetCoeffForTerm i = 0 := by
          unfold Polynomial.GetCoeffForTerm
          rw [hq]
          rfl
        rw [hgc, h00] at h0
        cases h0
    | some c =>
        refine ⟨(i, c), mem_of_slookup_some hq, ?_⟩
        simp only [Bool.and_eq_true, Bool.not_eq_true']
        exact ⟨hi, h0⟩

/-- C9: after a complete ingestion batch, `harvestCapsules` retracts exactly
the loner capsules.  Counting every reference over the dependents mapping
(left-hand-side variable plus every non-constant key of each right-hand
side) and the solved mapping, a capsule with reference count exactly 1 is
dropped from solved and from dependents, along with every dependent
equation whose right-hand side mentions it (non-negligible coefficient);
capsules with two or more references and all non-capsule variables are
retained, and the capsule predicate itself is untouched. -/
theorem c9_harvest_retracts_loners (leq : LinEqSolver)
    (hd : nodupKeys leq.dependents) :
    (harvestCapsules leq).isCapsule = leq.isCapsule ∧
    (∀ k, slookup (harvestCapsules leq).solved k =
        if isLoner leq k then none else slookup leq.solved k) ∧
    (∀ k, slookup (harvestCapsules leq).dependents k =
        (slookup leq.dependents k).bind (fun q =>
          if isLoner leq k || mentionsLoner leq q then none else some q)) ∧
    (∀ q, mentionsLoner leq q = true ↔
        ∃ i, isLoner leq i = true ∧ Is0 (q.GetCoeffForTerm i) = false) := by
  have hnd : nodupKeys (ccFold leq (capsuleRefs leq) []) :=
    nodupKeys_of_sortedKeys (sortedKeys_ccFold leq _ [] List.Pairwise.nil)
  have hkey : ∀ k, ((ccFold leq (capsuleRefs leq) []).any
      (fun e => e.1 == k && e.2 == 1)) = isLoner leq k := by
    intro k
    exact bool_eq_of_iff ((any_key_eq _ hnd k).trans (slookup_counts_one leq k))
  have hcoeff : ∀ q, ((ccFold leq (capsuleRefs leq) []).any
      (fun e => !Is0 (q.GetCoeffForTerm e.1) && e.2 == 1)) = mentionsLoner leq q := by
    intro q
    refine bool_eq_of_iff ((any_coeff_eq _ hnd q).trans ?_)
    rw [mentionsLoner_iff]
    constructor
    · rintro ⟨i, hi, h0⟩
      exact ⟨i, (slookup_counts_one leq i).mp hi, h0⟩
    · rintro ⟨i, hi, h0⟩
      exact ⟨i, (slookup_counts_one leq i).mpr hi, h0⟩
  have hh : harvestCapsules leq =
      (ccFold leq (capsuleRefs leq) []).foldl
        (fun l e => if e.2 = 1 then retractVariable l e.1 else l) leq := by
    unfold harvestCapsules
    dsimp only
    rw [harvest_counts]
  obtain ⟨hc, hs2, hd2⟩ := retractFold (ccFold leq (capsuleRefs leq) []) leq hd
  refine ⟨?_, fun k => ?_, fun k => ?_, mentionsLoner_iff leq⟩
  · rw [hh]
    exact hc
  · rw [hh, hs2 k, hkey k]
  · rw [hh, hd2 k, hkey k]
    simp only [hcoeff]
    by_cases hl : isLoner leq k = true
    · rw [hl]
      cases slookup leq.dependents k <;> simp
    · rw [Bool.not_eq_true] at hl
      rw [hl]
      cases slookup leq.dependents k <;> simp

/-- A solver holding one solved loner capsule: x.5 is a capsule, solved to
7, referenced nowhere else. -/
def leqH : LinEqSolver := ⟨[], [(5, ⟨[(0, 7)]⟩)], fun n => n == 5⟩

/-- C9 witness: on `leqH` the harvesting pass retracts the loner capsule
x.5 from the solved set. -/
theorem c9_witness :
    isLoner leqH 5 = true ∧ slookup (harvestCapsules leqH).solved 5 = none := by
  have h := c9_harvest_retracts_loners leqH (by decide)
  have hl : isLoner leqH 5 = true := by decide
  refine ⟨hl, ?_⟩
  rw [h.2.1 5, hl]
  rfl

end Polyn

/-! ## The real-valued model of the jhobby solver numerics

Floating-point numbers are idealized as real numbers.  The direction
arrays, which use NaN as the "unset" sentinel (`cmplx.NaN()` defaults in
`getC`), are modeled with `Option`; everywhere else the Go code operates on
ordinary finite values. -/

namespace JHobbyR

/-- The truncated π constant of `types.go` (`const pi float64 = 3.14159265`). -/
def Pi : ℝ := 3.14159265

/-- The truncated 2π constant of `types.go`
(`const pi2 float64 = 6.28318530`). -/
def Pi2 : ℝ := 6.28318530

/-- Model of `_epsilon = 0.0000001`. -/
def epsR : ℝ := 0.0000001

/-- Model of `reduceAngle`: one conditional correction by 2π, using the
program's truncated constants. -/
noncomputable def reduceAngle (a : ℝ) : ℝ :=
  if |a| > Pi then (if a > 0 then a - Pi2 else a + Pi2) else a

/-- C6 counterexample: `reduceAngle 10` exceeds π, so the result of
`reduceAngle` does not lie in (-π, π] for every finite input.  The guard
corrects by 2π at most once, which cannot bring an angle of magnitude
beyond π + 2π back into range. -/
theorem c6_counterexample : Real.pi < reduceAngle 10 := by
  have h10 : reduceAngle 10 = 10 - Pi2 := by
    unfold reduceAngle
    rw [if_pos (by rw [abs_of_pos (by norm_num : (0:ℝ) < 10)]; norm_num [Pi]),
      if_pos (by norm_num : (10:ℝ) > 0)]
  rw [h10]
  calc Real.pi < 3.15 := Real.pi_lt_d2
  _ ≤ 10 - Pi2 := by norm_num [Pi2]

/-- C6 (amended): for every angle of magnitude at most pi + pi2 (the
program's truncated constants — in particular for every sum or difference
of two phases, which is all the solver ever feeds it), `reduceAngle`
returns a value in the half-open interval (-π, π]. -/
theorem c6_reduceAngle_amended (a : ℝ) (h : |a| ≤ Pi + Pi2) :
    -Real.pi < reduceAngle a ∧ reduceAngle a ≤ Real.pi := by
  have hlo : (3.14159265 : ℝ) < Real.pi := by
    calc (3.14159265 : ℝ) < 3.14159265358979323846 := by norm_num
    _ < Real.pi := Real.pi_gt_d20
  unfold Pi Pi2 at h
  have habs := abs_le.mp h
  unfold reduceAngle Pi Pi2
  by_cases hgt : |a| > (3.14159265 : ℝ)
  · rw [if_pos hgt]
    by_cases hpos : a > 0
    · rw [if_pos hpos]
      have ha : (3.14159265 : ℝ) < a := by
        rw [abs_of_pos hpos] at hgt
        exact hgt
      exact ⟨by linarith [habs.2], by linarith [habs.2]⟩
    · rw [if_neg hpos]
      push_neg at hpos
      have ha : a < -(3.14159265 : ℝ) := by
        rw [abs_of_nonpos hpos] at hgt
        linarith
      exact ⟨by linarith [habs.1], by linarith [habs.1]⟩
  · rw [if_neg hgt]
    push_neg at hgt
    have h2 := abs_le.mp hgt
    exact ⟨by linarith [h2.1], by linarith [h2.2]⟩

/-- C6 witness: the amended theorem at the concrete angle 1. -/
theorem c6_witness :
    |(1 : ℝ)| ≤ Pi + Pi2 ∧ (-Real.pi < reduceAngle 1 ∧ reduceAngle 1 ≤ Real.pi) :=
  ⟨by norm_num [Pi, Pi2], c6_reduceAngle_amended 1 (by norm_num [Pi, Pi2])⟩

end JHobbyR

namespace JHobbyR

/-- Model of `Path` (`types.go`).  Coordinates are idealized reals; the
direction arrays, whose unset entries hold `cmplx.NaN()`, store `Option`
values with `none` as the NaN sentinel.  Curls and tensions default to
`(1,1)` through `getC`, exactly as in the accessors below. -/
structure Path where
  points : List (ℝ × ℝ)
  cycle : Bool
  predirs : List (Option (ℝ × ℝ))
  postdirs : List (Option (ℝ × ℝ))
  curls : List (ℝ × ℝ)
  tensions : List (ℝ × ℝ)

/-- Model of `Path.N`. -/
def Path.N (p : Path) : ℕ := p.points.length

/-- Model of `Path.Z` for the non-negative subscripts used by the solver:
`points[i mod N]` (the source reduces out-of-range subscripts by `%`;
negative subscripts are covered by the exact-path analysis of `Z`). -/
def Path.Z (p : Path) (i : ℕ) : ℝ × ℝ := p.points.getD (i % p.N) (0, 0)

/-- Model of `Path.PreDir` (`getC` with NaN default). -/
def Path.PreDir (p : Path) (i : ℕ) : Option (ℝ × ℝ) := p.predirs.getD i none

/-- Model of `Path.PostDir`. -/
def Path.PostDir (p : Path) (i : ℕ) : Option (ℝ × ℝ) := p.postdirs.getD i none

/-- Model of `Path.PreCurl` (`getC` with default `1+1i`, real part). -/
def Path.PreCurl (p : Path) (i : ℕ) : ℝ := (p.curls.getD i (1, 1)).1

/-- Model of `Path.PostCurl` (imaginary part). -/
def Path.PostCurl (p : Path) (i : ℕ) : ℝ := (p.curls.getD i (1, 1)).2

/-- Model of `Path.PreTension`. -/
def Path.PreTension (p : Path) (i : ℕ) : ℝ := (p.tensions.getD i (1, 1)).1

/-- Model of `Path.PostTension`. -/
def Path.PostTension (p : Path) (i : ℕ) : ℝ := (p.tensions.getD i (1, 1)).2

/-- Model of `pathPartial` (the Go field `end` is a Lean keyword and is
named `stop`). -/
structure pathPartial where
  whole : Path
  start : ℕ
  stop : ℕ

/-- Model of `pathPartial.N`: `end - start + 1`. -/
def pathPartial.N (pp : pathPartial) : ℕ := pp.stop - pp.start + 1

/-- Model of `pathPartial.IsCycle`. -/
def pathPartial.IsCycle (pp : pathPartial) : Bool :=
  pp.whole.cycle && (pp.whole.N == pp.N)

/-- Model of `pathPartial.pmap` for the non-negative subscripts used by the
solver. -/
def pathPartial.pmap (pp : pathPartial) (i : ℕ) : ℕ := i % pp.N + pp.start

/-- Model of `pathPartial.Z`. -/
def pathPartial.Z (pp : pathPartial) (i : ℕ) : ℝ × ℝ :=
  if pp.IsCycle then pp.whole.Z i else pp.whole.Z (pp.pmap i)

/-- Model of `pathPartial.PreDir`. -/
def pathPartial.PreDir (pp : pathPartial) (i : ℕ) : Option (ℝ × ℝ) :=
  pp.whole.PreDir (pp.pmap i)

/-- Model of `pathPartial.PostDir`. -/
def pathPartial.PostDir (pp : pathPartial) (i : ℕ) : Option (ℝ × ℝ) :=
  pp.whole.PostDir (pp.pmap i)

/-- Model of `pathPartial.PreCurl`. -/
def pathPartial.PreCurl (pp : pathPartial) (i : ℕ) : ℝ :=
  pp.whole.PreCurl (pp.pmap i)

/-- Model of `pathPartial.PostCurl`. -/
def pathPartial.PostCurl (pp : pathPartial) (i : ℕ) : ℝ :=
  pp.whole.PostCurl (pp.pmap i)

/-- Model of `pathPartial.PreTension`. -/
def pathPartial.PreTension (pp : pathPartial) (i : ℕ) : ℝ :=
  pp.whole.PreTension (pp.pmap i)

/-- Model of `pathPartial.PostTension`. -/
def pathPartial.PostTension (pp : pathPartial) (i : ℕ) : ℝ :=
  pp.whole.PostTension (pp.pmap i)

/-- Model of `pathPartial.delta`: `Z(i+1) - Z(i)` (complex subtraction is
componentwise). -/
def pathPartial.delta (pp : pathPartial) (i : ℕ) : ℝ × ℝ :=
  pp.Z (i + 1) - pp.Z i

/-- `cmplx.Abs`: the euclidean length of a pair. -/
noncomputable def dlen (v : ℝ × ℝ) : ℝ := Real.sqrt (v.1 ^ 2 + v.2 ^ 2)

/-- Model of `pathPartial.d`: the polar radius of the chord. -/
noncomputable def pathPartial.d (pp : pathPartial) (i : ℕ) : ℝ := dlen (pp.delta i)

/-- `math.Atan2` on finite arguments: the branch structure of the
two-argument arctangent, with value in (-π, π]. -/
noncomputable def atan2 (y x : ℝ) : ℝ :=
  if 0 < x then Real.arctan (y / x)
  else if x < 0 then
    (if 0 ≤ y then Real.arctan (y / x) + Real.pi else Real.arctan (y / x) - Real.pi)
  else (if 0 < y then Real.pi / 2 else if y < 0 then -(Real.pi / 2) else 0)

/-- `cmplx.Phase` of a finite pair. -/
noncomputable def phase (v : ℝ × ℝ) : ℝ := atan2 v.2 v.1

/-- Model of `angle` (`utilities.go`): 0 for the NaN sentinel, the phase
otherwise. -/
noncomputable def angle (v : Option (ℝ × ℝ)) : ℝ :=
  match v with
  | none => 0
  | some p => phase p

/-- Model of `pathPartial.psi`: the turning angle at knot i, reduced.  (The
solver only evaluates `psi` at subscripts i ≥ 1, where the ℕ-valued `i - 1`
agrees with the source.) -/
noncomputable def pathPartial.psi (pp : pathPartial) (i : ℕ) : ℝ :=
  reduceAngle
    (if pp.IsCycle ∨ (0 < i ∧ i < pp.N - 1) then
      phase (pp.delta i) - phase (pp.delta (i - 1))
    else 0)

/-- Model of `recip` on the model's finite values: `1.0 / a` (the NaN guard
of the source cannot fire on idealized reals). -/
noncomputable def recip (a : ℝ) : ℝ := 1 / a

/-- Model of `square`: `math.Pow(a, 2)`. -/
noncomputable def square (a : ℝ) : ℝ := a ^ 2

/-- Model of `equal`: phases of the difference within epsilon. -/
noncomputable def equal (c1 c2 : ℝ × ℝ) : Prop := |phase (c1 - c2)| < epsR

/-- Model of `isrough`: a knot with non-neutral curl, or two explicit and
different directions. -/
noncomputable def isrough (path : Path) (i : ℕ) : Prop :=
  (path.PreCurl i ≠ 1 ∨ path.PostCurl i ≠ 1) ∨
  (match path.PreDir i, path.PostDir i with
   | some ld, some rd => ¬ equal ld rd
   | _, _ => False)

open Classical in
/-- One iteration of the breakpoint scan of `splitSegments`: the state is
(the emitted `(from, to)` ranges, the current segment start `at`). -/
noncomputable def splitStep (path : Path) (st : List (ℕ × ℕ) × ℕ) (i : ℕ) :
    List (ℕ × ℕ) × ℕ :=
  if isrough path i then (st.1 ++ [(st.2, i)], i) else st

open Classical in
/-- Model of `splitSegments`, producing the `(from, to)` index ranges
passed to `makePathSegment`. -/
noncomputable def splitSegments (path : Path) : List (ℕ × ℕ) :=
  let st := (List.range' 1 (path.N - 1)).foldl (splitStep path) ([], 0)
  if path.cycle = true then
    (if st.1.length = 0 then [(0, path.N - 1)] else st.1 ++ [(st.2, path.N)])
  else if st.2 ≠ path.N - 1 then st.1 ++ [(st.2, path.N - 1)] else st.1

/-- The error classes of `types.go` (`errors.Is`-equivalence classes of the
five error values; the wrapped index payloads carry no control flow). -/
inductive Err where
  | nilPath
  | tooFewKnots
  | invalidKnot
  | degenerateSegment
  | duplicateTerminalKnot
deriving DecidableEq, Repr

open Classical in
/-- Model of `validateSegment`.  (The nil-pointer guard cannot be expressed
on the value-typed model; `FindHobbyControls` never produces nil
segments.)  The loop returning the first degenerate chord is equivalent to
the existence check, as the reported index is not part of the error
class. -/
noncomputable def validateSegment (seg : pathPartial) : Option Err :=
  if seg.N < 2 then some .tooFewKnots
  else
    let limit := if seg.IsCycle then seg.N else seg.N - 1
    if ∃ i, i < limit ∧ dlen (seg.delta i) ≤ epsR then some .degenerateSegment
    else none

open Classical in
/-- The degenerate-chord scan of `ValidateForSolve`: `j = (i+1) % n` for a
cycle and `j = i+1` otherwise, which coincide for `i < limit ≤ n-1`. -/
noncomputable def validDeg (p : Path) (limit : ℕ) : Option Err :=
  if ∃ i, i < limit ∧
      dlen (p.points.getD ((i + 1) % p.N) (0, 0) - p.points.getD i (0, 0)) ≤ epsR
  then some .degenerateSegment else none

open Classical in
/-- Model of `Path.ValidateForSolve` on the real-valued model (every
coordinate of the model is a finite real, so the NaN/Inf knot scan —
covered by the exact-path validation analysis — never fires here). -/
noncomputable def ValidateForSolve (path : Option Path) : Option Err :=
  match path with
  | none => some .nilPath
  | some p =>
    if p.cycle = true then
      (if p.N < 3 then some .tooFewKnots
       else if dlen (p.points.getD 0 (0, 0) - p.points.getD (p.N - 1) (0, 0)) ≤ epsR
       then some .duplicateTerminalKnot
       else validDeg p p.N)
    else if p.N < 2 then some .tooFewKnots
    else validDeg p (p.N - 1)

/-- Model of `Controls` (control-point containers, NaN entries as `none`). -/
structure Controls where
  prec : List (Option (ℝ × ℝ))
  postc : List (Option (ℝ × ℝ))

/-- Model of `extendC`: pad with the NaN sentinel up to index `i`. -/
def extendC {α : Type} (arr : List (Option α)) (i : ℕ) : List (Option α) :=
  if arr.length ≤ i then arr ++ List.replicate (i + 1 - arr.length) none else arr

/-- Model of `SetPreControl`. -/
def Controls.SetPreControl (c : Controls) (i : ℕ) (v : ℝ × ℝ) : Controls :=
  { c with prec := (extendC c.prec i).set i (some v) }

/-- Model of `SetPostControl`. -/
def Controls.SetPostControl (c : Controls) (i : ℕ) (v : ℝ × ℝ) : Controls :=
  { c with postc := (extendC c.postc i).set i (some v) }

/-- Model of `PreControl` (`getC` with NaN default). -/
def Controls.PreControl (c : Controls) (i : ℕ) : Option (ℝ × ℝ) :=
  c.prec.getD i none

/-- Model of `PostControl`. -/
def Controls.PostControl (c : Controls) (i : ℕ) : Option (ℝ × ℝ) :=
  c.postc.getD i none

/-- Model of `hobbyParamsAlphaBeta`, with the source's empiric constants. -/
noncomputable def hobbyParamsAlphaBeta (theta phi : ℝ) : ℝ × ℝ :=
  let constA : ℝ := 1.41421356
  let constB : ℝ := 0.0625
  let constC : ℝ := 0.38196601125
  let constCC : ℝ := 0.61803398875
  let st := Real.sin theta
  let ct := Real.cos theta
  let sf := Real.sin phi
  let cf := Real.cos phi
  (constA * (st - constB * sf) * (sf - constB * st) * (ct - cf),
   1 + constCC * ct + constC * cf)

/-- Model of `hobbyParamsRhoSigma`. -/
noncomputable def hobbyParamsRhoSigma (alpha beta : ℝ) : ℝ × ℝ :=
  ((2 + alpha) / beta, (2 - alpha) / beta)

/-- Complex multiplication on pairs (`arithm.Pair` is `complex128`). -/
def cmul (p q : ℝ × ℝ) : ℝ × ℝ :=
  (p.1 * q.1 - p.2 * q.2, p.1 * q.2 + p.2 * q.1)

/-- Model of `cunitvecs` (the index argument is unused in the source). -/
noncomputable def cunitvecs (i : ℕ) (theta phi : ℝ) (dvec : ℝ × ℝ) :
    (ℝ × ℝ) × (ℝ × ℝ) :=
  let st := Real.sin theta
  let ct := Real.cos theta
  let sf := Real.sin phi
  let cf := Real.cos phi
  ((dvec.1 * ct - dvec.2 * st, dvec.1 * st + dvec.2 * ct),
   (dvec.1 * cf + dvec.2 * sf, -dvec.1 * sf + dvec.2 * cf))

/-- Model of `controlPoints`: the offsets `p2`, `p3` of the two control
points of the chord `i → i+1`. -/
noncomputable def controlPoints (i : ℕ) (phi theta a b : ℝ) (dvec : ℝ × ℝ) :
    (ℝ × ℝ) × (ℝ × ℝ) :=
  let ab := hobbyParamsAlphaBeta theta phi
  let rs := hobbyParamsRhoSigma ab.1 ab.2
  let uv := cunitvecs i theta phi dvec
  (cmul (a / 3 * rs.1, 0) uv.1, cmul (b / 3 * rs.2, 0) uv.2)

/-- One iteration `i` of `buildEqs`, mapping `(u,v,w)` at `i-1` to the
values at `i` (for open paths the third component is never read). -/
noncomputable def buildStep (pp : pathPartial) (i : ℕ) (prev : ℝ × ℝ × ℝ) :
    ℝ × ℝ × ℝ :=
  let a0 := recip (pp.PostTension (i - 1))
  let a1 := recip (pp.PostTension i)
  let b1 := recip (pp.PreTension i)
  let b2 := recip (pp.PreTension (i + 1))
  let A := a0 / (square b1 * pp.d (i - 1))
  let B := (3 - a0) / (square b1 * pp.d (i - 1))
  let C := (3 - b2) / (square a1 * pp.d i)
  let D := b2 / (square a1 * pp.d i)
  let t := B - prev.1 * A + C
  (D / t,
   (-B * pp.psi i - D * pp.psi (i + 1) - A * prev.2.1) / t,
   -A * prev.2.2 / t)

/-- Model of `startOpen` (plus a vacuous `w` slot). -/
noncomputable def startOpenUVW (pp : pathPartial) : ℝ × ℝ × ℝ :=
  match pp.PostDir 0 with
  | none =>
    let a := recip (pp.PostTension 0)
    let b := recip (pp.PreTension 1)
    let c := square a * pp.PostCurl 0 / square b
    let u0 := ((3 - a) * c + b) / (a * c + 3 - b)
    (u0, -u0 * pp.psi 1, 0)
  | some dir => (0, reduceAngle (phase dir - phase (pp.delta 0)), 0)

/-- Model of `startCycle`. -/
noncomputable def startCycleUVW : ℝ × ℝ × ℝ := (0, 0, 1)

/-- The `u`, `v`, `w` coefficient arrays filled by
`startOpen`/`startCycle` and `buildEqs`, as a recursion over the index. -/
noncomputable def uvw (pp : pathPartial) : ℕ → ℝ × ℝ × ℝ
  | 0 => if pp.IsCycle then startCycleUVW else startOpenUVW pp
  | i + 1 => buildStep pp (i + 1) (uvw pp i)

/-- Model of the boundary value of `endOpen`: `theta[last]`, either from
an explicit incoming direction or from the end-curl formula (which
overwrites `u[last]`). -/
noncomputable def endOpenTheta (pp : pathPartial) : ℝ :=
  let last := pp.N - 1
  match pp.PreDir last with
  | none =>
    let a := recip (pp.PostTension (last - 1))
    let b := recip (pp.PreTension last)
    let c := square b * pp.PreCurl last / square a
    let ulast := (b * c + 3 - a) / ((3 - b) * c + a)
    (uvw pp (last - 1)).2.1 / ((uvw pp (last - 1)).1 - ulast)
  | some dir => reduceAngle (phase dir - phase (pp.delta (last - 1)))

/-- The `theta` array of `solveOpenPath`: `theta[last]` from `endOpen`,
back-substitution below it, 0 beyond it (the array is allocated zeroed and
never written there). -/
noncomputable def thetaOpen (pp : pathPartial) (i : ℕ) : ℝ :=
  if h : pp.N - 1 ≤ i then (if i = pp.N - 1 then endOpenTheta pp else 0)
  else (uvw pp i).2.1 - (uvw pp i).1 * thetaOpen pp (i + 1)
termination_by pp.N - 1 - i
decreasing_by
  simp_wf
  omega

/-- The accumulator loop of `endCycle`: `a, b := 0, 1`, then for
`i = n, n-1, ..., 1`: `a = v[i] - a*u[i]`, `b = w[i] - b*u[i]`. -/
noncomputable def endCycleAB (pp : pathPartial) : ℝ × ℝ :=
  (List.range pp.N).foldl (fun ab k =>
    let i := pp.N - k
    ((uvw pp i).2.1 - ab.1 * (uvw pp i).1,
     (uvw pp i).2.2 - ab.2 * (uvw pp i).1)) (0, 1)

/-- The cyclic boundary angle `t0` of `endCycle`. -/
noncomputable def t0 (pp : pathPartial) : ℝ :=
  let ab := endCycleAB pp
  let n := pp.N
  ((uvw pp n).2.1 - ab.1 * (uvw pp n).1) /
    (1 - ((uvw pp n).2.2 - ab.2 * (uvw pp n).1))

/-- The `theta` array of `solveCyclePath`: `theta[0] = theta[n] = t0`,
back-substitution with the updated `v[i] + w[i]*t0` in between, 0 beyond
`n`. -/
noncomputable def thetaCycle (pp : pathPartial) (i : ℕ) : ℝ :=
  if h : i = 0 ∨ pp.N ≤ i then (if i = 0 ∨ i = pp.N then t0 pp else 0)
  else ((uvw pp i).2.1 + (uvw pp i).2.2 * t0 pp) - (uvw pp i).1 * thetaCycle pp (i + 1)
termination_by pp.N - i
decreasing_by
  simp_wf
  omega

/-- The solved turning angles handed to `setControls` by
`findSegmentControls`. -/
noncomputable def theta (pp : pathPartial) (i : ℕ) : ℝ :=
  if pp.IsCycle then thetaCycle pp i else thetaOpen pp i

/-- The loop body of `setControls` at index `i`. -/
noncomputable def setControlsStep (pp : pathPartial) (c : Controls) (i : ℕ) : Controls :=
  let phi := -pp.psi (i + 1) - theta pp (i + 1)
  let a := recip (pp.PostTension i)
  let b := recip (pp.PreTension (i + 1))
  let dvec := pp.delta i
  let p23 := controlPoints i phi (theta pp i) a b dvec
  let c1 := c.SetPostControl (i % pp.N) (pp.Z i + p23.1)
  c1.SetPreControl ((i + 1) % pp.N) (pp.Z (i + 1) - p23.2)

/-- Model of `setControls`: for each `i < n` write the post control of
knot `i % n` and the pre control of knot `(i+1) % n` from the chord data. -/
noncomputable def setControls (pp : pathPartial) (c : Controls) : Controls :=
  (List.range pp.N).foldl (setControlsStep pp) c

/-- Model of `findSegmentControls` (the `u`/`v`/`theta` arrays are the
recursions above). -/
noncomputable def findSegmentControls (pp : pathPartial) (c : Controls) : Controls :=
  setControls pp c

/-- The per-segment loop of `FindHobbyControls`: validate each segment and
solve it; a validation error aborts, keeping the writes of the earlier
segments. -/
noncomputable def segLoop : List pathPartial → Controls → Controls × Option Err
  | [], c => (c, none)
  | seg :: rest, c =>
    match validateSegment seg with
    | some e => (c, some e)
    | none => segLoop rest (findSegmentControls seg c)

/-- Model of `FindHobbyControls`: validate, split into segments, solve each
segment into the supplied container (a fresh one if none is supplied).  The
returned container is the final state of the container written to. -/
noncomputable def FindHobbyControls (path : Option Path) (controls : Option Controls) :
    Controls × Option Err :=
  let c0 := controls.getD ⟨[], []⟩
  match ValidateForSolve path with
  | some e => (c0, some e)
  | none =>
    match path with
    | none => (c0, none)
    | some p =>
      segLoop ((splitSegments p).map (fun ft => pathPartial.mk p ft.1 ft.2)) c0


lemma length_extendC_opt {α : Type} (arr : List (Option α)) (i : ℕ) :
    i < (extendC arr i).length := by
  unfold extendC
  split
  · rw [List.length_append, List.length_replicate]
    omega
  · omega

lemma getD_extendC {α : Type} (arr : List (Option α)) (i j : ℕ) :
    (extendC arr i).getD j none = arr.getD j none := by
  unfold extendC
  split
  · rw [List.getD_eq_getElem?_getD, List.getD_eq_getElem?_getD]
    by_cases hj : j < arr.length
    · rw [List.getElem?_append_left hj]
    · rw [List.getElem?_append_right (by omega)]
      rw [List.getElem?_eq_none (le_of_not_lt hj)]
      by_cases hj2 : j - arr.length < i + 1 - arr.length
      · rw [List.getElem?_replicate, if_pos hj2]
        rfl
      · rw [List.getElem?_replicate, if_neg hj2]
  · rfl

lemma getD_set_extendC_self {α : Type} (arr : List (Option α)) (i : ℕ) (v : α) :
    ((extendC arr i).set i (some v)).getD i none = some v := by
  rw [List.getD_eq_getElem?_getD, List.getElem?_set_self (length_extendC_opt arr i)]
  rfl

lemma getD_set_extendC_ne {α : Type} (arr : List (Option α)) (i j : ℕ) (v : α)
    (h : j ≠ i) : ((extendC arr i).set i (some v)).getD j none = arr.getD j none := by
  rw [List.getD_eq_getElem?_getD, List.getElem?_set_ne (fun hc => h hc.symm)]
  rw [← List.getD_eq_getElem?_getD]
  exact getD_extendC arr i j

lemma PostControl_SetPost (c : Controls) (i j : ℕ) (v : ℝ × ℝ) :
    (c.SetPostControl i v).PostControl j =
      if j = i then some v else c.PostControl j := by
  unfold Controls.SetPostControl Controls.PostControl
  by_cases h : j = i
  · rw [if_pos h, h]
    exact getD_set_extendC_self c.postc i v
  · rw [if_neg h]
    exact getD_set_extendC_ne c.postc i j v h

lemma PreControl_SetPre (c : Controls) (i j : ℕ) (v : ℝ × ℝ) :
    (c.SetPreControl i v).PreControl j =
      if j = i then some v else c.PreControl j := by
  unfold Controls.SetPreControl Controls.PreControl
  by_cases h : j = i
  · rw [if_pos h, h]
    exact getD_set_extendC_self c.prec i v
  · rw [if_neg h]
    exact getD_set_extendC_ne c.prec i j v h

lemma PostControl_SetPre (c : Controls) (i j : ℕ) (v : ℝ × ℝ) :
    (c.SetPreControl i v).PostControl j = c.PostControl j := rfl

lemma PreControl_SetPost (c : Controls) (i j : ℕ) (v : ℝ × ℝ) :
    (c.SetPostControl i v).PreControl j = c.PreControl j := rfl

/-- The post control point written by `setControls` for chord `i`. -/
noncomputable def postVal (pp : pathPartial) (i : ℕ) : ℝ × ℝ :=
  pp.Z i + (controlPoints i (-pp.psi (i + 1) - theta pp (i + 1)) (theta pp i)
    (recip (pp.PostTension i)) (recip (pp.PreTension (i + 1))) (pp.delta i)).1

/-- The pre control point written by `setControls` for chord `i`. -/
noncomputable def preVal (pp : pathPartial) (i : ℕ) : ℝ × ℝ :=
  pp.Z (i + 1) - (controlPoints i (-pp.psi (i + 1) - theta pp (i + 1)) (theta pp i)
    (recip (pp.PostTension i)) (recip (pp.PreTension (i + 1))) (pp.delta i)).2

lemma setControlsStep_eq (pp : pathPartial) (c : Controls) (i : ℕ) :
    setControlsStep pp c i =
      (c.SetPostControl (i % pp.N) (postVal pp i)).SetPreControl
        ((i + 1) % pp.N) (preVal pp i) := rfl

lemma setControls_partial (pp : pathPartial) (c0 : Controls) (k : ℕ)
    (hk : k ≤ pp.N - 1) :
    (∀ j, ((List.range k).foldl (setControlsStep pp) c0).PostControl j =
       if j < k then some (postVal pp j) else c0.PostControl j) ∧
    (∀ j, ((List.range k).foldl (setControlsStep pp) c0).PreControl j =
       if 1 ≤ j ∧ j ≤ k then some (preVal pp (j - 1)) else c0.PreControl j) := by
  induction k with
  | zero =>
      constructor
      · intro j
        rw [if_neg (by omega)]
        rfl
      · intro j
        rw [if_neg (by omega)]
        rfl
  | succ k ih =>
      obtain ⟨ihpost, ihpre⟩ := ih (by omega)
      have hkN : k < pp.N := by omega
      have hk1N : k + 1 < pp.N ∨ pp.N = k + 1 := by omega
      have hmodk : k % pp.N = k := Nat.mod_eq_of_lt hkN
      have hmodk1 : (k + 1) % pp.N = k + 1 :=
        Nat.mod_eq_of_lt (by omega)
      rw [List.range_succ, List.foldl_append, List.foldl_cons, List.foldl_nil,
        setControlsStep_eq]
      constructor
      · intro j
        rw [PostControl_SetPre, PostControl_SetPost, hmodk, ihpost j]
        by_cases hj : j = k
        · rw [if_pos hj, if_pos (by omega), hj]
        · rw [if_neg hj]
          by_cases hj2 : j < k
          · rw [if_pos hj2, if_pos (by omega)]
          · rw [if_neg hj2, if_neg (by omega)]
      · intro j
        rw [PreControl_SetPre, PreControl_SetPost, hmodk1, ihpre j]
        by_cases hj : j = k + 1
        · rw [if_pos hj, if_pos (by omega), hj, Nat.add_sub_cancel]
        · rw [if_neg hj]
          by_cases hj2 : 1 ≤ j ∧ j ≤ k
          · rw [if_pos hj2, if_pos (by omega)]
          · rw [if_neg hj2, if_neg (by omega)]

/-- Lookup characterization of `setControls` on a segment of at least two
knots: post controls `0..n-1` hold the chord values; pre control `j` holds
the value of chord `j-1`, with the wrap-around write putting chord `n-1`
into pre control 0; all other entries are untouched. -/
lemma setControls_lookup (pp : pathPartial) (c0 : Controls) (hN : 2 ≤ pp.N) :
    (∀ j, (setControls pp c0).PostControl j =
        if j < pp.N then some (postVal pp j) else c0.PostControl j) ∧
    (∀ j, (setControls pp c0).PreControl j =
        if j = 0 then some (preVal pp (pp.N - 1))
        else if j ≤ pp.N - 1 then some (preVal pp (j - 1))
        else c0.PreControl j) := by
  obtain ⟨ihpost, ihpre⟩ := setControls_partial pp c0 (pp.N - 1) (le_refl _)
  have hsplit : pp.N = (pp.N - 1) + 1 := by omega
  have hmodl : (pp.N - 1) % pp.N = pp.N - 1 := Nat.mod_eq_of_lt (by omega)
  have hmod0 : ((pp.N - 1) + 1) % pp.N = 0 := by
    rw [← hsplit, Nat.mod_self]
  unfold setControls
  rw [hsplit, List.range_succ, List.foldl_append, List.foldl_cons, List.foldl_nil,
    setControlsStep_eq, hmodl, hmod0]
  simp only [Nat.add_sub_cancel]
  constructor
  · intro j
    rw [PostControl_SetPre, PostControl_SetPost, ihpost j]
    by_cases hj : j = pp.N - 1
    · rw [if_pos hj, if_pos (by omega), hj]
    · rw [if_neg hj]
      by_cases hj2 : j < pp.N - 1
      · rw [if_pos hj2, if_pos (by omega)]
      · rw [if_neg hj2, if_neg (by omega)]
  · intro j
    rw [PreControl_SetPre, PreControl_SetPost, ihpre j]
    by_cases hj : j = 0
    · rw [if_pos hj, if_pos hj]
    · rw [if_neg hj, if_neg hj]
      by_cases hj2 : j ≤ pp.N - 1
      · rw [if_pos (show 1 ≤ j ∧ j ≤ pp.N - 1 by omega), if_pos hj2]
      · rw [if_neg (show ¬ (1 ≤ j ∧ j ≤ pp.N - 1) by omega), if_neg hj2]


lemma reduceAngle_zero : reduceAngle 0 = 0 := by
  unfold reduceAngle
  rw [if_neg]
  rw [abs_zero]
  norm_num [Pi]

lemma splitFold_id (P : Path) (l : List ℕ) (st : List (ℕ × ℕ) × ℕ)
    (h : ∀ i ∈ l, ¬ isrough P i) : l.foldl (splitStep P) st = st := by
  induction l generalizing st with
  | nil => rfl
  | cons i rest ih =>
      rw [List.foldl_cons]
      unfold splitStep
      rw [if_neg (h i (List.mem_cons_self i rest))]
      exact ih st (fun j hj => h j (List.mem_cons_of_mem i hj))

/-- An open path without rough interior knots is split into the single
segment spanning the whole path. -/
lemma splitSegments_smooth_open (P : Path) (hopen : P.cycle = false)
    (hN : 2 ≤ P.N) (hsmooth : ∀ i, 1 ≤ i → i ≤ P.N - 1 → ¬ isrough P i) :
    splitSegments P = [(0, P.N - 1)] := by
  unfold splitSegments
  dsimp only
  rw [splitFold_id P _ _ (fun i hi => by
    rw [List.mem_range'_1] at hi
    exact hsmooth i hi.1 (by omega))]
  rw [hopen]
  rw [if_neg (by simp)]
  rw [if_pos (by omega : (([] : List (ℕ × ℕ)), 0).2 ≠ P.N - 1)]
  rfl

lemma wholeOpenSegment_N (P : Path) (hN : 1 ≤ P.N) :
    (pathPartial.mk P 0 (P.N - 1)).N = P.N := by
  unfold pathPartial.N
  dsimp only
  omega

lemma wholeOpenSegment_notCycle (P : Path) (hopen : P.cycle = false) :
    (pathPartial.mk P 0 (P.N - 1)).IsCycle = false := by
  unfold pathPartial.IsCycle
  dsimp only
  rw [hopen]
  rw [Bool.false_and]

lemma wholeOpenSegment_Z (P : Path) (hopen : P.cycle = false) (hN : 1 ≤ P.N)
    (j : ℕ) : (pathPartial.mk P 0 (P.N - 1)).Z j = P.Z (j % P.N) := by
  unfold pathPartial.Z
  rw [wholeOpenSegment_notCycle P hopen]
  simp only [Bool.false_eq_true, if_false]
  unfold pathPartial.pmap
  rw [wholeOpenSegment_N P hN]
  dsimp only
  rw [Nat.add_zero]

/-- The wrap-around chord of the whole-path open segment: `delta(N-1)`
reaches back to knot 0. -/
lemma wholeOpenSegment_delta_wrap (P : Path) (hopen : P.cycle = false)
    (hN : 2 ≤ P.N) :
    (pathPartial.mk P 0 (P.N - 1)).delta (P.N - 1) = P.Z 0 - P.Z (P.N - 1) := by
  unfold pathPartial.delta
  rw [wholeOpenSegment_Z P hopen (by omega), wholeOpenSegment_Z P hopen (by omega)]
  have h1 : (P.N - 1 + 1) % P.N = 0 := by
    have : P.N - 1 + 1 = P.N := by omega
    rw [this, Nat.mod_self]
  have h2 : (P.N - 1) % P.N = P.N - 1 := Nat.mod_eq_of_lt (by omega)
  rw [h1, h2]

lemma wholeOpenSegment_psiN (P : Path) (hopen : P.cycle = false)
    (hN : 2 ≤ P.N) : (pathPartial.mk P 0 (P.N - 1)).psi P.N = 0 := by
  unfold pathPartial.psi
  rw [wholeOpenSegment_notCycle P hopen]
  rw [if_neg (by
    rw [wholeOpenSegment_N P (by omega)]
    simp only [Bool.false_eq_true, false_or, not_and]
    intro h1
    omega)]
  exact reduceAngle_zero

lemma wholeOpenSegment_thetaN (P : Path) (hopen : P.cycle = false)
    (hN : 2 ≤ P.N) : theta (pathPartial.mk P 0 (P.N - 1)) P.N = 0 := by
  unfold theta
  rw [wholeOpenSegment_notCycle P hopen]
  simp only [Bool.false_eq_true, if_false]
  rw [thetaOpen]
  rw [dif_pos (by rw [wholeOpenSegment_N P (by omega)]; omega)]
  rw [if_neg (by rw [wholeOpenSegment_N P (by omega)]; omega)]

/-- After path validation the whole-path open segment passes segment
validation: its chords for `i < N-1` are exactly the validated chords. -/
lemma validateSegment_whole_open (P : Path) (hopen : P.cycle = false)
    (hN : 2 ≤ P.N) (hval : ValidateForSolve (some P) = none) :
    validateSegment (pathPartial.mk P 0 (P.N - 1)) = none := by
  have hdeg : ¬ ∃ i, i < P.N - 1 ∧
      dlen (P.points.getD ((i + 1) % P.N) (0, 0) - P.points.getD i (0, 0)) ≤ epsR := by
    unfold ValidateForSolve at hval
    dsimp only at hval
    rw [hopen] at hval
    simp only [Bool.false_eq_true, if_false] at hval
    rw [if_neg (by omega)] at hval
    unfold validDeg at hval
    intro hex
    rw [if_pos hex] at hval
    cases hval
  unfold validateSegment
  rw [if_neg (by rw [wholeOpenSegment_N P (by omega)]; omega)]
  dsimp only
  rw [wholeOpenSegment_notCycle P hopen]
  simp only [Bool.false_eq_true, if_false]
  rw [if_neg]
  intro hex
  apply hdeg
  obtain ⟨i, hi, hd⟩ := hex
  rw [wholeOpenSegment_N P (by omega)] at hi
  refine ⟨i, hi, ?_⟩
  have hdelta : (pathPartial.mk P 0 (P.N - 1)).delta i =
      P.points.getD ((i + 1) % P.N) (0, 0) - P.points.getD i (0, 0) := by
    unfold pathPartial.delta
    rw [wholeOpenSegment_Z P hopen (by omega), wholeOpenSegment_Z P hopen (by omega)]
    have h2 : i % P.N = i := Nat.mod_eq_of_lt (by omega)
    have h3 : (i + 1) % P.N = i + 1 := Nat.mod_eq_of_lt (by omega)
    unfold Path.Z
    rw [h2, h3, h2, h3]
  rw [hdelta] at hd
  exact hd


/-- On a validated smooth open path, `FindHobbyControls` resolves to
`setControls` on the single whole-path segment. -/
lemma FindHobbyControls_smooth_open (P : Path) (hopen : P.cycle = false)
    (hN : 2 ≤ P.N) (hval : ValidateForSolve (some P) = none)
    (hsmooth : ∀ i, 1 ≤ i → i ≤ P.N - 1 → ¬ isrough P i) :
    FindHobbyControls (some P) none =
      (setControls (pathPartial.mk P 0 (P.N - 1)) ⟨[], []⟩, none) := by
  unfold FindHobbyControls
  rw [hval]
  dsimp only
  rw [splitSegments_smooth_open P hopen hN hsmooth]
  rw [List.map_cons, List.map_nil]
  unfold segLoop
  rw [validateSegment_whole_open P hopen hN hval]
  rfl

/-- C10: on a validated open path of N ≥ 2 knots with no rough interior
knots, the single whole-path segment is solved and the reconstruction loop
of `setControls` runs over all chords i = 0..N-1: besides the N-1 real
joins it writes the wrap-around pair — the post control of knot N-1 and
the pre control of knot 0 — computed from the wrap chord
`delta(N-1) = z(0) - z(N-1)` with `psi(N) = 0` and `theta(N) = 0`; and
afterwards every pre and post control entry 0..N-1 is set. -/
theorem c10_open_wraparound (P : Path) (hopen : P.cycle = false)
    (hN : 2 ≤ P.N) (hval : ValidateForSolve (some P) = none)
    (hsmooth : ∀ i, 1 ≤ i → i ≤ P.N - 1 → ¬ isrough P i) :
    splitSegments P = [(0, P.N - 1)] ∧
    (FindHobbyControls (some P) none).2 = none ∧
    (pathPartial.mk P 0 (P.N - 1)).delta (P.N - 1) = P.Z 0 - P.Z (P.N - 1) ∧
    (pathPartial.mk P 0 (P.N - 1)).psi P.N = 0 ∧
    theta (pathPartial.mk P 0 (P.N - 1)) P.N = 0 ∧
    (∀ j, j < P.N →
       (FindHobbyControls (some P) none).1.PostControl j =
         some (postVal (pathPartial.mk P 0 (P.N - 1)) j)) ∧
    (∀ j, 1 ≤ j → j < P.N →
       (FindHobbyControls (some P) none).1.PreControl j =
         some (preVal (pathPartial.mk P 0 (P.N - 1)) (j - 1))) ∧
    (FindHobbyControls (some P) none).1.PreControl 0 =
       some (preVal (pathPartial.mk P 0 (P.N - 1)) (P.N - 1)) := by
  have hfind := FindHobbyControls_smooth_open P hopen hN hval hsmooth
  have hppN : (pathPartial.mk P 0 (P.N - 1)).N = P.N := wholeOpenSegment_N P (by omega)
  obtain ⟨hpost, hpre⟩ :=
    setControls_lookup (pathPartial.mk P 0 (P.N - 1)) ⟨[], []⟩ (by rw [hppN]; exact hN)
  exact ⟨splitSegments_smooth_open P hopen hN hsmooth, by rw [hfind],
    wholeOpenSegment_delta_wrap P hopen hN,
    wholeOpenSegment_psiN P hopen hN,
    wholeOpenSegment_thetaN P hopen hN,
    fun j hj => by rw [hfind]; rw [hpost j, if_pos (by rw [hppN]; exact hj)],
    fun j h1 hj => by
      rw [hfind]
      rw [hpre j, if_neg (by omega), if_pos (by rw [hppN]; omega)],
    by rw [hfind]; rw [hpre 0, if_pos rfl, hppN]⟩


/-- The open two-knot path (0,0) -- (1,0) with all defaults. -/
def P2 : Path := ⟨[(0, 0), (1, 0)], false, [], [], [], []⟩

lemma P2_valid : ValidateForSolve (some P2) = none := by
  unfold ValidateForSolve
  dsimp only
  rw [if_neg (by norm_num [P2]), if_neg (by norm_num [P2, Path.N])]
  unfold validDeg
  rw [if_neg]
  rintro ⟨i, hi, hd⟩
  have hi0 : i = 0 := by
    have : P2.N - 1 = 1 := by norm_num [P2, Path.N]
    omega
  subst hi0
  have hpt : P2.points.getD ((0 + 1) % P2.N) (0, 0) - P2.points.getD 0 (0, 0)
      = ((1 : ℝ), (0 : ℝ)) := by
    norm_num [P2, Path.N]
  rw [hpt] at hd
  have h1 : dlen ((1 : ℝ), (0 : ℝ)) = 1 := by
    unfold dlen
    norm_num
  rw [h1] at hd
  norm_num [epsR] at hd

lemma P2_smooth : ∀ i, 1 ≤ i → i ≤ P2.N - 1 → ¬ isrough P2 i := by
  intro i h1 h2
  have hi1 : i = 1 := by
    have : P2.N - 1 = 1 := by norm_num [P2, Path.N]
    omega
  subst hi1
  unfold isrough Path.PreCurl Path.PostCurl Path.PreDir Path.PostDir
  rintro ((h | h) | h)
  · exact h (by norm_num [P2])
  · exact h (by norm_num [P2])
  · exact h

/-- C10 witness: the theorem at the concrete two-knot open path `P2`. -/
theorem c10_witness :
    splitSegments P2 = [(0, 1)] ∧
    (FindHobbyControls (some P2) none).2 = none ∧
    (FindHobbyControls (some P2) none).1.PreControl 0 =
      some (preVal (pathPartial.mk P2 0 1) 1) := by
  have h := c10_open_wraparound P2 rfl (by norm_num [P2, Path.N]) P2_valid P2_smooth
  exact ⟨h.1, h.2.1, h.2.2.2.2.2.2.2⟩


/-- Invariant of the breakpoint scan: the running segment start never
exceeds the last processed index, and every emitted range is strictly
increasing and bounded by it. -/
lemma splitFold_bound (P : Path) (m : ℕ) :
    ((List.range' 1 m).foldl (splitStep P) ([], 0)).2 ≤ m ∧
    ∀ ft ∈ ((List.range' 1 m).foldl (splitStep P) ([], 0)).1,
      ft.1 < ft.2 ∧ ft.2 ≤ m := by
  induction m with
  | zero =>
      refine ⟨le_refl 0, ?_⟩
      intro ft hft
      cases hft
  | succ m ih =>
      rw [List.range'_1_concat, List.foldl_append, List.foldl_cons, List.foldl_nil]
      by_cases h : isrough P (1 + m)
      · rw [show splitStep P ((List.range' 1 m).foldl (splitStep P) ([], 0)) (1 + m)
            = (((List.range' 1 m).foldl (splitStep P) ([], 0)).1
                ++ [(((List.range' 1 m).foldl (splitStep P) ([], 0)).2, 1 + m)], 1 + m)
          from by unfold splitStep; rw [if_pos h]]
        refine ⟨by omega, ?_⟩
        intro ft hft
        rcases List.mem_append.mp hft with hft | hft
        · have hb := ih.2 ft hft
          exact ⟨hb.1, by omega⟩
        · have hone : ft = (((List.range' 1 m).foldl (splitStep P) ([], 0)).2, 1 + m) := by
            rcases List.mem_cons.mp hft with hft | hft
            · exact hft
            · cases hft
          rw [hone]
          have := ih.1
          exact ⟨by omega, by omega⟩
      · rw [show splitStep P ((List.range' 1 m).foldl (splitStep P) ([], 0)) (1 + m)
            = (List.range' 1 m).foldl (splitStep P) ([], 0)
          from by unfold splitStep; rw [if_neg h]]
        refine ⟨by omega, ?_⟩
        intro ft hft
        have hb := ih.2 ft hft
        exact ⟨hb.1, by omega⟩

/-- Bounds on the ranges emitted by `splitSegments`: every range is
strictly increasing, bounded by N for a cycle and by N-1 for an open
path. -/
lemma splitSegments_mem_bound (P : Path) (hN2 : 2 ≤ P.N)
    (ft : ℕ × ℕ) (hft : ft ∈ splitSegments P) :
    ft.1 < ft.2 ∧ ft.2 ≤ P.N ∧ (P.cycle = false → ft.2 ≤ P.N - 1) := by
  have hfold := splitFold_bound P (P.N - 1)
  unfold splitSegments at hft
  dsimp only at hft
  by_cases hc : P.cycle = true
  · rw [if_pos hc] at hft
    split at hft
    · have hone : ft = (0, P.N - 1) := by
        rcases List.mem_cons.mp hft with hft | hft
        · exact hft
        · cases hft
      rw [hone]
      exact ⟨by omega, by omega,
        fun hopen => absurd hc (by rw [hopen]; exact Bool.false_ne_true)⟩
    · rcases List.mem_append.mp hft with hft | hft
      · have hb := hfold.2 ft hft
        exact ⟨hb.1, by omega,
          fun hopen => absurd hc (by rw [hopen]; exact Bool.false_ne_true)⟩
      · have hone : ft = (((List.range' 1 (P.N - 1)).foldl (splitStep P) ([], 0)).2, P.N) := by
          rcases List.mem_cons.mp hft with hft | hft
          · exact hft
          · cases hft
        rw [hone]
        have := hfold.1
        exact ⟨by omega, by omega,
          fun hopen => absurd hc (by rw [hopen]; exact Bool.false_ne_true)⟩
  · rw [if_neg hc] at hft
    split at hft
    · rcases List.mem_append.mp hft with hft | hft
      · have hb := hfold.2 ft hft
        exact ⟨hb.1, by omega, fun _ => by omega⟩
      · have hne : ((List.range' 1 (P.N - 1)).foldl (splitStep P) ([], 0)).2 ≠ P.N - 1 := by
          assumption
        have hone : ft = (((List.range' 1 (P.N - 1)).foldl (splitStep P) ([], 0)).2, P.N - 1) := by
          rcases List.mem_cons.mp hft with hft | hft
          · exact hft
          · cases hft
        rw [hone]
        have := hfold.1
        exact ⟨by omega, by omega, fun _ => by omega⟩
    · have hb := hfold.2 ft hft
      exact ⟨hb.1, by omega, fun _ => by omega⟩


/-- The degenerate-chord guarantee extracted from a successful
`ValidateForSolve`. -/
lemma valid_chords (P : Path) (hval : ValidateForSolve (some P) = none) :
    ∀ i, i < (if P.cycle = true then P.N else P.N - 1) →
      ¬ dlen (P.points.getD ((i + 1) % P.N) (0, 0) - P.points.getD i (0, 0)) ≤ epsR := by
  unfold ValidateForSolve at hval
  dsimp only at hval
  by_cases hc : P.cycle = true
  · rw [if_pos hc] at hval ⊢
    rw [if_neg (by intro h; rw [if_pos h] at hval; cases hval)] at hval
    rw [if_neg (by intro h; rw [if_pos h] at hval; cases hval)] at hval
    unfold validDeg at hval
    intro i hi hd
    rw [if_pos ⟨i, hi, hd⟩] at hval
    cases hval
  · rw [if_neg hc] at hval ⊢
    rw [if_neg (by intro h; rw [if_pos h] at hval; cases hval)] at hval
    unfold validDeg at hval
    intro i hi hd
    rw [if_pos ⟨i, hi, hd⟩] at hval
    cases hval

/-- After a successful path validation, every segment produced by
`splitSegments` passes `validateSegment`: its chords are chords of the
validated path. -/
lemma validateSegment_of_valid (P : Path) (hN2 : 2 ≤ P.N)
    (hval : ValidateForSolve (some P) = none)
    (f t : ℕ) (hft : (f, t) ∈ splitSegments P) :
    validateSegment (pathPartial.mk P f t) = none := by
  obtain ⟨hlt, htN, hob⟩ := splitSegments_mem_bound P hN2 (f, t) hft
  dsimp only at hlt htN hob
  have hdeg := valid_chords P hval
  have hsegN : (pathPartial.mk P f t).N = t - f + 1 := rfl
  unfold validateSegment
  rw [if_neg (by omega)]
  dsimp only
  rw [if_neg]
  rintro ⟨i, hi, hd⟩
  by_cases hcy : (pathPartial.mk P f t).IsCycle = true
  · rw [if_pos hcy] at hi
    have hcyc : P.cycle = true ∧ P.N = (pathPartial.mk P f t).N := by
      unfold pathPartial.IsCycle at hcy
      dsimp only at hcy
      rw [Bool.and_eq_true, beq_iff_eq] at hcy
      exact hcy
    have hiN : i < P.N := by
      rw [hcyc.2]
      exact hi
    have hdelta : (pathPartial.mk P f t).delta i =
        P.points.getD ((i + 1) % P.N) (0, 0) - P.points.getD i (0, 0) := by
      unfold pathPartial.delta pathPartial.Z
      rw [if_pos hcy, if_pos hcy]
      unfold Path.Z
      rw [Nat.mod_eq_of_lt hiN]
    rw [hdelta] at hd
    exact hdeg i (by rw [if_pos hcyc.1]; exact hiN) hd
  · have hcyF : (pathPartial.mk P f t).IsCycle = false := by
      cases hb : (pathPartial.mk P f t).IsCycle
      · rfl
      · exact absurd hb hcy
    rw [if_neg hcy] at hi
    rw [hsegN] at hi
    have hif : i + f < t := by omega
    have hdelta : (pathPartial.mk P f t).delta i =
        P.points.getD ((i + f + 1) % P.N) (0, 0) - P.points.getD (i + f) (0, 0) := by
      unfold pathPartial.delta pathPartial.Z
      rw [hcyF]
      simp only [Bool.false_eq_true, if_false]
      unfold pathPartial.pmap Path.Z
      have h1 : (i + 1) % (pathPartial.mk P f t).N = i + 1 := by
        rw [hsegN]
        exact Nat.mod_eq_of_lt (by omega)
      have h2 : i % (pathPartial.mk P f t).N = i := by
        rw [hsegN]
        exact Nat.mod_eq_of_lt (by omega)
      rw [h1, h2]
      have h3 : (i + f) % P.N = i + f := Nat.mod_eq_of_lt (by omega)
      have h4 : i + 1 + f = i + f + 1 := by omega
      rw [h4, h3]
    rw [hdelta] at hd
    refine hdeg (i + f) ?_ hd
    by_cases hpc : P.cycle = true
    · rw [if_pos hpc]
      omega
    · rw [if_neg hpc]
      have hpo : P.cycle = false := by
        cases hb : P.cycle
        · rfl
        · exact absurd hb hpc
      have := hob hpo
      omega


lemma segLoop_no_error (segs : List pathPartial) (c : Controls)
    (h : ∀ seg ∈ segs, validateSegment seg = none) : (segLoop segs c).2 = none := by
  induction segs generalizing c with
  | nil => rfl
  | cons seg rest ih =>
      unfold segLoop
      rw [h seg (List.mem_cons_self seg rest)]
      exact ih (findSegmentControls seg c) (fun s hs => h s (List.mem_cons_of_mem seg hs))

lemma valid_N (P : Path) (hval : ValidateForSolve (some P) = none) : 2 ≤ P.N := by
  unfold ValidateForSolve at hval
  dsimp only at hval
  by_cases hc : P.cycle = true
  · rw [if_pos hc] at hval
    by_contra h
    rw [if_pos (by omega)] at hval
    cases hval
  · rw [if_neg hc] at hval
    by_contra h
    rw [if_pos (by omega)] at hval
    cases hval

/-- C4: whenever `FindHobbyControls` returns a non-nil error, the supplied
controls container is exactly as before the call.  The only error exit is
the initial path validation, which precedes every segment write; after a
successful path validation no per-segment validation can fail (every
segment chord is a validated path chord), so the loop never aborts after
an earlier segment of the same call was processed. -/
theorem c4_error_controls_untouched (path : Option Path) (controls : Option Controls)
    (e : Err) (herr : (FindHobbyControls path controls).2 = some e) :
    (FindHobbyControls path controls).1 = controls.getD ⟨[], []⟩ := by
  unfold FindHobbyControls at herr ⊢
  cases hv : ValidateForSolve path with
  | some e2 => rfl
  | none =>
      exfalso
      rw [hv] at herr
      dsimp only at herr
      cases path with
      | none =>
          unfold ValidateForSolve at hv
          cases hv
      | some p =>
          have hN2 : 2 ≤ p.N := valid_N p hv
          have hall : ∀ seg ∈ (splitSegments p).map (fun ft => pathPartial.mk p ft.1 ft.2),
              validateSegment seg = none := by
            intro seg hseg
            rcases List.mem_map.mp hseg with ⟨ft, hft, rfl⟩
            exact validateSegment_of_valid p hN2 hv ft.1 ft.2 (by rw [Prod.mk.eta]; exact hft)
          rw [segLoop_no_error _ _ hall] at herr
          cases herr

/-- C4 witness: the theorem at the nil path, whose validation error leaves
the (freshly allocated) container empty and untouched. -/
theorem c4_witness :
    (FindHobbyControls none none).2 = some Err.nilPath ∧
    (FindHobbyControls none none).1 = (none : Option Controls).getD ⟨[], []⟩ :=
  ⟨rfl, c4_error_controls_untouched none none Err.nilPath rfl⟩


/-- The cyclic four-knot path (1,1) -- (2,2) -- (3,1) -- (2,0) -- cycle,
with no explicit directions, curls or tensions. -/
def circ : Path := ⟨[(1, 1), (2, 2), (3, 1), (2, 0)], true, [], [], [], []⟩

/-- Its single whole-cycle segment. -/
def circSeg : pathPartial := ⟨circ, 0, 3⟩

lemma circ_N : circ.N = 4 := rfl

lemma sqrt_two_gt_eps : epsR < Real.sqrt 2 := by
  have h1 : (1 : ℝ) ≤ Real.sqrt 2 := by
    nlinarith [Real.sq_sqrt (by norm_num : (0:ℝ) ≤ 2), Real.sqrt_nonneg 2]
  unfold epsR
  linarith

lemma dlen_pm_one (x y : ℝ) (hx : x ^ 2 = 1) (hy : y ^ 2 = 1) :
    dlen (x, y) = Real.sqrt 2 := by
  unfold dlen
  dsimp only
  rw [hx, hy]
  norm_num

lemma circ_valid : ValidateForSolve (some circ) = none := by
  unfold ValidateForSolve
  dsimp only
  rw [if_pos (show circ.cycle = true from rfl)]
  rw [if_neg (by norm_num [circ_N])]
  rw [if_neg (by
    have hpt : circ.points.getD 0 (0, 0) - circ.points.getD (circ.N - 1) (0, 0)
        = ((-1 : ℝ), (1 : ℝ)) := by
      norm_num [circ, Path.N, Prod.ext_iff, Prod.fst_sub, Prod.snd_sub]
    rw [hpt, dlen_pm_one _ _ (by norm_num) (by norm_num)]
    exact not_le.mpr sqrt_two_gt_eps)]
  unfold validDeg
  rw [if_neg]
  rintro ⟨i, hi, hd⟩
  rw [circ_N] at hi
  interval_cases i
  · rw [show circ.points.getD ((0 + 1) % circ.N) (0, 0) - circ.points.getD 0 (0, 0)
        = ((1 : ℝ), (1 : ℝ)) from by norm_num [circ, Path.N, Prod.ext_iff, Prod.fst_sub, Prod.snd_sub]] at hd
    rw [dlen_pm_one _ _ (by norm_num) (by norm_num)] at hd
    exact absurd hd (not_le.mpr sqrt_two_gt_eps)
  · rw [show circ.points.getD ((1 + 1) % circ.N) (0, 0) - circ.points.getD 1 (0, 0)
        = ((1 : ℝ), (-1 : ℝ)) from by norm_num [circ, Path.N, Prod.ext_iff, Prod.fst_sub, Prod.snd_sub]] at hd
    rw [dlen_pm_one _ _ (by norm_num) (by norm_num)] at hd
    exact absurd hd (not_le.mpr sqrt_two_gt_eps)
  · rw [show circ.points.getD ((2 + 1) % circ.N) (0, 0) - circ.points.getD 2 (0, 0)
        = ((-1 : ℝ), (-1 : ℝ)) from by norm_num [circ, Path.N, Prod.ext_iff, Prod.fst_sub, Prod.snd_sub]] at hd
    rw [dlen_pm_one _ _ (by norm_num) (by norm_num)] at hd
    exact absurd hd (not_le.mpr sqrt_two_gt_eps)
  · rw [show circ.points.getD ((3 + 1) % circ.N) (0, 0) - circ.points.getD 3 (0, 0)
        = ((-1 : ℝ), (1 : ℝ)) from by norm_num [circ, Path.N, Prod.ext_iff, Prod.fst_sub, Prod.snd_sub]] at hd
    rw [dlen_pm_one _ _ (by norm_num) (by norm_num)] at hd
    exact absurd hd (not_le.mpr sqrt_two_gt_eps)

lemma circ_smooth (i : ℕ) : ¬ isrough circ i := by
  unfold isrough Path.PreCurl Path.PostCurl Path.PreDir Path.PostDir
  rintro ((h | h) | h)
  · exact h (by norm_num [circ])
  · exact h (by norm_num [circ])
  · revert h
    show ¬ _
    norm_num [circ]

lemma circ_split : splitSegments circ = [(0, 3)] := by
  unfold splitSegments
  dsimp only
  rw [splitFold_id circ _ _ (fun i hi => circ_smooth i)]
  rfl

lemma circ_valseg : validateSegment circSeg = none :=
  validateSegment_of_valid circ (by norm_num [circ_N]) circ_valid 0 3
    (by rw [circ_split]; exact List.mem_singleton.mpr rfl)

lemma circ_find : FindHobbyControls (some circ) none
    = (setControls circSeg ⟨[], []⟩, none) := by
  unfold FindHobbyControls
  rw [circ_valid]
  dsimp only
  rw [circ_split, List.map_cons, List.map_nil]
  unfold segLoop
  rw [show pathPartial.mk circ (0, 3).1 (0, 3).2 = circSeg from rfl]
  rw [circ_valseg]
  rfl


lemma circSeg_N : circSeg.N = 4 := rfl

lemma circSeg_cyc : circSeg.IsCycle = true := rfl

lemma circSeg_Z (j : ℕ) : circSeg.Z j = circ.points.getD (j % 4) (0, 0) := rfl

lemma circSeg_delta0 : circSeg.delta 0 = ((1 : ℝ), (1 : ℝ)) := by
  unfold pathPartial.delta
  rw [circSeg_Z, circSeg_Z]
  norm_num [circ, Prod.ext_iff, Prod.fst_sub, Prod.snd_sub]

lemma circSeg_delta1 : circSeg.delta 1 = ((1 : ℝ), (-1 : ℝ)) := by
  unfold pathPartial.delta
  rw [circSeg_Z, circSeg_Z]
  norm_num [circ, Prod.ext_iff, Prod.fst_sub, Prod.snd_sub]

lemma circSeg_delta2 : circSeg.delta 2 = ((-1 : ℝ), (-1 : ℝ)) := by
  unfold pathPartial.delta
  rw [circSeg_Z, circSeg_Z]
  norm_num [circ, Prod.ext_iff, Prod.fst_sub, Prod.snd_sub]

lemma circSeg_delta3 : circSeg.delta 3 = ((-1 : ℝ), (1 : ℝ)) := by
  unfold pathPartial.delta
  rw [circSeg_Z, circSeg_Z]
  norm_num [circ, Prod.ext_iff, Prod.fst_sub, Prod.snd_sub]

lemma circSeg_delta4 : circSeg.delta 4 = ((1 : ℝ), (1 : ℝ)) := by
  unfold pathPartial.delta
  rw [circSeg_Z, circSeg_Z]
  norm_num [circ, Prod.ext_iff, Prod.fst_sub, Prod.snd_sub]

lemma circSeg_delta5 : circSeg.delta 5 = ((1 : ℝ), (-1 : ℝ)) := by
  unfold pathPartial.delta
  rw [circSeg_Z, circSeg_Z]
  norm_num [circ, Prod.ext_iff, Prod.fst_sub, Prod.snd_sub]

lemma circSeg_d0 : circSeg.d 0 = Real.sqrt 2 := by
  unfold pathPartial.d
  rw [circSeg_delta0]
  exact dlen_pm_one _ _ (by norm_num) (by norm_num)

lemma circSeg_d1 : circSeg.d 1 = Real.sqrt 2 := by
  unfold pathPartial.d
  rw [circSeg_delta1]
  exact dlen_pm_one _ _ (by norm_num) (by norm_num)

lemma circSeg_d2 : circSeg.d 2 = Real.sqrt 2 := by
  unfold pathPartial.d
  rw [circSeg_delta2]
  exact dlen_pm_one _ _ (by norm_num) (by norm_num)

lemma circSeg_d3 : circSeg.d 3 = Real.sqrt 2 := by
  unfold pathPartial.d
  rw [circSeg_delta3]
  exact dlen_pm_one _ _ (by norm_num) (by norm_num)

lemma circSeg_d4 : circSeg.d 4 = Real.sqrt 2 := by
  unfold pathPartial.d
  rw [circSeg_delta4]
  exact dlen_pm_one _ _ (by norm_num) (by norm_num)

lemma phase_one_one : phase (1, 1) = Real.pi / 4 := by
  unfold phase atan2
  dsimp only
  rw [if_pos (by norm_num : (0:ℝ) < 1)]
  norm_num [Real.arctan_one]

lemma phase_one_negone : phase (1, -1) = -(Real.pi / 4) := by
  unfold phase atan2
  dsimp only
  rw [if_pos (by norm_num : (0:ℝ) < 1)]
  rw [show ((-1 : ℝ) / 1) = -1 by norm_num]
  rw [Real.arctan_neg, Real.arctan_one]

lemma phase_negone_negone : phase (-1, -1) = -(3 * Real.pi / 4) := by
  unfold phase atan2
  dsimp only
  rw [if_neg (by norm_num), if_pos (by norm_num : (-1:ℝ) < 0),
    if_neg (by norm_num : ¬ ((0:ℝ) ≤ -1))]
  rw [show ((-1 : ℝ) / (-1 : ℝ)) = 1 by norm_num]
  rw [Real.arctan_one]
  ring

lemma phase_negone_one : phase (-1, 1) = 3 * Real.pi / 4 := by
  unfold phase atan2
  dsimp only
  rw [if_neg (by norm_num), if_pos (by norm_num : (-1:ℝ) < 0),
    if_pos (by norm_num : (0:ℝ) ≤ 1)]
  rw [show ((1 : ℝ) / (-1 : ℝ)) = -1 by norm_num]
  rw [Real.arctan_neg, Real.arctan_one]
  ring

lemma circSeg_postT (i : ℕ) : circSeg.PostTension i = 1 := rfl

lemma circSeg_preT (i : ℕ) : circSeg.PreTension i = 1 := rfl

lemma recip_one : recip 1 = 1 := by
  unfold recip
  norm_num

lemma square_one : square 1 = 1 := by
  unfold square
  norm_num

lemma reduceAngle_small (a : ℝ) (h : |a| ≤ 2) : reduceAngle a = a := by
  unfold reduceAngle
  rw [if_neg]
  rw [not_lt]
  unfold Pi
  linarith

lemma reduceAngle_pos_big (a : ℝ) (h1 : Pi < a) : reduceAngle a = a - Pi2 := by
  have h2 : 0 < a := lt_trans (by norm_num [Pi]) h1
  unfold reduceAngle
  rw [if_pos (by rw [abs_of_pos h2]; exact h1), if_pos h2]

lemma abs_pi_div_two_le : |(-(Real.pi / 2))| ≤ 2 := by
  rw [abs_neg, abs_of_pos (by positivity)]
  linarith [Real.pi_le_four]

lemma circSeg_psi_guard (i : ℕ) :
    (circSeg.IsCycle = true ∨ (0 < i ∧ i < circSeg.N - 1)) := Or.inl circSeg_cyc

lemma circSeg_psi1 : circSeg.psi 1 = -(Real.pi / 2) := by
  unfold pathPartial.psi
  rw [if_pos (circSeg_psi_guard 1)]
  rw [show (1 : ℕ) - 1 = 0 from rfl]
  rw [circSeg_delta1, circSeg_delta0, phase_one_negone, phase_one_one]
  rw [show -(Real.pi / 4) - Real.pi / 4 = -(Real.pi / 2) by ring]
  exact reduceAngle_small _ abs_pi_div_two_le

lemma circSeg_psi2 : circSeg.psi 2 = -(Real.pi / 2) := by
  unfold pathPartial.psi
  rw [if_pos (circSeg_psi_guard 2)]
  rw [show (2 : ℕ) - 1 = 1 from rfl]
  rw [circSeg_delta2, circSeg_delta1, phase_negone_negone, phase_one_negone]
  rw [show -(3 * Real.pi / 4) - -(Real.pi / 4) = -(Real.pi / 2) by ring]
  exact reduceAngle_small _ abs_pi_div_two_le

lemma circSeg_psi3 : circSeg.psi 3 = -(Real.pi / 2) + (2 * Real.pi - Pi2) := by
  unfold pathPartial.psi
  rw [if_pos (circSeg_psi_guard 3)]
  rw [show (3 : ℕ) - 1 = 2 from rfl]
  rw [circSeg_delta3, circSeg_delta2, phase_negone_one, phase_negone_negone]
  rw [show 3 * Real.pi / 4 - -(3 * Real.pi / 4) = 3 * Real.pi / 2 by ring]
  rw [reduceAngle_pos_big _ (by
    unfold Pi
    nlinarith [Real.pi_gt_three])]
  ring

lemma circSeg_psi4 : circSeg.psi 4 = -(Real.pi / 2) := by
  unfold pathPartial.psi
  rw [if_pos (circSeg_psi_guard 4)]
  rw [show (4 : ℕ) - 1 = 3 from rfl]
  rw [circSeg_delta4, circSeg_delta3, phase_one_one, phase_negone_one]
  rw [show Real.pi / 4 - 3 * Real.pi / 4 = -(Real.pi / 2) by ring]
  exact reduceAngle_small _ abs_pi_div_two_le

lemma circSeg_psi5 : circSeg.psi 5 = -(Real.pi / 2) := by
  unfold pathPartial.psi
  rw [if_pos (circSeg_psi_guard 5)]
  rw [show (5 : ℕ) - 1 = 4 from rfl]
  rw [circSeg_delta5, circSeg_delta4, phase_one_negone, phase_one_one]
  rw [show -(Real.pi / 4) - Real.pi / 4 = -(Real.pi / 2) by ring]
  exact reduceAngle_small _ abs_pi_div_two_le


/-- The defect of the program's truncated 2π constant: `2π - pi2`
(about 7.18e-9). -/
noncomputable def dl : ℝ := 2 * Real.pi - Pi2

lemma dl_pos : 0 < dl := by
  unfold dl Pi2
  linarith [Real.pi_gt_d20]

lemma dl_lt : dl < 0.00000001 := by
  unfold dl Pi2
  linarith [Real.pi_lt_d20]

lemma circSeg_psi3d : circSeg.psi 3 = -(Real.pi / 2) + dl := circSeg_psi3

lemma circSeg_uvw0 : uvw circSeg 0 = (0, 0, 1) := by
  show (if circSeg.IsCycle then startCycleUVW else startOpenUVW circSeg) = _
  rw [circSeg_cyc]
  rfl

lemma sqrt_two_pos : (0 : ℝ) < Real.sqrt 2 := Real.sqrt_pos.mpr (by norm_num)

lemma circSeg_uvw1 : uvw circSeg 1 = (1/4, 3 * Real.pi / 8, -(1/4)) := by
  show buildStep circSeg 1 (uvw circSeg 0) = _
  rw [circSeg_uvw0]
  unfold buildStep
  dsimp only
  rw [show (1:ℕ) - 1 = 0 from rfl, show (1:ℕ) + 1 = 2 from rfl]
  rw [circSeg_postT, circSeg_postT, circSeg_preT, circSeg_preT, recip_one, square_one]
  rw [circSeg_d0, circSeg_d1, circSeg_psi1, circSeg_psi2]
  simp only [Prod.ext_iff]
  refine ⟨?_, ?_, ?_⟩ <;>
    · field_simp [ne_of_gt sqrt_two_pos]
      try ring_nf
      try norm_num
      try rw [mul_right_comm, mul_inv_cancel₀ (pow_ne_zero 5 (ne_of_gt sqrt_two_pos)),
        one_mul]

lemma circSeg_uvw2 : uvw circSeg 2 = (4/15, 3 * Real.pi / 10 - 4 * dl / 15, 1/15) := by
  show buildStep circSeg 2 (uvw circSeg 1) = _
  rw [circSeg_uvw1]
  unfold buildStep
  dsimp only
  rw [show (2:ℕ) - 1 = 1 from rfl, show (2:ℕ) + 1 = 3 from rfl]
  rw [circSeg_postT, circSeg_postT, circSeg_preT, circSeg_preT, recip_one, square_one]
  rw [circSeg_d1, circSeg_d2, circSeg_psi2, circSeg_psi3d]
  simp only [Prod.ext_iff]
  refine ⟨?_, ?_, ?_⟩ <;>
    · field_simp [ne_of_gt sqrt_two_pos]
      try ring_nf
      try norm_num
      try rw [mul_right_comm, mul_inv_cancel₀ (pow_ne_zero 5 (ne_of_gt sqrt_two_pos)),
        one_mul]

lemma circSeg_uvw3 : uvw circSeg 3 = (15/56, 9 * Real.pi / 28 - 13 * dl / 28, -(1/56)) := by
  show buildStep circSeg 3 (uvw circSeg 2) = _
  rw [circSeg_uvw2]
  unfold buildStep
  dsimp only
  rw [show (3:ℕ) - 1 = 2 from rfl, show (3:ℕ) + 1 = 4 from rfl]
  rw [circSeg_postT, circSeg_postT, circSeg_preT, circSeg_preT, recip_one, square_one]
  rw [circSeg_d2, circSeg_d3, circSeg_psi3d, circSeg_psi4]
  simp only [Prod.ext_iff]
  refine ⟨?_, ?_, ?_⟩ <;>
    · field_simp [ne_of_gt sqrt_two_pos]
      try ring_nf
      try norm_num
      try rw [mul_right_comm, mul_inv_cancel₀ (pow_ne_zero 5 (ne_of_gt sqrt_two_pos)),
        one_mul]

lemma circSeg_uvw4 : uvw circSeg 4
    = (56/209, 66 * Real.pi / 209 + 26 * dl / 209, 1/209) := by
  show buildStep circSeg 4 (uvw circSeg 3) = _
  rw [circSeg_uvw3]
  unfold buildStep
  dsimp only
  rw [show (4:ℕ) - 1 = 3 from rfl, show (4:ℕ) + 1 = 5 from rfl]
  rw [circSeg_postT, circSeg_postT, circSeg_preT, circSeg_preT, recip_one, square_one]
  rw [circSeg_d3, circSeg_d4, circSeg_psi4, circSeg_psi5]
  simp only [Prod.ext_iff]
  refine ⟨?_, ?_, ?_⟩ <;>
    · field_simp [ne_of_gt sqrt_two_pos]
      try ring_nf
      try norm_num
      try rw [mul_right_comm, mul_inv_cancel₀ (pow_ne_zero 5 (ne_of_gt sqrt_two_pos)),
        one_mul]


lemma circSeg_endAB : endCycleAB circSeg
    = (66 * Real.pi / 209 + 7 * dl / 209, -(55/209)) := by
  unfold endCycleAB
  rw [circSeg_N]
  rw [show List.range 4 = [0, 1, 2, 3] from rfl]
  rw [List.foldl_cons, List.foldl_cons, List.foldl_cons, List.foldl_cons,
    List.foldl_nil]
  dsimp only
  rw [show (4:ℕ) - 0 = 4 from rfl, show (4:ℕ) - 1 = 3 from rfl,
    show (4:ℕ) - 2 = 2 from rfl, show (4:ℕ) - 3 = 1 from rfl]
  rw [circSeg_uvw4, circSeg_uvw3, circSeg_uvw2, circSeg_uvw1]
  dsimp only
  simp only [Prod.ext_iff]
  constructor
  · ring
  · ring

lemma circSeg_t0 : t0 circSeg = Real.pi / 4 + (2521 / 20196) * dl := by
  unfold t0
  dsimp only
  rw [circSeg_N, circSeg_endAB, circSeg_uvw4]
  dsimp only
  rw [div_eq_iff (by norm_num)]
  ring

lemma circSeg_theta0 : thetaCycle circSeg 0 = t0 circSeg := by
  rw [thetaCycle]
  rw [dif_pos (Or.inl rfl), if_pos (Or.inl rfl)]

lemma circSeg_theta4 : thetaCycle circSeg 4 = t0 circSeg := by
  rw [thetaCycle]
  rw [dif_pos (Or.inr (le_of_eq circSeg_N)), if_pos (Or.inr circSeg_N.symm)]

lemma circSeg_theta3 : thetaCycle circSeg 3
    = Real.pi / 4 - (70679 / 141372) * dl := by
  rw [thetaCycle]
  rw [dif_neg (by rw [circSeg_N]; omega)]
  rw [show (3:ℕ) + 1 = 4 from rfl, circSeg_theta4, circSeg_uvw3, circSeg_t0]
  dsimp only
  ring

lemma circSeg_theta2 : thetaCycle circSeg 2
    = Real.pi / 4 - (2525 / 20196) * dl := by
  rw [thetaCycle]
  rw [dif_neg (by rw [circSeg_N]; omega)]
  rw [show (2:ℕ) + 1 = 3 from rfl, circSeg_theta3, circSeg_uvw2, circSeg_t0]
  dsimp only
  ring

lemma circSeg_theta1 : thetaCycle circSeg 1
    = Real.pi / 4 + (1 / 20196) * dl := by
  rw [thetaCycle]
  rw [dif_neg (by rw [circSeg_N]; omega)]
  rw [show (1:ℕ) + 1 = 2 from rfl, circSeg_theta2, circSeg_uvw1, circSeg_t0]
  dsimp only
  ring

lemma circSeg_theta (i : ℕ) : theta circSeg i = thetaCycle circSeg i := by
  unfold theta
  rw [circSeg_cyc]
  rw [if_pos rfl]


lemma sin_close (a b : ℝ) : |Real.sin a - Real.sin b| ≤ |a - b| := by
  rw [Real.sin_sub_sin, abs_mul, abs_mul]
  have h1 : |Real.sin ((a - b) / 2)| ≤ |a - b| / 2 := by
    have h := @Real.abs_sin_le_abs ((a - b) / 2)
    rwa [abs_div, abs_two] at h
  have h2 : |Real.cos ((a + b) / 2)| ≤ 1 := Real.abs_cos_le_one _
  have h4 : |Real.sin ((a - b) / 2)| * |Real.cos ((a + b) / 2)|
      ≤ |Real.sin ((a - b) / 2)| * 1 :=
    mul_le_mul_of_nonneg_left h2 (abs_nonneg _)
  have h3 : |(2:ℝ)| = 2 := by norm_num
  rw [h3]
  linarith

lemma cos_close (a b : ℝ) : |Real.cos a - Real.cos b| ≤ |a - b| := by
  rw [Real.cos_sub_cos, abs_mul, abs_mul]
  have h1 : |Real.sin ((a - b) / 2)| ≤ |a - b| / 2 := by
    have h := @Real.abs_sin_le_abs ((a - b) / 2)
    rwa [abs_div, abs_two] at h
  have h2 : |Real.sin ((a + b) / 2)| ≤ 1 := Real.abs_sin_le_one _
  have h4 : |Real.sin ((a + b) / 2)| * |Real.sin ((a - b) / 2)|
      ≤ 1 * |Real.sin ((a - b) / 2)| :=
    mul_le_mul_of_nonneg_right h2 (abs_nonneg _)
  rw [show |(-2 : ℝ)| = 2 from by norm_num]
  linarith

lemma sqrt2_lb : (1.41421356 : ℝ) < Real.sqrt 2 := by
  nlinarith [Real.sq_sqrt (show (0:ℝ) ≤ 2 by norm_num), Real.sqrt_nonneg 2]

lemma sqrt2_ub : Real.sqrt 2 < 1.41421357 := by
  nlinarith [Real.sq_sqrt (show (0:ℝ) ≤ 2 by norm_num), Real.sqrt_nonneg 2]

/-- Any angle within 1e-8 of π/4 has its sine and cosine within the band
[0.70710677, 0.70710680]. -/
lemma trig_band (x : ℝ) (hx : |x - Real.pi / 4| ≤ 0.00000001) :
    (0.70710677 ≤ Real.sin x ∧ Real.sin x ≤ 0.70710680) ∧
    (0.70710677 ≤ Real.cos x ∧ Real.cos x ≤ 0.70710680) := by
  have hs := (sin_close x (Real.pi / 4)).trans hx
  rw [Real.sin_pi_div_four] at hs
  have hc := (cos_close x (Real.pi / 4)).trans hx
  rw [Real.cos_pi_div_four] at hc
  have h2l := sqrt2_lb
  have h2u := sqrt2_ub
  have hs2 := abs_le.mp hs
  have hc2 := abs_le.mp hc
  exact ⟨⟨by linarith [hs2.1], by linarith [hs2.2]⟩,
         ⟨by linarith [hc2.1], by linarith [hc2.2]⟩⟩

set_option maxHeartbeats 1600000 in
/-- With all four trig values in the π/4-band, the Hobby parameters give an
`alpha` of magnitude at most 2e-8, `beta` close to 1 + √2/2, and both
control-offset magnitudes `rho/3·|chord|`, `sigma/3·|chord|` within 2e-4 of
0.5523 for the diagonal chords of length √2, while the transverse
components stay below 2e-4. -/
lemma payload_bounds (st ct sf cf : ℝ)
    (h1 : 0.70710677 ≤ st) (h2 : st ≤ 0.70710680)
    (h3 : 0.70710677 ≤ ct) (h4 : ct ≤ 0.70710680)
    (h5 : 0.70710677 ≤ sf) (h6 : sf ≤ 0.70710680)
    (h7 : 0.70710677 ≤ cf) (h8 : cf ≤ 0.70710680) :
    (0.5521 ≤ 1 / 3 *
        ((2 + 1.41421356 * (st - 0.0625 * sf) * (sf - 0.0625 * st) * (ct - cf)) /
          (1 + 0.61803398875 * ct + 0.38196601125 * cf)) * (st + ct)) ∧
    (1 / 3 *
        ((2 + 1.41421356 * (st - 0.0625 * sf) * (sf - 0.0625 * st) * (ct - cf)) /
          (1 + 0.61803398875 * ct + 0.38196601125 * cf)) * (st + ct) ≤ 0.5525) ∧
    |1 / 3 *
        ((2 + 1.41421356 * (st - 0.0625 * sf) * (sf - 0.0625 * st) * (ct - cf)) /
          (1 + 0.61803398875 * ct + 0.38196601125 * cf)) * (ct - st)| ≤ 0.0002 ∧
    (0.5521 ≤ 1 / 3 *
        ((2 - 1.41421356 * (st - 0.0625 * sf) * (sf - 0.0625 * st) * (ct - cf)) /
          (1 + 0.61803398875 * ct + 0.38196601125 * cf)) * (sf + cf)) ∧
    (1 / 3 *
        ((2 - 1.41421356 * (st - 0.0625 * sf) * (sf - 0.0625 * st) * (ct - cf)) /
          (1 + 0.61803398875 * ct + 0.38196601125 * cf)) * (sf + cf) ≤ 0.5525) ∧
    |1 / 3 *
        ((2 - 1.41421356 * (st - 0.0625 * sf) * (sf - 0.0625 * st) * (ct - cf)) /
          (1 + 0.61803398875 * ct + 0.38196601125 * cf)) * (cf - sf)| ≤ 0.0002 := by
  have hf1 : |st - 0.0625 * sf| ≤ 0.663 := abs_le.mpr ⟨by linarith, by linarith⟩
  have hf2 : |sf - 0.0625 * st| ≤ 0.663 := abs_le.mpr ⟨by linarith, by linarith⟩
  have hf3 : |ct - cf| ≤ 0.00000003 := abs_le.mpr ⟨by linarith, by linarith⟩
  have hc0 : |(1.41421356 : ℝ)| ≤ 1.41421356 :=
    le_of_eq (abs_of_pos (by norm_num))
  have halphaAbs :
      |1.41421356 * (st - 0.0625 * sf) * (sf - 0.0625 * st) * (ct - cf)|
        ≤ 0.00000002 := by
    calc |1.41421356 * (st - 0.0625 * sf) * (sf - 0.0625 * st) * (ct - cf)|
        = |(1.41421356 : ℝ)| * |st - 0.0625 * sf| * |sf - 0.0625 * st| * |ct - cf| := by
          rw [abs_mul, abs_mul, abs_mul]
      _ ≤ 1.41421356 * 0.663 * 0.663 * 0.00000003 := by gcongr
      _ ≤ 0.00000002 := by norm_num
  have halpha := abs_le.mp halphaAbs
  have hbl : (1.70710677 : ℝ) ≤ 1 + 0.61803398875 * ct + 0.38196601125 * cf := by
    linarith
  have hbu : 1 + 0.61803398875 * ct + 0.38196601125 * cf ≤ (1.70710680 : ℝ) := by
    linarith
  have hbpos : (0 : ℝ) < 1 + 0.61803398875 * ct + 0.38196601125 * cf := by linarith
  have hRl : (1.171572 : ℝ) ≤
      (2 + 1.41421356 * (st - 0.0625 * sf) * (sf - 0.0625 * st) * (ct - cf)) /
        (1 + 0.61803398875 * ct + 0.38196601125 * cf) := by
    rw [le_div_iff hbpos]
    linarith [halpha.1, halpha.2]
  have hRu : (2 + 1.41421356 * (st - 0.0625 * sf) * (sf - 0.0625 * st) * (ct - cf)) /
        (1 + 0.61803398875 * ct + 0.38196601125 * cf) ≤ (1.171574 : ℝ) := by
    rw [div_le_iff hbpos]
    linarith [halpha.1, halpha.2]
  have hSl : (1.171572 : ℝ) ≤
      (2 - 1.41421356 * (st - 0.0625 * sf) * (sf - 0.0625 * st) * (ct - cf)) /
        (1 + 0.61803398875 * ct + 0.38196601125 * cf) := by
    rw [le_div_iff hbpos]
    linarith [halpha.1, halpha.2]
  have hSu : (2 - 1.41421356 * (st - 0.0625 * sf) * (sf - 0.0625 * st) * (ct - cf)) /
        (1 + 0.61803398875 * ct + 0.38196601125 * cf) ≤ (1.171574 : ℝ) := by
    rw [div_le_iff hbpos]
    linarith [halpha.1, halpha.2]
  have hsumt1 : (1.41421354 : ℝ) ≤ st + ct := by linarith
  have hsumt2 : st + ct ≤ (1.41421360 : ℝ) := by linarith
  have hsumf1 : (1.41421354 : ℝ) ≤ sf + cf := by linarith
  have hsumf2 : sf + cf ≤ (1.41421360 : ℝ) := by linarith
  have hdt : |ct - st| ≤ (0.00000003 : ℝ) := abs_le.mpr ⟨by linarith, by linarith⟩
  have hdf : |cf - sf| ≤ (0.00000003 : ℝ) := abs_le.mpr ⟨by linarith, by linarith⟩
  refine ⟨?_, ?_, ?_, ?_, ?_, ?_⟩
  · linarith [mul_le_mul hRl hsumt1 (by norm_num : (0:ℝ) ≤ 1.41421354) (by linarith)]
  · linarith [mul_le_mul hRu hsumt2 (by linarith) (by norm_num : (0:ℝ) ≤ 1.171574)]
  · have habs : |1 / 3 *
        ((2 + 1.41421356 * (st - 0.0625 * sf) * (sf - 0.0625 * st) * (ct - cf)) /
          (1 + 0.61803398875 * ct + 0.38196601125 * cf)) * (ct - st)|
        = 1 / 3 *
        ((2 + 1.41421356 * (st - 0.0625 * sf) * (sf - 0.0625 * st) * (ct - cf)) /
          (1 + 0.61803398875 * ct + 0.38196601125 * cf)) * |ct - st| := by
      rw [abs_mul]
      congr 1
      rw [abs_of_pos (by linarith [hRl] : (0:ℝ) < 1 / 3 *
        ((2 + 1.41421356 * (st - 0.0625 * sf) * (sf - 0.0625 * st) * (ct - cf)) /
          (1 + 0.61803398875 * ct + 0.38196601125 * cf)))]
    rw [habs]
    linarith [mul_le_mul hRu hdt (abs_nonneg _) (by norm_num : (0:ℝ) ≤ 1.171574)]
  · linarith [mul_le_mul hSl hsumf1 (by norm_num : (0:ℝ) ≤ 1.41421354) (by linarith)]
  · linarith [mul_le_mul hSu hsumf2 (by linarith) (by norm_num : (0:ℝ) ≤ 1.171574)]
  · have habs : |1 / 3 *
        ((2 - 1.41421356 * (st - 0.0625 * sf) * (sf - 0.0625 * st) * (ct - cf)) /
          (1 + 0.61803398875 * ct + 0.38196601125 * cf)) * (cf - sf)|
        = 1 / 3 *
        ((2 - 1.41421356 * (st - 0.0625 * sf) * (sf - 0.0625 * st) * (ct - cf)) /
          (1 + 0.61803398875 * ct + 0.38196601125 * cf)) * |cf - sf| := by
      rw [abs_mul]
      congr 1
      rw [abs_of_pos (by linarith [hSl] : (0:ℝ) < 1 / 3 *
        ((2 - 1.41421356 * (st - 0.0625 * sf) * (sf - 0.0625 * st) * (ct - cf)) /
          (1 + 0.61803398875 * ct + 0.38196601125 * cf)))]
    rw [habs]
    linarith [mul_le_mul hSu hdf (abs_nonneg _) (by norm_num : (0:ℝ) ≤ 1.171574)]


lemma angle_band (k : ℝ) (hk : |k| ≤ 1) :
    |Real.pi / 4 + k * dl - Real.pi / 4| ≤ 0.00000001 := by
  rw [add_sub_cancel_left, abs_mul, abs_of_pos dl_pos]
  have h2 := dl_lt
  have h3 := dl_pos
  nlinarith [abs_nonneg k]

lemma circ_band_th0 : |theta circSeg 0 - Real.pi / 4| ≤ 0.00000001 := by
  rw [show theta circSeg 0 = Real.pi / 4 + (2521 / 20196) * dl from by
    rw [circSeg_theta, circSeg_theta0, circSeg_t0]]
  exact angle_band _ (abs_le.mpr ⟨by norm_num, by norm_num⟩)

lemma circ_band_th1 : |theta circSeg 1 - Real.pi / 4| ≤ 0.00000001 := by
  rw [show theta circSeg 1 = Real.pi / 4 + (1 / 20196) * dl from by
    rw [circSeg_theta, circSeg_theta1]]
  exact angle_band _ (abs_le.mpr ⟨by norm_num, by norm_num⟩)

lemma circ_band_th2 : |theta circSeg 2 - Real.pi / 4| ≤ 0.00000001 := by
  rw [show theta circSeg 2 = Real.pi / 4 + (-(2525 / 20196)) * dl from by
    rw [circSeg_theta, circSeg_theta2]
    ring]
  exact angle_band _ (abs_le.mpr ⟨by norm_num, by norm_num⟩)

lemma circ_band_th3 : |theta circSeg 3 - Real.pi / 4| ≤ 0.00000001 := by
  rw [show theta circSeg 3 = Real.pi / 4 + (-(70679 / 141372)) * dl from by
    rw [circSeg_theta, circSeg_theta3]
    ring]
  exact angle_band _ (abs_le.mpr ⟨by norm_num, by norm_num⟩)

lemma circ_band_th4 : |theta circSeg 4 - Real.pi / 4| ≤ 0.00000001 := by
  rw [show theta circSeg 4 = Real.pi / 4 + (2521 / 20196) * dl from by
    rw [circSeg_theta, circSeg_theta4, circSeg_t0]]
  exact angle_band _ (abs_le.mpr ⟨by norm_num, by norm_num⟩)

lemma circ_band_phi0 :
    |(-circSeg.psi 1 - theta circSeg 1) - Real.pi / 4| ≤ 0.00000001 := by
  rw [show -circSeg.psi 1 - theta circSeg 1 = Real.pi / 4 + (-(1 / 20196)) * dl from by
    rw [circSeg_psi1, circSeg_theta, circSeg_theta1]
    ring]
  exact angle_band _ (abs_le.mpr ⟨by norm_num, by norm_num⟩)

lemma circ_band_phi1 :
    |(-circSeg.psi 2 - theta circSeg 2) - Real.pi / 4| ≤ 0.00000001 := by
  rw [show -circSeg.psi 2 - theta circSeg 2 = Real.pi / 4 + (2525 / 20196) * dl from by
    rw [circSeg_psi2, circSeg_theta, circSeg_theta2]
    ring]
  exact angle_band _ (abs_le.mpr ⟨by norm_num, by norm_num⟩)

lemma circ_band_phi2 :
    |(-circSeg.psi 3 - theta circSeg 3) - Real.pi / 4| ≤ 0.00000001 := by
  rw [show -circSeg.psi 3 - theta circSeg 3
      = Real.pi / 4 + (-(70693 / 141372)) * dl from by
    rw [circSeg_psi3d, circSeg_theta, circSeg_theta3]
    ring]
  exact angle_band _ (abs_le.mpr ⟨by norm_num, by norm_num⟩)

lemma circ_band_phi3 :
    |(-circSeg.psi 4 - theta circSeg 4) - Real.pi / 4| ≤ 0.00000001 := by
  rw [show -circSeg.psi 4 - theta circSeg 4
      = Real.pi / 4 + (-(2521 / 20196)) * dl from by
    rw [circSeg_psi4, circSeg_theta, circSeg_theta4, circSeg_t0]
    ring]
  exact angle_band _ (abs_le.mpr ⟨by norm_num, by norm_num⟩)


set_option maxHeartbeats 3200000 in
lemma circ_chord0_close :
    |(postVal circSeg 0).1 - 1| ≤ 0.0002 ∧ |(postVal circSeg 0).2 - 1.5523| ≤ 0.0002 ∧
    |(preVal circSeg 0).1 - 1.4477| ≤ 0.0002 ∧ |(preVal circSeg 0).2 - 2| ≤ 0.0002 := by
  have hbt := trig_band (theta circSeg 0) circ_band_th0
  have hbf := trig_band (-circSeg.psi 1 - theta circSeg 1) circ_band_phi0
  have hp := payload_bounds (Real.sin (theta circSeg 0)) (Real.cos (theta circSeg 0))
    (Real.sin (-circSeg.psi 1 - theta circSeg 1))
    (Real.cos (-circSeg.psi 1 - theta circSeg 1))
    hbt.1.1 hbt.1.2 hbt.2.1 hbt.2.2 hbf.1.1 hbf.1.2 hbf.2.1 hbf.2.2
  have hB2 := abs_le.mp hp.2.2.1
  have hB4 := abs_le.mp hp.2.2.2.2.2
  unfold postVal preVal controlPoints hobbyParamsAlphaBeta hobbyParamsRhoSigma
    cunitvecs cmul
  rw [show (0:ℕ) + 1 = 1 from rfl]
  rw [circSeg_postT, circSeg_preT, recip_one]
  rw [circSeg_delta0]
  rw [show circSeg.Z 0 = ((1:ℝ), (1:ℝ)) from rfl,
    show circSeg.Z 1 = ((2:ℝ), (2:ℝ)) from rfl]
  dsimp only
  simp only [Prod.fst_add, Prod.snd_add, Prod.fst_sub, Prod.snd_sub, one_mul,
    zero_mul, mul_zero, sub_zero, add_zero, neg_mul]
  refine ⟨?_, ?_, ?_, ?_⟩
  · rw [abs_le]
    exact ⟨by linarith [hB2.1, hB2.2], by linarith [hB2.1, hB2.2]⟩
  · rw [abs_le]
    exact ⟨by linarith [hp.1], by linarith [hp.2.1]⟩
  · rw [abs_le]
    exact ⟨by linarith [hp.2.2.2.2.1], by linarith [hp.2.2.2.1]⟩
  · rw [abs_le]
    exact ⟨by linarith [hB4.1, hB4.2], by linarith [hB4.1, hB4.2]⟩


set_option maxHeartbeats 3200000 in
lemma circ_chord1_close :
    |(postVal circSeg 1).1 - 2.5523| ≤ 0.0002 ∧ |(postVal circSeg 1).2 - 2| ≤ 0.0002 ∧
    |(preVal circSeg 1).1 - 3| ≤ 0.0002 ∧ |(preVal circSeg 1).2 - 1.5523| ≤ 0.0002 := by
  have hbt := trig_band (theta circSeg 1) circ_band_th1
  have hbf := trig_band (-circSeg.psi 2 - theta circSeg 2) circ_band_phi1
  have hp := payload_bounds (Real.sin (theta circSeg 1)) (Real.cos (theta circSeg 1))
    (Real.sin (-circSeg.psi 2 - theta circSeg 2))
    (Real.cos (-circSeg.psi 2 - theta circSeg 2))
    hbt.1.1 hbt.1.2 hbt.2.1 hbt.2.2 hbf.1.1 hbf.1.2 hbf.2.1 hbf.2.2
  have hB2 := abs_le.mp hp.2.2.1
  have hB4 := abs_le.mp hp.2.2.2.2.2
  unfold postVal preVal controlPoints hobbyParamsAlphaBeta hobbyParamsRhoSigma
    cunitvecs cmul
  rw [show (1:ℕ) + 1 = 2 from rfl]
  rw [circSeg_postT, circSeg_preT, recip_one]
  rw [circSeg_delta1]
  rw [show circSeg.Z 1 = ((2:ℝ), (2:ℝ)) from rfl,
    show circSeg.Z 2 = ((3:ℝ), (1:ℝ)) from rfl]
  dsimp only
  simp only [Prod.fst_add, Prod.snd_add, Prod.fst_sub, Prod.snd_sub, one_mul,
    zero_mul, mul_zero, sub_zero, add_zero, neg_mul]
  refine ⟨?_, ?_, ?_, ?_⟩
  · rw [abs_le]
    exact ⟨by linarith [hp.1], by linarith [hp.2.1]⟩
  · rw [abs_le]
    exact ⟨by linarith [hB2.1, hB2.2], by linarith [hB2.1, hB2.2]⟩
  · rw [abs_le]
    exact ⟨by linarith [hB4.1, hB4.2], by linarith [hB4.1, hB4.2]⟩
  · rw [abs_le]
    exact ⟨by linarith [hp.2.2.2.2.1], by linarith [hp.2.2.2.1]⟩

set_option maxHeartbeats 3200000 in
lemma circ_chord2_close :
    |(postVal circSeg 2).1 - 3| ≤ 0.0002 ∧ |(postVal circSeg 2).2 - 0.4477| ≤ 0.0002 ∧
    |(preVal circSeg 2).1 - 2.5523| ≤ 0.0002 ∧ |(preVal circSeg 2).2 - 0| ≤ 0.0002 := by
  have hbt := trig_band (theta circSeg 2) circ_band_th2
  have hbf := trig_band (-circSeg.psi 3 - theta circSeg 3) circ_band_phi2
  have hp := payload_bounds (Real.sin (theta circSeg 2)) (Real.cos (theta circSeg 2))
    (Real.sin (-circSeg.psi 3 - theta circSeg 3))
    (Real.cos (-circSeg.psi 3 - theta circSeg 3))
    hbt.1.1 hbt.1.2 hbt.2.1 hbt.2.2 hbf.1.1 hbf.1.2 hbf.2.1 hbf.2.2
  have hB2 := abs_le.mp hp.2.2.1
  have hB4 := abs_le.mp hp.2.2.2.2.2
  unfold postVal preVal controlPoints hobbyParamsAlphaBeta hobbyParamsRhoSigma
    cunitvecs cmul
  rw [show (2:ℕ) + 1 = 3 from rfl]
  rw [circSeg_postT, circSeg_preT, recip_one]
  rw [circSeg_delta2]
  rw [show circSeg.Z 2 = ((3:ℝ), (1:ℝ)) from rfl,
    show circSeg.Z 3 = ((2:ℝ), (0:ℝ)) from rfl]
  dsimp only
  simp only [Prod.fst_add, Prod.snd_add, Prod.fst_sub, Prod.snd_sub, one_mul,
    zero_mul, mul_zero, sub_zero, add_zero, neg_mul]
  refine ⟨?_, ?_, ?_, ?_⟩
  · rw [abs_le]
    exact ⟨by linarith [hB2.1, hB2.2], by linarith [hB2.1, hB2.2]⟩
  · rw [abs_le]
    exact ⟨by linarith [hp.2.1], by linarith [hp.1]⟩
  · rw [abs_le]
    exact ⟨by linarith [hp.2.2.2.2.1], by linarith [hp.2.2.2.1]⟩
  · rw [abs_le]
    exact ⟨by linarith [hB4.1, hB4.2], by linarith [hB4.1, hB4.2]⟩

set_option maxHeartbeats 3200000 in
lemma circ_chord3_close :
    |(postVal circSeg 3).1 - 1.4477| ≤ 0.0002 ∧ |(postVal circSeg 3).2 - 0| ≤ 0.0002 ∧
    |(preVal circSeg 3).1 - 1| ≤ 0.0002 ∧ |(preVal circSeg 3).2 - 0.4477| ≤ 0.0002 := by
  have hbt := trig_band (theta circSeg 3) circ_band_th3
  have hbf := trig_band (-circSeg.psi 4 - theta circSeg 4) circ_band_phi3
  have hp := payload_bounds (Real.sin (theta circSeg 3)) (Real.cos (theta circSeg 3))
    (Real.sin (-circSeg.psi 4 - theta circSeg 4))
    (Real.cos (-circSeg.psi 4 - theta circSeg 4))
    hbt.1.1 hbt.1.2 hbt.2.1 hbt.2.2 hbf.1.1 hbf.1.2 hbf.2.1 hbf.2.2
  have hB2 := abs_le.mp hp.2.2.1
  have hB4 := abs_le.mp hp.2.2.2.2.2
  unfold postVal preVal controlPoints hobbyParamsAlphaBeta hobbyParamsRhoSigma
    cunitvecs cmul
  rw [show (3:ℕ) + 1 = 4 from rfl]
  rw [circSeg_postT, circSeg_preT, recip_one]
  rw [circSeg_delta3]
  rw [show circSeg.Z 3 = ((2:ℝ), (0:ℝ)) from rfl,
    show circSeg.Z 4 = ((1:ℝ), (1:ℝ)) from rfl]
  dsimp only
  simp only [Prod.fst_add, Prod.snd_add, Prod.fst_sub, Prod.snd_sub, one_mul,
    zero_mul, mul_zero, sub_zero, add_zero, neg_mul]
  refine ⟨?_, ?_, ?_, ?_⟩
  · rw [abs_le]
    exact ⟨by linarith [hp.2.1], by linarith [hp.1]⟩
  · rw [abs_le]
    exact ⟨by linarith [hB2.1, hB2.2], by linarith [hB2.1, hB2.2]⟩
  · rw [abs_le]
    exact ⟨by linarith [hB4.1, hB4.2], by linarith [hB4.1, hB4.2]⟩
  · rw [abs_le]
    exact ⟨by linarith [hp.2.2.2.2.1], by linarith [hp.2.2.2.1]⟩


/-- "Within 2e-4 per coordinate" for a stored control point. -/
def near (v : Option (ℝ × ℝ)) (x y : ℝ) : Prop :=
  ∃ p, v = some p ∧ |p.1 - x| ≤ 0.0002 ∧ |p.2 - y| ≤ 0.0002

/-- C1: on the cyclic four-knot path (1,1), (2,2), (3,1), (2,0) with no
explicit direction, curl or tension constraints, `FindHobbyControls`
succeeds, and each computed control point matches the expected value to
within 2e-4 per coordinate: post[0]=(1.0000,1.5523), pre[1]=(1.4477,2.0000),
post[1]=(2.5523,2.0000), pre[2]=(3.0000,1.5523), post[2]=(3.0000,0.4477),
pre[3]=(2.5523,0.0000), post[3]=(1.4477,0.0000), pre[0]=(1.0000,0.4477). -/
theorem c1_circle_spline :
    (FindHobbyControls (some circ) none).2 = none ∧
    near ((FindHobbyControls (some circ) none).1.PostControl 0) 1 1.5523 ∧
    near ((FindHobbyControls (some circ) none).1.PreControl 1) 1.4477 2 ∧
    near ((FindHobbyControls (some circ) none).1.PostControl 1) 2.5523 2 ∧
    near ((FindHobbyControls (some circ) none).1.PreControl 2) 3 1.5523 ∧
    near ((FindHobbyControls (some circ) none).1.PostControl 2) 3 0.4477 ∧
    near ((FindHobbyControls (some circ) none).1.PreControl 3) 2.5523 0 ∧
    near ((FindHobbyControls (some circ) none).1.PostControl 3) 1.4477 0 ∧
    near ((FindHobbyControls (some circ) none).1.PreControl 0) 1 0.4477 := by
  have hN2 : 2 ≤ circSeg.N := by
    rw [circSeg_N]
    omega
  obtain ⟨hpost, hpre⟩ := setControls_lookup circSeg ⟨[], []⟩ hN2
  have hc : (FindHobbyControls (some circ) none).1 = setControls circSeg ⟨[], []⟩ := by
    rw [circ_find]
  refine ⟨by rw [circ_find], ?_, ?_, ?_, ?_, ?_, ?_, ?_, ?_⟩
  · rw [hc, hpost 0, if_pos (by rw [circSeg_N]; omega)]
    exact ⟨postVal circSeg 0, rfl, circ_chord0_close.1, circ_chord0_close.2.1⟩
  · rw [hc, hpre 1, if_neg (by omega), if_pos (by rw [circSeg_N]; omega)]
    exact ⟨preVal circSeg 0, rfl, circ_chord0_close.2.2.1, circ_chord0_close.2.2.2⟩
  · rw [hc, hpost 1, if_pos (by rw [circSeg_N]; omega)]
    exact ⟨postVal circSeg 1, rfl, circ_chord1_close.1, circ_chord1_close.2.1⟩
  · rw [hc, hpre 2, if_neg (by omega), if_pos (by rw [circSeg_N]; omega)]
    exact ⟨preVal circSeg 1, rfl, circ_chord1_close.2.2.1, circ_chord1_close.2.2.2⟩
  · rw [hc, hpost 2, if_pos (by rw [circSeg_N]; omega)]
    exact ⟨postVal circSeg 2, rfl, circ_chord2_close.1, circ_chord2_close.2.1⟩
  · rw [hc, hpre 3, if_neg (by omega), if_pos (by rw [circSeg_N])]
    exact ⟨preVal circSeg 2, rfl, circ_chord2_close.2.2.1, circ_chord2_close.2.2.2⟩
  · rw [hc, hpost 3, if_pos (by rw [circSeg_N]; omega)]
    exact ⟨postVal circSeg 3, rfl, circ_chord3_close.1, circ_chord3_close.2.1⟩
  · rw [hc, hpre 0, if_pos rfl]
    exact ⟨preVal circSeg 3, rfl, circ_chord3_close.2.2.1, circ_chord3_close.2.2.2⟩

end JHobbyR
